import Mathlib

/-!
sudoku_dj: puzzle generation, refinement and validation.

A shallow embedding of `internal/sudoku/solver.go` (with the data model of
`internal/models/puzzle.go`) and the properties proved about it.

Modelling conventions.

* `PuzzleGrid` is the Go type `[9][9]C.int`: nine rows of nine integers, read
  with `cellAt` and written with `setCell`.  An index computed at run time
  (from a position key) may fall outside `0..8`; Go then panics, which is
  modelled by `none`.
* A Go `map[string]Cell` is a list of key/cell entries.  The order of the list
  stands for the order in which the Go runtime happens to iterate over the
  map; the theorems hold for every list, hence for every iteration order.
* The process-wide random source is an infinite sequence `draws : Nat → Nat`
  read through a cursor; `rand.Intn(n)` returns the next element reduced
  modulo `n`, so every value of `[0, n)` can occur.
* A `for` loop that resamples until it finds an empty cell takes a `fuel`
  argument bounding the number of samples; `none` means that the loop is still
  running after `fuel` samples.
* The C functions `solve_sudoku` and `count_solutions` are not part of the Go
  sources; they are parameters (`Solver`).
-/

namespace Sudoku

/-! ## Data model (`internal/models/puzzle.go`) -/

/-- Cell of a puzzle: `Value` is a Go `int`, `Notes` a slice, `Status` a string
(`"s"` system, `"w"` wrong, `"c"` correct, `""` unset). -/
structure Cell where
  Value : Int
  Notes : List Int
  Status : String
  deriving DecidableEq

/-- Puzzle with metadata; `Cells` is the Go map from position key to cell. -/
structure Puzzle where
  UUID : String
  CreatedAt : String
  Cells : List (String × Cell)
  Difficulty : Int
  deriving DecidableEq

/-- The Go type `PuzzleGrid = [9][9]C.int`. -/
abbrev PuzzleGrid := Mathlib.Vector (Mathlib.Vector Int 9) 9

/-- A grid position `(row, col)`. -/
abbrev Pos := Fin 9 × Fin 9

/-- The read `grid[r][c]`. -/
def cellAt (g : PuzzleGrid) (r c : Fin 9) : Int := (g.get r).get c

/-- Assignment `grid[x][y] = v`. -/
def setCell (g : PuzzleGrid) (x y : Fin 9) (v : Int) : PuzzleGrid :=
  g.set x ((g.get x).set y v)

/-- The grid whose cell `(r, c)` holds `f r c`. -/
def gridOf (f : Fin 9 → Fin 9 → Int) : PuzzleGrid :=
  Mathlib.Vector.ofFn (fun r => Mathlib.Vector.ofFn (f r))

/-- The zero value of `PuzzleGrid` (`var grid PuzzleGrid`). -/
def zeroGrid : PuzzleGrid := Mathlib.Vector.replicate 9 (Mathlib.Vector.replicate 9 0)

/-! ## Machine integers and the Go library functions used by the code -/

/-- Largest Go `int` (64 bit). -/
def maxInt64 : Int := 9223372036854775807

/-- Smallest Go `int` (64 bit). -/
def minInt64 : Int := -9223372036854775808

/-- Wrap-around of Go `int` arithmetic. -/
def wrapInt64 (v : Int) : Int := (v + 9223372036854775808) % 18446744073709551616 - 9223372036854775808

/-- The conversion `C.int(v)` of a Go `int` to a 32 bit C `int` (truncation). -/
def toCInt (v : Int) : Int := (v + 2147483648) % 4294967296 - 2147483648

/-- Decimal value of a list of ASCII digits, most significant first. -/
def digitsValue (ds : List Char) : Nat :=
  ds.foldl (fun acc d => 10 * acc + (d.toNat - 48)) 0

/-- Go `strconv.Atoi`: an optional sign followed by one or more decimal digits.
The result is the value and whether parsing succeeded (`err == nil`); on a
syntax error the value is `0`, on a range error it is the nearest Go `int`. -/
def atoi (s : String) : Int × Bool :=
  let body : Bool × List Char :=
    match s.data with
    | [] => (false, [])
    | c :: cs => if c = '-' then (true, cs) else if c = '+' then (false, cs) else (false, c :: cs)
  if body.2 = [] then (0, false)
  else if body.2.all Char.isDigit then
    let v : Int := if body.1 then -(digitsValue body.2 : Int) else (digitsValue body.2 : Int)
    if maxInt64 < v then (maxInt64, false)
    else if v < minInt64 then (minInt64, false)
    else (v, true)
  else (0, false)

/-- Go `fmt.Sprintf("%02d", n)` for a non-negative `n`: at least two decimal
digits, padded with a leading zero. -/
def sprintf02d (n : Nat) : String :=
  if n < 10 then String.mk ['0', Nat.digitChar n] else String.mk (Nat.toDigits 10 n)

/-- Decoding of a position key as done in `cellsToGrid` and `ValidateSolution`:
`pos, _ := strconv.Atoi(posKey); row, col := (pos-1)/9, (pos-1)%9` with Go's
truncating division.  The result is `none` when `row` or `col` is not a valid
index of the 9×9 array, where Go panics on the array access. -/
def keyPos (posKey : String) : Option Pos :=
  let pos := (atoi posKey).1
  let row := Int.tdiv (wrapInt64 (pos - 1)) 9
  let col := Int.tmod (wrapInt64 (pos - 1)) 9
  if h : (0 ≤ row ∧ row < 9) ∧ (0 ≤ col ∧ col < 9) then
    some (⟨row.toNat, by omega⟩, ⟨col.toNat, by omega⟩)
  else none

/-! ## The external solver -/

/-- Modelled from the spec: the C functions `solve_sudoku` and `count_solutions`
(declared in `sudoku.h`, called through cgo) are not among the Go sources.  Section
4.1 of the specification describes them as pure functions of the input grid.
`solve_sudoku` receives a pointer to the grid, writes into it and returns whether
it succeeded: here it returns the grid it leaves behind and the flag.
`count_solutions` returns a C `int` and leaves the grid as it found it. -/
structure Solver where
  solve_sudoku : PuzzleGrid → PuzzleGrid × Bool
  count_solutions : PuzzleGrid → Int

/-! ## Conversions between grids and cell maps -/

/-- The 81 positions in row-major order. -/
def allPositions : List Pos :=
  (List.finRange 9).flatMap (fun r => (List.finRange 9).map (fun c => (r, c)))

/-- Key of a position: `pos := row*9 + col + 1; posKey := fmt.Sprintf("%02d", pos)`. -/
def posKey (p : Pos) : String := sprintf02d (p.1.val * 9 + p.2.val + 1)

/-- Go `gridToCells`: one entry per position, with the grid value, empty notes and
empty status.  The keys are pairwise distinct, so every assignment
`cells[posKey] = ...` adds an entry. -/
def gridToCells (grid : PuzzleGrid) : List (String × Cell) :=
  allPositions.map (fun p => (posKey p, { Value := cellAt grid p.1 p.2, Notes := [], Status := "" }))

/-- Go `cellsToGrid`: `grid[row][col] = C.int(cell.Value)` for every entry of the
map, starting from the zero grid; `none` when an index is out of range. -/
def cellsToGrid (cells : List (String × Cell)) : Option PuzzleGrid :=
  cells.foldlM
    (fun grid e => (keyPos e.1).map (fun p => setCell grid p.1 p.2 (toCInt e.2.Value)))
    zeroGrid

/-! ## `AttemptSolve` and `ValidateSolution` -/

/-- Go `AttemptSolve`. -/
def AttemptSolve (S : Solver) (cells : List (String × Cell)) :
    Option (List (String × Cell) × Bool) :=
  match cellsToGrid cells with
  | none => none
  | some grid =>
    let r := S.solve_sudoku grid
    if r.2 then some (gridToCells r.1, true) else some (cells, false)

/-- First loop of `ValidateSolution`: the grid holding only the cells whose
status is `"s"`. -/
def systemGridOf (cells : List (String × Cell)) : Option PuzzleGrid :=
  cells.foldlM
    (fun grid e =>
      if e.2.Status = "s" then
        (keyPos e.1).map (fun p => setCell grid p.1 p.2 (toCInt e.2.Value))
      else some grid)
    zeroGrid

/-- Body of the last loop of `ValidateSolution` for one entry of the map. -/
def validateCell (solved : PuzzleGrid) (e : String × Cell) : Option (String × Cell) :=
  if e.2.Status = "s" ∨ e.2.Value = 0 then some e
  else
    (keyPos e.1).map (fun p =>
      (e.1, { e.2 with Status := if cellAt solved p.1 p.2 = toCInt e.2.Value then "c" else "w" }))

/-- Last loop of `ValidateSolution` over the entries of the map. -/
def validateCells (solved : PuzzleGrid) : List (String × Cell) → Option (List (String × Cell))
  | [] => some []
  | e :: rest =>
    match validateCell solved e with
    | none => none
    | some e1 =>
      match validateCells solved rest with
      | none => none
      | some rest1 => some (e1 :: rest1)

/-- Go `ValidateSolution`.  The grid `userGrid` is built for logging only, but
its construction indexes the array with every key of the map. -/
def ValidateSolution (S : Solver) (puzzle : Puzzle) : Option (Puzzle × Bool) :=
  match systemGridOf puzzle.Cells with
  | none => none
  | some systemGrid =>
    let r := S.solve_sudoku systemGrid
    if r.2 = false then some (puzzle, false)
    else
      match cellsToGrid puzzle.Cells with
      | none => none
      | some _ =>
        match validateCells r.1 puzzle.Cells with
        | none => none
        | some cells => some ({ puzzle with Cells := cells }, true)

/-! ## Random placement and refinement -/

/-- The resampling loop shared by `placeRandomNumbers` and the backfill of
`refinePuzzle`:
`x, y := rand.Intn(9), rand.Intn(9); for grid[x][y] != 0 { x, y = rand.Intn(9), rand.Intn(9) }`.
Reads the draws from cursor `k` on and returns the empty position found with
the new cursor, or `none` if `fuel` samples did not find one. -/
def sampleEmpty (draws : Nat → Nat) (grid : PuzzleGrid) : Nat → Nat → Option (Pos × Nat)
  | 0, _ => none
  | fuel + 1, k =>
    let x : Fin 9 := ⟨draws k % 9, Nat.mod_lt _ (by decide)⟩
    let y : Fin 9 := ⟨draws (k + 1) % 9, Nat.mod_lt _ (by decide)⟩
    if cellAt grid x y ≠ 0 then sampleEmpty draws grid fuel (k + 2) else some ((x, y), k + 2)

/-- Go `initializeGrid`: every cell is set to zero. -/
def initializeGrid (_grid : PuzzleGrid) : PuzzleGrid := gridOf (fun _ _ => 0)

/-- Loop of `placeRandomNumbers` with `n` numbers still to place, the next one
being `num`. -/
def placeLoop (draws : Nat → Nat) (fuel : Nat) :
    Nat → Int → PuzzleGrid → Nat → Option (PuzzleGrid × Nat)
  | 0, _, grid, k => some (grid, k)
  | n + 1, num, grid, k =>
    match sampleEmpty draws grid fuel k with
    | none => none
    | some (p, k1) => placeLoop draws fuel n (num + 1) (setCell grid p.1 p.2 (toCInt num)) k1

/-- Go `placeRandomNumbers`: `for num := 1; num <= 9; num++`. -/
def placeRandomNumbers (draws : Nat → Nat) (fuel : Nat) (grid : PuzzleGrid) (k : Nat) :
    Option (PuzzleGrid × Nat) :=
  placeLoop draws fuel 9 1 grid k

/-- The position list before shuffling: `positions[i] = [2]int{i / 9, i % 9}`. -/
def initialPositions : List Pos :=
  (List.finRange 81).map (fun i =>
    ((⟨i.val / 9, by omega⟩ : Fin 9), (⟨i.val % 9, by omega⟩ : Fin 9)))

/-- The exchange `positions[i], positions[j] = positions[j], positions[i]`. -/
def swapAt (ps : List Pos) (i j : Nat) : List Pos :=
  (ps.set i (ps.getD j default)).set j (ps.getD i default)

/-- The shuffle loop of `refinePuzzle`, `n` steps from index `i`:
`j := i + rand.Intn(len(positions)-i)` followed by the exchange. -/
def shuffleLoop (draws : Nat → Nat) : Nat → Nat → List Pos → Nat → List Pos × Nat
  | 0, _, ps, k => (ps, k)
  | n + 1, i, ps, k =>
    shuffleLoop draws n (i + 1) (swapAt ps i (i + draws k % (ps.length - i))) (k + 1)

/-- The shuffled position list of `refinePuzzle` and the cursor after it. -/
def shuffledPositions (draws : Nat → Nat) (k : Nat) : List Pos × Nat :=
  shuffleLoop draws initialPositions.length 0 initialPositions k

/-- One iteration of the removal loop of `refinePuzzle` (Phase A) at position
`p`: skip an empty cell, otherwise clear it and restore the value when
`count_solutions` reports more than one solution. -/
def tryRemove (S : Solver) (grid : PuzzleGrid) (p : Pos) : PuzzleGrid :=
  if cellAt grid p.1 p.2 = 0 then grid
  else
    let removedValue := cellAt grid p.1 p.2
    let cleared := setCell grid p.1 p.2 0
    if 1 < S.count_solutions cleared then setCell cleared p.1 p.2 removedValue else cleared

/-- Phase A of `refinePuzzle`: the removal loop over the position list. -/
def removalPass (S : Solver) (positions : List Pos) (grid : PuzzleGrid) : PuzzleGrid :=
  positions.foldl (tryRemove S) grid

/-- Number of iterations of `for i := 9 - difficulty; i >= 0; i--`. -/
def backfillCount (difficulty : Int) : Nat := (9 - difficulty + 1).toNat

/-- The backfill loop of `refinePuzzle` with `n` iterations left: find an empty
cell of `refined` and give it the value of `grid` (the input of `refinePuzzle`)
at that position. -/
def backfill (draws : Nat → Nat) (fuel : Nat) (grid : PuzzleGrid) :
    Nat → PuzzleGrid → Nat → Option (PuzzleGrid × Nat)
  | 0, refined, k => some (refined, k)
  | n + 1, refined, k =>
    match sampleEmpty draws refined fuel k with
    | none => none
    | some (p, k1) => backfill draws fuel grid n (setCell refined p.1 p.2 (cellAt grid p.1 p.2)) k1

/-- Go `refinePuzzle`: shuffle, removal pass, backfill.  Returns the refined
grid and the cursor into the random draws. -/
def refinePuzzle (S : Solver) (draws : Nat → Nat) (fuel : Nat) (grid : PuzzleGrid)
    (difficulty : Int) (k : Nat) : Option (PuzzleGrid × Nat) :=
  let sh := shuffledPositions draws k
  backfill draws fuel grid (backfillCount difficulty) (removalPass S sh.1 grid) sh.2

/-- The loop of `CreatePuzzle` that marks system cells: a cell with a nonzero
value gets status `"s"`. -/
def markSystem (cells : List (String × Cell)) : List (String × Cell) :=
  cells.map (fun e => if e.2.Value ≠ 0 then (e.1, { e.2 with Status := "s" }) else e)

/-- The end of `CreatePuzzle` (lines 91 to 122), reached when the solver has
succeeded: the solved cells are converted back to a grid, the grid is refined
and the puzzle is built with its system cells marked. -/
def createFromSolved (S : Solver) (draws : Nat → Nat) (fuel : Nat) (uuid createdAt : String)
    (level : Int) (k : Nat) (solvedCells : List (String × Cell)) : Option Puzzle :=
  match cellsToGrid solvedCells with
  | none => none
  | some solutionGrid =>
    match refinePuzzle S draws fuel solutionGrid level k with
    | none => none
    | some r =>
      some { UUID := uuid, CreatedAt := createdAt,
             Cells := markSystem (gridToCells r.1), Difficulty := level }

/-- The branch of `CreatePuzzle` on the outcome of `AttemptSolve` (lines 86 to
89): when the solver failed the puzzle returned is
`models.Puzzle{Cells: make(map[string]models.Cell)}`. -/
def createFromAttempt (S : Solver) (draws : Nat → Nat) (fuel : Nat) (uuid createdAt : String)
    (level : Int) (k : Nat) (attempt : Option (List (String × Cell) × Bool)) : Option Puzzle :=
  match attempt with
  | none => none
  | some r =>
    if r.2 = false then some { UUID := "", CreatedAt := "", Cells := [], Difficulty := 0 }
    else createFromSolved S draws fuel uuid createdAt level k r.1

/-- Go `CreatePuzzle`.  The fresh identifier `uuid.New().String()` and the time
stamp `time.Now().Format(time.RFC3339)` are inputs; the draws are read from
cursor `0`. -/
def CreatePuzzle (S : Solver) (draws : Nat → Nat) (fuel : Nat) (uuid createdAt : String)
    (level : Int) : Option Puzzle :=
  match placeRandomNumbers draws fuel (initializeGrid zeroGrid) 0 with
  | none => none
  | some r =>
    createFromAttempt S draws fuel uuid createdAt level r.2 (AttemptSolve S (gridToCells r.1))

/-! ## `ParseDifficulty`, `ListPuzzles` and `HandleValidatePuzzle` -/

/-- Go `ParseDifficulty` (`internal/utils/utils.go`). -/
def ParseDifficulty (difficultyStr : String) : Int :=
  if difficultyStr = "" then 5
  else
    let r := atoi difficultyStr
    if r.2 = false ∨ r.1 < 0 ∨ r.1 > 9 then 5 else r.1

/-- The difficulty that `ListPuzzles` (`internal/utils/storage.go`, lines 63 to
89) reports for one puzzle file; `loaded` is the outcome of `LoadPuzzle`, `none`
when it returned an error.  The estimate `int(float64(filledCells)/9.0)` is
written with the integer division: for a count of cells the quotient computed in
`float64` and truncated is the integer quotient. -/
def listedDifficulty (loaded : Option Puzzle) : Int :=
  match loaded with
  | none => 1
  | some puzzle =>
    if puzzle.Difficulty < 1 ∨ puzzle.Difficulty > 9 then
      let filledCells : Nat := puzzle.Cells.countP (fun e => decide (e.2.Status = "s"))
      let estimate : Int := 10 - ((filledCells / 9 : Nat) : Int)
      if estimate < 1 then 1 else if estimate > 9 then 9 else estimate
    else puzzle.Difficulty

/-- The answer of an HTTP handler: an error written with `http.Error`, or a
puzzle encoded as JSON, each with its status code. -/
inductive Response where
  | failure (code : Nat) (message : String)
  | puzzle (code : Nat) (body : Puzzle)
  deriving DecidableEq

/-- Go `HandleValidatePuzzle` (`internal/api/handlers.go`).  The outcome of
`r.ParseForm()` and of decoding the JSON body are inputs: `formFailed` tells that
`ParseForm` returned an error, `decoded` is the puzzle read from the body, `none`
when `Decode` returned an error.  The result is `none` when `ValidateSolution`
panics. -/
def HandleValidatePuzzle (S : Solver) (formFailed : Bool) (decoded : Option Puzzle) :
    Option Response :=
  if formFailed then some (Response.failure 400 "Failed to parse form data")
  else
    match decoded with
    | none => some (Response.failure 400 "Failed to decode puzzle from request body")
    | some puzzle =>
      match ValidateSolution S puzzle with
      | none => none
      | some r => some (Response.puzzle 200 r.1)

/-! ## Vocabulary of the properties -/

/-- A completely filled grid with digits `1..9` in which no digit occurs twice
in a row, in a column or in a 3×3 region. -/
def validGrid (g : PuzzleGrid) : Prop :=
  (∀ r c, 1 ≤ cellAt g r c ∧ cellAt g r c ≤ 9) ∧
  (∀ r c1 c2, cellAt g r c1 = cellAt g r c2 → c1 = c2) ∧
  (∀ c r1 r2, cellAt g r1 c = cellAt g r2 c → r1 = r2) ∧
  (∀ r1 c1 r2 c2 : Fin 9, r1.val / 3 = r2.val / 3 → c1.val / 3 = c2.val / 3 →
    cellAt g r1 c1 = cellAt g r2 c2 → r1 = r2 ∧ c1 = c2)

instance : DecidablePred validGrid := fun g => by
  unfold validGrid
  infer_instance

/-- The grid `sol` keeps every fixed (nonzero) cell of `g`. -/
def keepsClues (g sol : PuzzleGrid) : Prop := ∀ r c, cellAt g r c ≠ 0 → cellAt sol r c = cellAt g r c

instance (g sol : PuzzleGrid) : Decidable (keepsClues g sol) := by
  unfold keepsClues
  infer_instance

/-- The grid `sol` is a completion of `g`: a valid filled grid consistent with
the fixed cells of `g`. -/
def isCompletion (g sol : PuzzleGrid) : Prop := validGrid sol ∧ keepsClues g sol

instance (g sol : PuzzleGrid) : Decidable (isCompletion g sol) := by
  unfold isCompletion
  infer_instance

/-- The grid `g` has exactly one completion. -/
def hasUniqueCompletion (g : PuzzleGrid) : Prop := ∃! sol, isCompletion g sol

/-- The grid `g` has more than one completion. -/
def hasMultipleCompletions (g : PuzzleGrid) : Prop :=
  ∃ s1 s2, s1 ≠ s2 ∧ isCompletion g s1 ∧ isCompletion g s2

/-- Contract of `solve_sudoku` (section 4.1): when it reports success, the grid
it leaves is a completion of the grid it was given. -/
def solveSound (S : Solver) : Prop :=
  ∀ g, (S.solve_sudoku g).2 = true → isCompletion g (S.solve_sudoku g).1

/-- Contract of `count_solutions` (section 4.1): it tells one completion at most
from more than one. -/
def countSound (S : Solver) : Prop :=
  ∀ g, 1 < S.count_solutions g ↔ hasMultipleCompletions g

/-- Every cell of `h` is empty or holds the value of `g` at that position. -/
def subGrid (h g : PuzzleGrid) : Prop := ∀ r c, cellAt h r c = 0 ∨ cellAt h r c = cellAt g r c

/-- Every cell of the grid is nonzero. -/
def fullGrid (g : PuzzleGrid) : Prop := ∀ r c, cellAt g r c ≠ 0

/-- Number of nonzero cells (clues) of a grid. -/
def clueCount (g : PuzzleGrid) : Nat :=
  (Finset.univ.filter (fun p : Pos => cellAt g p.1 p.2 ≠ 0)).card

/-- Number of empty cells of a grid. -/
def emptyCount (g : PuzzleGrid) : Nat :=
  (Finset.univ.filter (fun p : Pos => cellAt g p.1 p.2 = 0)).card

/-- Every key of the map is one of the keys `"01"` .. `"81"`. -/
def wellFormedKeys (cells : List (String × Cell)) : Prop :=
  ∀ e ∈ cells, ∃ p : Pos, e.1 = posKey p

instance (cells : List (String × Cell)) : Decidable (wellFormedKeys cells) := by
  unfold wellFormedKeys
  infer_instance

/-- Every key of the map is decoded to a row and a column in `0..8`. -/
def decodableKeys (cells : List (String × Cell)) : Prop :=
  ∀ e ∈ cells, ∃ q : Pos, keyPos e.1 = some q

/-- The value fits a C `int`. -/
def fitsCInt (v : Int) : Prop := -2147483648 ≤ v ∧ v < 2147483648

/-- What `ValidateSolution` does to one entry `e` of the map, given the solved
grid: the key, the value and the notes stay; a system cell and a cell with value
`0` stay as they are; any other cell whose key denotes the position `q` gets
status `"c"` when its value, converted to a C `int`, is the solved value at `q`,
and `"w"` otherwise.  For a value that fits a C `int` this is the comparison of
the value itself. -/
def markedAgainst (solved : PuzzleGrid) (e e1 : String × Cell) : Prop :=
  e1.1 = e.1 ∧ e1.2.Value = e.2.Value ∧ e1.2.Notes = e.2.Notes ∧
  (e.2.Status = "s" → e1 = e) ∧
  (e.2.Status ≠ "s" → e.2.Value = 0 → e1.2.Status = e.2.Status) ∧
  (e.2.Status ≠ "s" → e.2.Value ≠ 0 →
    ∃ q : Pos, keyPos e.1 = some q ∧
      (e1.2.Status = if toCInt e.2.Value = cellAt solved q.1 q.2 then "c" else "w") ∧
      (fitsCInt e.2.Value →
        e1.2.Status = if e.2.Value = cellAt solved q.1 q.2 then "c" else "w"))

/-- Frame of `ValidateSolution` on one entry: nothing but the status changes, and
the status changes only on a cell that is not a system cell and has a nonzero
value. -/
def sameButStatus (e e1 : String × Cell) : Prop :=
  e1.1 = e.1 ∧ e1.2.Value = e.2.Value ∧ e1.2.Notes = e.2.Notes ∧
  (e.2.Status = "s" ∨ e.2.Value = 0 → e1 = e)

/-- The grid read back from the cell map of `g`: every value goes through
`int(...)` in `gridToCells` and `C.int(...)` in `cellsToGrid`. -/
def throughCells (g : PuzzleGrid) : PuzzleGrid := gridOf (fun r c => toCInt (cellAt g r c))

/-- Every cell of the grid holds a C `int`. -/
def gridFits (g : PuzzleGrid) : Prop := ∀ r c, fitsCInt (cellAt g r c)

/-- The puzzle `CreatePuzzle` returns when the solver fails on the seed grid:
`models.Puzzle{Cells: make(map[string]models.Cell)}`. -/
def failedPuzzle : Puzzle := { UUID := "", CreatedAt := "", Cells := [], Difficulty := 0 }

/-- The draws keep reaching every position: from every cursor on, each pair
`(x, y)` is the outcome of some later sample of the resampling loop. -/
def fairDraws (draws : Nat → Nat) : Prop :=
  ∀ (k : Nat) (x y : Fin 9), ∃ j, draws (k + 2 * j) % 9 = x.val ∧ draws (k + 2 * j + 1) % 9 = y.val

/-! ## A reference solver

Modelled from the spec: the C solver is not among the Go sources, so the
following backtracking search stands for it where a concrete solver is needed.
It follows the contract of section 4.1: `solve` looks for any completion,
`countSolutions` counts completions and may stop at the second one.  Both
give up at once on a grid whose fixed cells already clash. -/

/-- The digits a cell can hold. -/
def digits : List Int := [1, 2, 3, 4, 5, 6, 7, 8, 9]

/-- Two distinct positions that share a row, a column or a 3×3 region. -/
def sameUnit (p q : Pos) : Prop :=
  p ≠ q ∧ (p.1 = q.1 ∨ p.2 = q.2 ∨ (p.1.val / 3 = q.1.val / 3 ∧ p.2.val / 3 = q.2.val / 3))

instance (p q : Pos) : Decidable (sameUnit p q) := by
  unfold sameUnit
  infer_instance

/-- The digit `v` does not yet occur in the row, column or region of `p`. -/
def canPlace (g : PuzzleGrid) (p : Pos) (v : Int) : Bool :=
  allPositions.all (fun q => decide (sameUnit p q → cellAt g q.1 q.2 ≠ v))

/-- The fixed cells of `g` hold digits and no digit occurs twice in a row, a
column or a region. -/
def cluesOk (g : PuzzleGrid) : Bool :=
  allPositions.all (fun p =>
    decide (cellAt g p.1 p.2 = 0) ||
      (decide (1 ≤ cellAt g p.1 p.2 ∧ cellAt g p.1 p.2 ≤ 9) && canPlace g p (cellAt g p.1 p.2)))

/-- All completions of `g` reached by backtracking over the positions `ps`, in
the order in which `searchFrom` and `countFrom` meet them. -/
def completionsFrom : List Pos → PuzzleGrid → List PuzzleGrid
  | [], g => if validGrid g then [g] else []
  | p :: ps, g =>
    if cellAt g p.1 p.2 ≠ 0 then completionsFrom ps g
    else (digits.filter (canPlace g p)).flatMap (fun v => completionsFrom ps (setCell g p.1 p.2 v))

/-- Modelled from the spec: backtracking search over the positions `ps` for a
completion of `g` (section 4.1, `solve`). -/
def searchFrom : List Pos → PuzzleGrid → Option PuzzleGrid
  | [], g => if validGrid g then some g else none
  | p :: ps, g =>
    if cellAt g p.1 p.2 ≠ 0 then searchFrom ps g
    else (digits.filter (canPlace g p)).findSome? (fun v => searchFrom ps (setCell g p.1 p.2 v))

/-- Modelled from the spec: number of completions of `g` found by backtracking
over the positions `ps`, counting up to `limit` (section 4.1, `countSolutions`
with a cap). -/
def countFrom : List Pos → PuzzleGrid → Nat → Nat
  | [], g, limit => if validGrid g then min 1 limit else 0
  | p :: ps, g, limit =>
    if cellAt g p.1 p.2 ≠ 0 then countFrom ps g limit
    else
      (digits.filter (canPlace g p)).foldl
        (fun found v =>
          if limit ≤ found then found
          else found + countFrom ps (setCell g p.1 p.2 v) (limit - found))
        0

/-- Modelled from the spec: a solver meeting the contract of section 4.1.
`solve_sudoku` leaves the grid untouched when it fails. -/
def referenceSolver : Solver where
  solve_sudoku := fun g =>
    match (if cluesOk g then searchFrom allPositions g else none) with
    | some sol => (sol, true)
    | none => (g, false)
  count_solutions := fun g => if cluesOk g then (countFrom allPositions g 2 : Nat) else 0

/-! ## Examples -/

/-- A solved grid used in the examples:
row `r` is `1..9` rotated by `3 * (r % 3) + r / 3`. -/
def exampleSolution : PuzzleGrid :=
  gridOf (fun r c => (((3 * (r.val % 3) + r.val / 3 + c.val) % 9 + 1 : Nat) : Int))

/-- A puzzle used in the examples.  Its system cells are the cells of
`exampleSolution` except the first three, which hold a right user entry, a
wrong user entry and no entry. -/
def examplePuzzle : Puzzle where
  UUID := "0b0e7a3c"
  CreatedAt := "2024-01-01T00:00:00Z"
  Difficulty := 5
  Cells :=
    ("01", { Value := 1, Notes := [], Status := "" }) ::
    ("02", { Value := 5, Notes := [2, 5], Status := "" }) ::
    ("03", { Value := 0, Notes := [], Status := "" }) ::
    (markSystem (gridToCells exampleSolution)).drop 3

/-- The puzzle `examplePuzzle` after validation. -/
def examplePuzzleValidated : Puzzle where
  UUID := "0b0e7a3c"
  CreatedAt := "2024-01-01T00:00:00Z"
  Difficulty := 5
  Cells :=
    ("01", { Value := 1, Notes := [], Status := "c" }) ::
    ("02", { Value := 5, Notes := [2, 5], Status := "w" }) ::
    ("03", { Value := 0, Notes := [], Status := "" }) ::
    (markSystem (gridToCells exampleSolution)).drop 3

/-- A puzzle whose two system cells put the digit 1 twice into the first row. -/
def clashPuzzle : Puzzle where
  UUID := "7d1f3c55"
  CreatedAt := "2024-01-02T00:00:00Z"
  Difficulty := 3
  Cells :=
    [("01", { Value := 1, Notes := [], Status := "s" }),
     ("02", { Value := 1, Notes := [], Status := "s" }),
     ("03", { Value := 4, Notes := [], Status := "" })]

/-- A sequence of draws used in the examples.  The first 18 draws put the digits
`1..9` on the first row, the next 81 draws are `0` and leave the position list of
`refinePuzzle` in row-major order, and from then on the pairs run through all
positions again and again. -/
def exampleDraws (i : Nat) : Nat :=
  if i < 18 then (if i % 2 = 0 then 0 else i / 2)
  else if i < 99 then 0
  else if i % 2 = 0 then i / 2 % 9 else i / 18 % 9

/-- The seed grid placed by the example draws: the digits `1..9` on the first
row. -/
def exampleSeed : PuzzleGrid :=
  gridOf (fun r c => if r = 0 then ((c.val + 1 : Nat) : Int) else 0)

/-- Draws that place the digits 1, 2 and 3 at `(0, 0)`, `(0, 1)` and `(1, 0)` and
the other digits on the diagonal. -/
def cornerDraws (i : Nat) : Nat :=
  [0, 0, 0, 1, 1, 0, 3, 3, 4, 4, 5, 5, 6, 6, 7, 7, 8, 8].getD i 0

/-- The seed grid placed by `cornerDraws`. -/
def cornerSeed : PuzzleGrid :=
  gridOf (fun r c =>
    if r = 0 ∧ c = 0 then 1 else if r = 0 ∧ c = 1 then 2 else if r = 1 ∧ c = 0 then 3
    else if r = c ∧ 3 ≤ r.val then ((r.val + 1 : Nat) : Int) else 0)

/-- A decoded request puzzle whose only cell, a system cell, has the key `"00"`. -/
def badKeyPuzzle : Puzzle where
  UUID := "5a1c0e9d"
  CreatedAt := "2024-01-03T00:00:00Z"
  Difficulty := 4
  Cells := [("00", { Value := 1, Notes := [], Status := "s" })]

/-- A decoded request puzzle with well-formed keys in which the first cell, a
user cell, has the value 12; the other cells are the system cells of
`exampleSolution`. -/
def badValuePuzzle : Puzzle where
  UUID := "c3f2b7a1"
  CreatedAt := "2024-01-04T00:00:00Z"
  Difficulty := 4
  Cells :=
    ("01", { Value := 12, Notes := [], Status := "" }) ::
    (markSystem (gridToCells exampleSolution)).drop 1

/-- The puzzle `badValuePuzzle` after validation: the user cell is marked wrong. -/
def badValuePuzzleValidated : Puzzle where
  UUID := "c3f2b7a1"
  CreatedAt := "2024-01-04T00:00:00Z"
  Difficulty := 4
  Cells :=
    ("01", { Value := 12, Notes := [], Status := "w" }) ::
    (markSystem (gridToCells exampleSolution)).drop 1

/-- A puzzle in which the first cell, a user cell, has the value `2^32 + 1`; the
other cells are the system cells of `exampleSolution`, whose first cell is 1. -/
def wrappedValuePuzzle : Puzzle where
  UUID := "91d04e6b"
  CreatedAt := "2024-01-05T00:00:00Z"
  Difficulty := 4
  Cells :=
    ("01", { Value := 4294967297, Notes := [], Status := "" }) ::
    (markSystem (gridToCells exampleSolution)).drop 1

/-- The puzzle `wrappedValuePuzzle` after validation: the user cell is marked
correct. -/
def wrappedValuePuzzleValidated : Puzzle where
  UUID := "91d04e6b"
  CreatedAt := "2024-01-05T00:00:00Z"
  Difficulty := 4
  Cells :=
    ("01", { Value := 4294967297, Notes := [], Status := "c" }) ::
    (markSystem (gridToCells exampleSolution)).drop 1

/-- A decoded request puzzle with the keys `"1"`, `"+5"` and `"081"`, none of them
among `"01"` .. `"81"`. -/
def oddKeyPuzzle : Puzzle where
  UUID := "e7a9130c"
  CreatedAt := "2024-01-06T00:00:00Z"
  Difficulty := 4
  Cells :=
    [("1", { Value := 1, Notes := [], Status := "s" }),
     ("+5", { Value := 7, Notes := [], Status := "" }),
     ("081", { Value := 1, Notes := [], Status := "s" })]

/-- The puzzle `examplePuzzle` stored with difficulty 0. -/
def easiestPuzzle : Puzzle := { examplePuzzle with Difficulty := 0 }

/-! # Theorems -/

/-! ## Reading and writing cells -/

theorem cellAt_setCell (g : PuzzleGrid) (x y : Fin 9) (v : Int) (r c : Fin 9) :
    cellAt (setCell g x y v) r c = if r = x ∧ c = y then v else cellAt g r c := by
  unfold cellAt setCell
  by_cases hr : r = x
  · subst hr
    rw [Mathlib.Vector.get_set_same]
    by_cases hc : c = y
    · subst hc
      simp
    · rw [Mathlib.Vector.get_set_of_ne (Ne.symm hc)]
      simp [hc]
  · rw [Mathlib.Vector.get_set_of_ne (Ne.symm hr)]
    simp [hr]

theorem cellAt_gridOf (f : Fin 9 → Fin 9 → Int) (r c : Fin 9) : cellAt (gridOf f) r c = f r c := by
  simp [cellAt, gridOf]

theorem cellAt_zeroGrid (r c : Fin 9) : cellAt zeroGrid r c = 0 := by
  unfold cellAt zeroGrid
  rw [Mathlib.Vector.get_replicate, Mathlib.Vector.get_replicate]

theorem grid_ext {g h : PuzzleGrid} (hgh : ∀ r c, cellAt g r c = cellAt h r c) : g = h := by
  apply Mathlib.Vector.ext
  intro r
  apply Mathlib.Vector.ext
  intro c
  exact hgh r c

theorem setCell_restore (g : PuzzleGrid) (x y : Fin 9) (v : Int) :
    setCell (setCell g x y v) x y (cellAt g x y) = g := by
  apply grid_ext
  intro r c
  rw [cellAt_setCell, cellAt_setCell]
  by_cases h : r = x ∧ c = y
  · obtain ⟨rfl, rfl⟩ := h
    simp
  · simp [h]

/-! ## Decoding of position keys -/

theorem keyPos_posKey (p : Pos) : keyPos (posKey p) = some p := by
  revert p
  decide

theorem toCInt_of_fits {v : Int} (h : fitsCInt v) : toCInt v = v := by
  unfold fitsCInt at h
  unfold toCInt
  omega

theorem fitsCInt_toCInt (v : Int) : fitsCInt (toCInt v) := by
  unfold fitsCInt toCInt
  omega

theorem toCInt_toCInt (v : Int) : toCInt (toCInt v) = toCInt v :=
  toCInt_of_fits (fitsCInt_toCInt v)

/-! ## Loops over a cell map -/

theorem validateCells_forall₂ (solved : PuzzleGrid) :
    ∀ (l l' : List (String × Cell)), validateCells solved l = some l' →
      List.Forall₂ (fun a b => validateCell solved a = some b) l l' := by
  intro l
  induction l with
  | nil =>
    intro l' h
    simp [validateCells] at h
    subst h
    exact List.Forall₂.nil
  | cons a as ih =>
    intro l' h
    unfold validateCells at h
    cases hfa : validateCell solved a with
    | none => simp [hfa] at h
    | some b =>
      cases hrest : validateCells solved as with
      | none => simp [hfa, hrest] at h
      | some bs =>
        simp [hfa, hrest] at h
        subst h
        exact List.Forall₂.cons hfa (ih bs hrest)

theorem validateCells_of_forall₂ (solved : PuzzleGrid) {l l' : List (String × Cell)}
    (h : List.Forall₂ (fun a b => validateCell solved a = some b) l l') :
    validateCells solved l = some l' := by
  induction h with
  | nil => rfl
  | cons hab _ ih =>
    unfold validateCells
    simp [hab, ih]

/-- Step of the loop that builds the system grid. -/
theorem systemGridOf_eq_foldlM (cells : List (String × Cell)) :
    systemGridOf cells = cells.foldlM
      (fun grid e =>
        if e.2.Status = "s" then
          (keyPos e.1).map (fun p => setCell grid p.1 p.2 (toCInt e.2.Value))
        else some grid) zeroGrid := rfl

theorem systemFold_congr {l l' : List (String × Cell)}
    (h : List.Forall₂ (fun e e' : String × Cell => e'.1 = e.1 ∧ e'.2.Value = e.2.Value ∧
      (e'.2.Status = "s" ↔ e.2.Status = "s")) l l') :
    ∀ init : PuzzleGrid,
      l.foldlM (fun grid e =>
        if e.2.Status = "s" then
          (keyPos e.1).map (fun p => setCell grid p.1 p.2 (toCInt e.2.Value))
        else some grid) init =
      l'.foldlM (fun grid e =>
        if e.2.Status = "s" then
          (keyPos e.1).map (fun p => setCell grid p.1 p.2 (toCInt e.2.Value))
        else some grid) init := by
  induction h with
  | nil => intro init; rfl
  | @cons a b as bs hab _ ih =>
    intro init
    obtain ⟨hk, hv, hs⟩ := hab
    rw [List.foldlM_cons, List.foldlM_cons]
    by_cases hsa : a.2.Status = "s"
    · have hsb : b.2.Status = "s" := hs.mpr hsa
      simp only [hsa, hsb, if_true, hk, hv]
      cases keyPos a.1 with
      | none => rfl
      | some q => exact ih _
    · have hsb : ¬ b.2.Status = "s" := fun hb => hsa (hs.mp hb)
      simp [hsa, hsb, ih]

theorem systemGridOf_congr {l l' : List (String × Cell)}
    (h : List.Forall₂ (fun e e' : String × Cell => e'.1 = e.1 ∧ e'.2.Value = e.2.Value ∧
      (e'.2.Status = "s" ↔ e.2.Status = "s")) l l') :
    systemGridOf l = systemGridOf l' :=
  systemFold_congr h zeroGrid

theorem cellsFold_congr {l l' : List (String × Cell)}
    (h : List.Forall₂ (fun e e' : String × Cell => e'.1 = e.1 ∧ e'.2.Value = e.2.Value) l l') :
    ∀ init : PuzzleGrid,
      l.foldlM (fun grid e =>
        (keyPos e.1).map (fun p => setCell grid p.1 p.2 (toCInt e.2.Value))) init =
      l'.foldlM (fun grid e =>
        (keyPos e.1).map (fun p => setCell grid p.1 p.2 (toCInt e.2.Value))) init := by
  induction h with
  | nil => intro init; rfl
  | @cons a b as bs hab _ ih =>
    intro init
    obtain ⟨hk, hv⟩ := hab
    rw [List.foldlM_cons, List.foldlM_cons, hk, hv]
    cases keyPos a.1 with
    | none => rfl
    | some q => exact ih _

theorem cellsToGrid_congr {l l' : List (String × Cell)}
    (h : List.Forall₂ (fun e e' : String × Cell => e'.1 = e.1 ∧ e'.2.Value = e.2.Value) l l') :
    cellsToGrid l = cellsToGrid l' :=
  cellsFold_congr h zeroGrid

/-! ## `ValidateSolution` -/

theorem validateCell_skip {solved : PuzzleGrid} {e : String × Cell}
    (h : e.2.Status = "s" ∨ e.2.Value = 0) : validateCell solved e = some e := by
  unfold validateCell
  rw [if_pos h]

theorem validateCell_check {solved : PuzzleGrid} {e e1 : String × Cell}
    (h : ¬ (e.2.Status = "s" ∨ e.2.Value = 0)) (he : validateCell solved e = some e1) :
    ∃ q : Pos, keyPos e.1 = some q ∧
      e1 = (e.1, { e.2 with
        Status := if cellAt solved q.1 q.2 = toCInt e.2.Value then "c" else "w" }) := by
  unfold validateCell at he
  rw [if_neg h] at he
  cases hq : keyPos e.1 with
  | none => simp [hq] at he
  | some q =>
    refine ⟨q, rfl, ?_⟩
    simp [hq] at he
    exact he.symm

theorem validateCell_sameButStatus {solved : PuzzleGrid} {e e1 : String × Cell}
    (he : validateCell solved e = some e1) : sameButStatus e e1 := by
  by_cases h : e.2.Status = "s" ∨ e.2.Value = 0
  · rw [validateCell_skip h] at he
    cases he
    exact ⟨rfl, rfl, rfl, fun _ => rfl⟩
  · obtain ⟨q, _, rfl⟩ := validateCell_check h he
    exact ⟨rfl, rfl, rfl, fun h1 => absurd h1 h⟩

theorem validateCell_status_s {solved : PuzzleGrid} {e e1 : String × Cell}
    (he : validateCell solved e = some e1) : e1.2.Status = "s" ↔ e.2.Status = "s" := by
  by_cases h : e.2.Status = "s" ∨ e.2.Value = 0
  · rw [validateCell_skip h] at he
    cases he
    exact Iff.rfl
  · obtain ⟨q, _, rfl⟩ := validateCell_check h he
    have hs : ¬ e.2.Status = "s" := fun h1 => h (Or.inl h1)
    constructor
    · intro h1
      exfalso
      by_cases hc : cellAt solved q.1 q.2 = toCInt e.2.Value
      · simp [hc] at h1
      · simp [hc] at h1
    · intro h1
      exact absurd h1 hs

theorem validateCell_markedAgainst {solved : PuzzleGrid} {e e1 : String × Cell}
    (he : validateCell solved e = some e1) : markedAgainst solved e e1 := by
  obtain ⟨hk, hv, hn, hf⟩ := validateCell_sameButStatus he
  refine ⟨hk, hv, hn, fun hs => hf (Or.inl hs), fun _ h0 => ?_, fun hs h0 => ?_⟩
  · rw [hf (Or.inr h0)]
  · have h : ¬ (e.2.Status = "s" ∨ e.2.Value = 0) := fun h1 => h1.elim hs h0
    obtain ⟨q, hq, rfl⟩ := validateCell_check h he
    have hgen : (if cellAt solved q.1 q.2 = toCInt e.2.Value then "c" else "w") =
        (if toCInt e.2.Value = cellAt solved q.1 q.2 then "c" else "w") := by
      by_cases hc : cellAt solved q.1 q.2 = toCInt e.2.Value
      · rw [if_pos hc, if_pos hc.symm]
      · rw [if_neg hc, if_neg (fun h1 => hc h1.symm)]
    refine ⟨q, hq, hgen, fun hfit => ?_⟩
    exact hgen.trans (by rw [toCInt_of_fits hfit])

theorem validateCell_idem {solved : PuzzleGrid} {e e1 : String × Cell}
    (he : validateCell solved e = some e1) : validateCell solved e1 = some e1 := by
  by_cases h : e.2.Status = "s" ∨ e.2.Value = 0
  · rw [validateCell_skip h] at he
    cases he
    exact validateCell_skip h
  · obtain ⟨q, hq, rfl⟩ := validateCell_check h he
    have hs1 := (validateCell_status_s he)
    unfold validateCell
    have h1 : ¬ ((e.1, ({ e.2 with
        Status := if cellAt solved q.1 q.2 = toCInt e.2.Value then "c" else "w" } : Cell)).2.Status = "s"
        ∨ (e.1, ({ e.2 with
        Status := if cellAt solved q.1 q.2 = toCInt e.2.Value then "c" else "w" } : Cell)).2.Value = 0) := by
      rintro (h1 | h1)
      · exact h (Or.inl (hs1.mp h1))
      · exact h (Or.inr h1)
    rw [if_neg h1]
    simp [hq]

/-- The possible outcomes of `ValidateSolution`. -/
theorem ValidateSolution_cases {S : Solver} {p p1 : Puzzle} {ok : Bool}
    (h : ValidateSolution S p = some (p1, ok)) :
    ∃ sg, systemGridOf p.Cells = some sg ∧
      (((S.solve_sudoku sg).2 = false ∧ ok = false ∧ p1 = p) ∨
       ((S.solve_sudoku sg).2 = true ∧ ok = true ∧
         ∃ cells, validateCells (S.solve_sudoku sg).1 p.Cells = some cells ∧
           p1 = { p with Cells := cells })) := by
  unfold ValidateSolution at h
  cases hsg : systemGridOf p.Cells with
  | none => simp [hsg] at h
  | some sg =>
    refine ⟨sg, rfl, ?_⟩
    simp only [hsg] at h
    by_cases hs : (S.solve_sudoku sg).2 = false
    · left
      simp only [hs, if_true, Option.some.injEq, Prod.mk.injEq] at h
      exact ⟨hs, h.2.symm, h.1.symm⟩
    · right
      rw [if_neg hs] at h
      have hs1 : (S.solve_sudoku sg).2 = true := by simpa using hs
      cases hug : cellsToGrid p.Cells with
      | none => simp [hug] at h
      | some ug =>
        simp only [hug] at h
        cases hvc : validateCells (S.solve_sudoku sg).1 p.Cells with
        | none => simp [hvc] at h
        | some cells =>
          simp only [hvc, Option.some.injEq, Prod.mk.injEq] at h
          exact ⟨hs1, h.2.symm, cells, rfl, h.1.symm⟩

theorem ValidateSolution_failed {S : Solver} {p : Puzzle} {sg : PuzzleGrid}
    (hsg : systemGridOf p.Cells = some sg) (hs : (S.solve_sudoku sg).2 = false) :
    ValidateSolution S p = some (p, false) := by
  unfold ValidateSolution
  simp [hsg, hs]

theorem ValidateSolution_solved {S : Solver} {p : Puzzle} {sg ug : PuzzleGrid}
    {cells : List (String × Cell)}
    (hsg : systemGridOf p.Cells = some sg) (hs : (S.solve_sudoku sg).2 = true)
    (hug : cellsToGrid p.Cells = some ug)
    (hvc : validateCells (S.solve_sudoku sg).1 p.Cells = some cells) :
    ValidateSolution S p = some ({ p with Cells := cells }, true) := by
  unfold ValidateSolution
  simp [hsg, hs, hug, hvc]

theorem forall₂_sameButStatus_refine {l l1 : List (String × Cell)}
    (h : List.Forall₂ sameButStatus l l1) :
    List.Forall₂ (fun e e1 : String × Cell => e1.1 = e.1 ∧ e1.2.Value = e.2.Value) l l1 :=
  List.Forall₂.imp (fun _ _ hab => ⟨hab.1, hab.2.1⟩) h

theorem systemFold_total {l : List (String × Cell)} (h : wellFormedKeys l) :
    ∀ init : PuzzleGrid, ∃ g,
      l.foldlM (fun grid e =>
        if e.2.Status = "s" then
          (keyPos e.1).map (fun p => setCell grid p.1 p.2 (toCInt e.2.Value))
        else some grid) init = some g := by
  induction l with
  | nil => intro init; exact ⟨init, rfl⟩
  | cons a as ih =>
    intro init
    obtain ⟨q, hq⟩ := h a (List.mem_cons_self a as)
    have has : wellFormedKeys as := fun e he => h e (List.mem_cons_of_mem a he)
    rw [List.foldlM_cons]
    by_cases hs : a.2.Status = "s"
    · simp only [hs, if_true, hq, keyPos_posKey, Option.map_some']
      exact ih has _
    · simp only [hs, if_false]
      exact ih has _

theorem cellsFold_total {l : List (String × Cell)} (h : wellFormedKeys l) :
    ∀ init : PuzzleGrid, ∃ g,
      l.foldlM (fun grid e =>
        (keyPos e.1).map (fun p => setCell grid p.1 p.2 (toCInt e.2.Value))) init = some g := by
  induction l with
  | nil => intro init; exact ⟨init, rfl⟩
  | cons a as ih =>
    intro init
    obtain ⟨q, hq⟩ := h a (List.mem_cons_self a as)
    have has : wellFormedKeys as := fun e he => h e (List.mem_cons_of_mem a he)
    rw [List.foldlM_cons]
    simp only [hq, keyPos_posKey, Option.map_some']
    exact ih has _

theorem validateCells_total (solved : PuzzleGrid) {l : List (String × Cell)}
    (h : wellFormedKeys l) : ∃ l1, validateCells solved l = some l1 := by
  induction l with
  | nil => exact ⟨[], rfl⟩
  | cons a as ih =>
    obtain ⟨q, hq⟩ := h a (List.mem_cons_self a as)
    have has : wellFormedKeys as := fun e he => h e (List.mem_cons_of_mem a he)
    obtain ⟨l1, hl1⟩ := ih has
    have ha : ∃ a1, validateCell solved a = some a1 := by
      unfold validateCell
      by_cases hc : a.2.Status = "s" ∨ a.2.Value = 0
      · exact ⟨a, by rw [if_pos hc]⟩
      · rw [if_neg hc, hq, keyPos_posKey]
        exact ⟨_, rfl⟩
    obtain ⟨a1, ha1⟩ := ha
    refine ⟨a1 :: l1, ?_⟩
    unfold validateCells
    simp [ha1, hl1]

/-- On a map whose keys are all among `"01"` .. `"81"` the validation runs to
its end. -/
theorem ValidateSolution_total (S : Solver) {p : Puzzle} (h : wellFormedKeys p.Cells) :
    ∃ p1 ok, ValidateSolution S p = some (p1, ok) := by
  obtain ⟨sg, hsg⟩ := systemFold_total h zeroGrid
  obtain ⟨ug, hug⟩ := cellsFold_total h zeroGrid
  by_cases hs : (S.solve_sudoku sg).2 = false
  · exact ⟨p, false, ValidateSolution_failed hsg hs⟩
  · have hs1 : (S.solve_sudoku sg).2 = true := by simpa using hs
    obtain ⟨cells, hc⟩ := validateCells_total (S.solve_sudoku sg).1 h
    exact ⟨_, true, ValidateSolution_solved hsg hs1 hug hc⟩

theorem forall₂_validateCell_idem {solved : PuzzleGrid} {l l1 : List (String × Cell)}
    (h : List.Forall₂ (fun a b => validateCell solved a = some b) l l1) :
    List.Forall₂ (fun a b => validateCell solved a = some b) l1 l1 := by
  induction h with
  | nil => exact List.Forall₂.nil
  | cons hab _ ih => exact List.Forall₂.cons (validateCell_idem hab) ih

/-- A second validation changes nothing. -/
theorem ValidateSolution_again {S : Solver} {p p1 : Puzzle} {ok : Bool}
    (h : ValidateSolution S p = some (p1, ok)) : ValidateSolution S p1 = some (p1, ok) := by
  obtain ⟨sg, hsg, hcase⟩ := ValidateSolution_cases h
  rcases hcase with ⟨_, rfl, rfl⟩ | ⟨hs, rfl, cells, hvc, rfl⟩
  · exact h
  · have hf := validateCells_forall₂ _ _ _ hvc
    have hsame : List.Forall₂ sameButStatus p.Cells cells :=
      List.Forall₂.imp (fun _ _ hab => validateCell_sameButStatus hab) hf
    have hsys : List.Forall₂ (fun e e1 : String × Cell => e1.1 = e.1 ∧ e1.2.Value = e.2.Value ∧
        (e1.2.Status = "s" ↔ e.2.Status = "s")) p.Cells cells :=
      List.Forall₂.imp (fun _ _ hab =>
        ⟨(validateCell_sameButStatus hab).1, (validateCell_sameButStatus hab).2.1,
          validateCell_status_s hab⟩) hf
    have hsg1 : systemGridOf cells = some sg := by
      rw [← systemGridOf_congr hsys]
      exact hsg
    have hug : ∃ ug, cellsToGrid p.Cells = some ug := by
      unfold ValidateSolution at h
      simp only [hsg, hs] at h
      cases hug : cellsToGrid p.Cells with
      | none => simp [hug] at h
      | some ug => exact ⟨ug, rfl⟩
    obtain ⟨ug, hug⟩ := hug
    have hug1 : cellsToGrid cells = some ug := by
      rw [← cellsToGrid_congr (forall₂_sameButStatus_refine hsame)]
      exact hug
    have hvc1 : validateCells (S.solve_sudoku sg).1 cells = some cells :=
      validateCells_of_forall₂ _ (forall₂_validateCell_idem hf)
    exact ValidateSolution_solved (p := { p with Cells := cells }) hsg1 hs hug1 hvc1

theorem forall₂_sameButStatus_refl (l : List (String × Cell)) :
    List.Forall₂ sameButStatus l l := by
  induction l with
  | nil => exact List.Forall₂.nil
  | cons a as ih => exact List.Forall₂.cons ⟨rfl, rfl, rfl, fun _ => rfl⟩ ih

theorem examplePuzzle_validated :
    ValidateSolution referenceSolver examplePuzzle = some (examplePuzzleValidated, true) := by
  decide

/-- C7.  `ValidateSolution` never touches system cells: in the puzzle it returns
the identifier, the creation time and the difficulty are those of the input, the
map has the same keys, and every cell has the same value and notes; a cell that
is a system cell or has value 0 is identical to the input cell, so only the
status of non-system cells with a nonzero value can differ. -/
theorem ValidateSolution_frame (S : Solver) (p p1 : Puzzle) (ok : Bool)
    (h : ValidateSolution S p = some (p1, ok)) :
    p1.UUID = p.UUID ∧ p1.CreatedAt = p.CreatedAt ∧ p1.Difficulty = p.Difficulty ∧
      List.Forall₂ sameButStatus p.Cells p1.Cells := by
  obtain ⟨sg, _, hcase⟩ := ValidateSolution_cases h
  rcases hcase with ⟨_, _, rfl⟩ | ⟨_, _, cells, hvc, rfl⟩
  · exact ⟨rfl, rfl, rfl, forall₂_sameButStatus_refl _⟩
  · exact ⟨rfl, rfl, rfl, List.Forall₂.imp (fun _ _ hab => validateCell_sameButStatus hab)
      (validateCells_forall₂ _ _ _ hvc)⟩

theorem ValidateSolution_frame_witness :
    ValidateSolution referenceSolver examplePuzzle = some (examplePuzzleValidated, true) ∧
    (examplePuzzleValidated.UUID = examplePuzzle.UUID ∧
      examplePuzzleValidated.CreatedAt = examplePuzzle.CreatedAt ∧
      examplePuzzleValidated.Difficulty = examplePuzzle.Difficulty ∧
      List.Forall₂ sameButStatus examplePuzzle.Cells examplePuzzleValidated.Cells) :=
  ⟨examplePuzzle_validated,
    ValidateSolution_frame referenceSolver examplePuzzle examplePuzzleValidated true
      examplePuzzle_validated⟩

/-- C8.  When the solver cannot complete the system-only grid, `ValidateSolution`
returns the puzzle unchanged together with `ok = false`; and whenever it returns,
`ok = true` exactly when the solver succeeded on the system-only grid. -/
theorem ValidateSolution_unsolvable (S : Solver) (p : Puzzle) (sg : PuzzleGrid)
    (hsg : systemGridOf p.Cells = some sg) :
    ((S.solve_sudoku sg).2 = false → ValidateSolution S p = some (p, false)) ∧
    (∀ p1 ok, ValidateSolution S p = some (p1, ok) →
      (ok = true ↔ (S.solve_sudoku sg).2 = true)) := by
  refine ⟨fun hs => ValidateSolution_failed hsg hs, fun p1 ok h => ?_⟩
  obtain ⟨sg1, hsg1, hcase⟩ := ValidateSolution_cases h
  rw [hsg] at hsg1
  cases hsg1
  rcases hcase with ⟨hs, rfl, _⟩ | ⟨hs, rfl, _⟩
  · simp [hs]
  · simp [hs]

theorem ValidateSolution_unsolvable_witness :
    systemGridOf clashPuzzle.Cells = some (setCell (setCell zeroGrid 0 0 1) 0 1 1) ∧
    (referenceSolver.solve_sudoku (setCell (setCell zeroGrid 0 0 1) 0 1 1)).2 = false ∧
    ValidateSolution referenceSolver clashPuzzle = some (clashPuzzle, false) :=
  ⟨by decide, by decide,
    (ValidateSolution_unsolvable referenceSolver clashPuzzle
      (setCell (setCell zeroGrid 0 0 1) 0 1 1) (by decide)).1 (by decide)⟩

/-- C9.  Validator idempotence: on a puzzle whose keys are among `"01"` .. `"81"`,
`ValidateSolution` returns a puzzle and a flag, and applied to that puzzle it
returns the same puzzle and the same flag again. -/
theorem ValidateSolution_idempotent (S : Solver) (p : Puzzle)
    (h : wellFormedKeys p.Cells) :
    ∃ p1 ok, ValidateSolution S p = some (p1, ok) ∧ ValidateSolution S p1 = some (p1, ok) := by
  obtain ⟨p1, ok, h1⟩ := ValidateSolution_total S h
  exact ⟨p1, ok, h1, ValidateSolution_again h1⟩

set_option maxRecDepth 100000 in
theorem examplePuzzle_wellFormed : wellFormedKeys examplePuzzle.Cells := by
  decide

theorem ValidateSolution_idempotent_witness :
    wellFormedKeys examplePuzzle.Cells ∧
    ∃ p1 ok, ValidateSolution referenceSolver examplePuzzle = some (p1, ok) ∧
      ValidateSolution referenceSolver p1 = some (p1, ok) :=
  ⟨examplePuzzle_wellFormed,
    ValidateSolution_idempotent referenceSolver examplePuzzle examplePuzzle_wellFormed⟩

/-! ## Completions and sub-grids -/

theorem subGrid_refl (g : PuzzleGrid) : subGrid g g := fun _ _ => Or.inr rfl

theorem subGrid_trans {a b c : PuzzleGrid} (hab : subGrid a b) (hbc : subGrid b c) :
    subGrid a c := by
  intro r k
  rcases hab r k with h | h
  · exact Or.inl h
  · rcases hbc r k with h1 | h1
    · exact Or.inl (h.trans h1)
    · exact Or.inr (h.trans h1)

theorem subGrid_setCell_zero (g : PuzzleGrid) (x y : Fin 9) : subGrid (setCell g x y 0) g := by
  intro r c
  rw [cellAt_setCell]
  by_cases h : r = x ∧ c = y
  · exact Or.inl (by simp [h])
  · exact Or.inr (by simp [h])

theorem subGrid_setCell_zero_mono {h g : PuzzleGrid} (hs : subGrid h g) (x y : Fin 9) :
    subGrid (setCell h x y 0) (setCell g x y 0) := by
  intro r c
  rw [cellAt_setCell, cellAt_setCell]
  by_cases hxy : r = x ∧ c = y
  · exact Or.inl (by simp [hxy])
  · simp only [hxy, if_false]
    exact hs r c

theorem keepsClues_of_subGrid {h g sol : PuzzleGrid} (hs : subGrid h g)
    (hk : keepsClues g sol) : keepsClues h sol := by
  intro r c hne
  rcases hs r c with h0 | h1
  · exact absurd h0 hne
  · rw [h1]
    exact hk r c (by rw [← h1]; exact hne)

theorem isCompletion_of_subGrid {h g sol : PuzzleGrid} (hs : subGrid h g)
    (hc : isCompletion g sol) : isCompletion h sol :=
  ⟨hc.1, keepsClues_of_subGrid hs hc.2⟩

theorem isCompletion_self_of_subGrid {h G : PuzzleGrid} (hG : validGrid G) (hs : subGrid h G) :
    isCompletion h G :=
  ⟨hG, keepsClues_of_subGrid hs (fun _ _ _ => rfl)⟩

theorem hasMultipleCompletions_of_subGrid {h g : PuzzleGrid} (hs : subGrid h g)
    (hm : hasMultipleCompletions g) : hasMultipleCompletions h := by
  obtain ⟨s1, s2, hne, h1, h2⟩ := hm
  exact ⟨s1, s2, hne, isCompletion_of_subGrid hs h1, isCompletion_of_subGrid hs h2⟩

theorem hasUniqueCompletion_of_not_multiple {h sol : PuzzleGrid} (hc : isCompletion h sol)
    (hm : ¬ hasMultipleCompletions h) : hasUniqueCompletion h := by
  refine ⟨sol, hc, fun s hs => ?_⟩
  by_contra hne
  exact hm ⟨s, sol, hne, hs, hc⟩

theorem not_multiple_of_unique {h : PuzzleGrid} (hu : hasUniqueCompletion h) :
    ¬ hasMultipleCompletions h := by
  rintro ⟨s1, s2, hne, h1, h2⟩
  obtain ⟨sol, _, huniq⟩ := hu
  exact hne ((huniq s1 h1).trans (huniq s2 h2).symm)

theorem hasUniqueCompletion_of_superGrid {h g sol : PuzzleGrid} (hu : hasUniqueCompletion h)
    (hs : subGrid h g) (hc : isCompletion g sol) : hasUniqueCompletion g :=
  hasUniqueCompletion_of_not_multiple hc
    (fun hm => not_multiple_of_unique hu (hasMultipleCompletions_of_subGrid hs hm))

theorem fullGrid_of_validGrid {G : PuzzleGrid} (hG : validGrid G) : fullGrid G := by
  intro r c h0
  have := (hG.1 r c).1
  omega

theorem hasUniqueCompletion_of_validGrid {G : PuzzleGrid} (hG : validGrid G) :
    hasUniqueCompletion G := by
  refine ⟨G, ⟨hG, fun _ _ _ => rfl⟩, fun s hs => ?_⟩
  apply grid_ext
  intro r c
  exact hs.2 r c (fullGrid_of_validGrid hG r c)

/-! ## Phase A of `refinePuzzle` -/

theorem tryRemove_cases (S : Solver) (h : PuzzleGrid) (p : Pos) :
    (tryRemove S h p = h ∧
      (cellAt h p.1 p.2 = 0 ∨ 1 < S.count_solutions (setCell h p.1 p.2 0))) ∨
    (tryRemove S h p = setCell h p.1 p.2 0 ∧ cellAt h p.1 p.2 ≠ 0 ∧
      ¬ 1 < S.count_solutions (setCell h p.1 p.2 0)) := by
  unfold tryRemove
  by_cases h0 : cellAt h p.1 p.2 = 0
  · left
    simp [h0]
  · by_cases hc : 1 < S.count_solutions (setCell h p.1 p.2 0)
    · left
      refine ⟨?_, Or.inr hc⟩
      simp only [h0, if_false, hc, if_true]
      exact setCell_restore h p.1 p.2 0
    · right
      refine ⟨?_, h0, hc⟩
      simp only [h0, if_false, hc]

theorem tryRemove_subGrid (S : Solver) (h : PuzzleGrid) (p : Pos) :
    subGrid (tryRemove S h p) h := by
  rcases tryRemove_cases S h p with ⟨he, _⟩ | ⟨he, _⟩
  · rw [he]
    exact subGrid_refl h
  · rw [he]
    exact subGrid_setCell_zero h p.1 p.2

theorem removalPass_subGrid (S : Solver) (ps : List Pos) :
    ∀ h : PuzzleGrid, subGrid (removalPass S ps h) h := by
  induction ps with
  | nil => intro h; exact subGrid_refl h
  | cons q rest ih =>
    intro h
    exact subGrid_trans (ih (tryRemove S h q)) (tryRemove_subGrid S h q)

theorem tryRemove_unique {S : Solver} (hcount : countSound S) {G h : PuzzleGrid}
    (hG : validGrid G) (hs : subGrid h G) (hu : hasUniqueCompletion h) (p : Pos) :
    hasUniqueCompletion (tryRemove S h p) := by
  rcases tryRemove_cases S h p with ⟨he, _⟩ | ⟨he, _, hc⟩
  · rw [he]
    exact hu
  · rw [he]
    have hsub : subGrid (setCell h p.1 p.2 0) G :=
      subGrid_trans (subGrid_setCell_zero h p.1 p.2) hs
    exact hasUniqueCompletion_of_not_multiple (isCompletion_self_of_subGrid hG hsub)
      (fun hm => hc ((hcount _).mpr hm))

theorem removalPass_unique {S : Solver} (hcount : countSound S) {G : PuzzleGrid}
    (hG : validGrid G) (ps : List Pos) :
    ∀ h : PuzzleGrid, subGrid h G → hasUniqueCompletion h →
      hasUniqueCompletion (removalPass S ps h) := by
  induction ps with
  | nil => intro h _ hu; exact hu
  | cons q rest ih =>
    intro h hs hu
    exact ih (tryRemove S h q) (subGrid_trans (tryRemove_subGrid S h q) hs)
      (tryRemove_unique hcount hG hs hu q)

theorem tryRemove_stuck {S : Solver} (hcount : countSound S) (h : PuzzleGrid) (p : Pos)
    (hne : cellAt (tryRemove S h p) p.1 p.2 ≠ 0) :
    hasMultipleCompletions (setCell (tryRemove S h p) p.1 p.2 0) := by
  rcases tryRemove_cases S h p with ⟨he, h0 | hc⟩ | ⟨he, _, _⟩
  · rw [he] at hne
    exact absurd h0 hne
  · rw [he]
    exact (hcount _).mp hc
  · rw [he, cellAt_setCell] at hne
    simp at hne

theorem removalPass_stuck {S : Solver} (hcount : countSound S) (ps : List Pos) :
    ∀ (h : PuzzleGrid) (p : Pos), p ∈ ps → cellAt (removalPass S ps h) p.1 p.2 ≠ 0 →
      hasMultipleCompletions (setCell (removalPass S ps h) p.1 p.2 0) := by
  induction ps with
  | nil => intro h p hp; simp at hp
  | cons q rest ih =>
    intro h p hp hne
    rcases List.mem_cons.mp hp with rfl | hrest
    · have hsub : subGrid (removalPass S rest (tryRemove S h p)) (tryRemove S h p) :=
        removalPass_subGrid S rest _
      have hne1 : cellAt (tryRemove S h p) p.1 p.2 ≠ 0 := by
        rcases hsub p.1 p.2 with h0 | h1
        · exact absurd h0 hne
        · rw [← h1]
          exact hne
      exact hasMultipleCompletions_of_subGrid (subGrid_setCell_zero_mono hsub p.1 p.2)
        (tryRemove_stuck hcount h p hne1)
    · exact ih (tryRemove S h q) p hrest hne

theorem mem_allPositions (p : Pos) : p ∈ allPositions := by
  revert p
  decide

/-! ## The reference solver meets the contract of the solver -/

theorem validGrid_ne_of_sameUnit {sol : PuzzleGrid} (hv : validGrid sol) {p q : Pos}
    (hpq : sameUnit p q) : cellAt sol q.1 q.2 ≠ cellAt sol p.1 p.2 := by
  intro heq
  obtain ⟨hne, hunit⟩ := hpq
  obtain ⟨_, hrow, hcol, hreg⟩ := hv
  apply hne
  rcases hunit with h | h | ⟨h1, h2⟩
  · have := hrow q.1 q.2 p.2 (by rw [heq, h])
    exact Prod.ext h this.symm
  · have := hcol q.2 q.1 p.1 (by rw [heq, h])
    exact Prod.ext this.symm h
  · have := hreg q.1 q.2 p.1 p.2 h1.symm h2.symm heq
    exact Prod.ext this.1.symm this.2.symm

theorem mem_digits {v : Int} : v ∈ digits ↔ 1 ≤ v ∧ v ≤ 9 := by
  unfold digits
  constructor
  · intro h
    simp only [List.mem_cons, List.mem_singleton, List.not_mem_nil, or_false] at h
    omega
  · rintro ⟨h1, h9⟩
    simp only [List.mem_cons, List.mem_singleton, List.not_mem_nil, or_false]
    omega

theorem canPlace_iff (g : PuzzleGrid) (p : Pos) (v : Int) :
    canPlace g p v = true ↔ ∀ q, sameUnit p q → cellAt g q.1 q.2 ≠ v := by
  unfold canPlace
  rw [List.all_eq_true]
  constructor
  · intro h q hq
    have := h q (mem_allPositions q)
    simp only [decide_eq_true_eq] at this
    exact this hq
  · intro h q _
    simp only [decide_eq_true_eq]
    exact h q

theorem canPlace_of_isCompletion {g sol : PuzzleGrid} (hc : isCompletion g sol) (p : Pos) :
    canPlace g p (cellAt sol p.1 p.2) = true := by
  rw [canPlace_iff]
  intro q hq heq
  have hq0 : cellAt g q.1 q.2 ≠ 0 := by
    rw [heq]
    have := (hc.1.1 p.1 p.2).1
    omega
  have := hc.2 q.1 q.2 hq0
  exact validGrid_ne_of_sameUnit hc.1 hq (this.trans heq)

theorem cluesOk_of_isCompletion {g sol : PuzzleGrid} (hc : isCompletion g sol) :
    cluesOk g = true := by
  unfold cluesOk
  rw [List.all_eq_true]
  intro p _
  by_cases h0 : cellAt g p.1 p.2 = 0
  · simp [h0]
  · have hs := hc.2 p.1 p.2 h0
    have hr := hc.1.1 p.1 p.2
    have hcan := canPlace_of_isCompletion hc p
    rw [hs] at hr hcan
    simp [h0, hr.1, hr.2, hcan]

theorem keepsClues_setCell_iff {g sol : PuzzleGrid} {p : Pos} {v : Int}
    (h0 : cellAt g p.1 p.2 = 0) (hv : v ≠ 0) :
    keepsClues (setCell g p.1 p.2 v) sol ↔ cellAt sol p.1 p.2 = v ∧ keepsClues g sol := by
  constructor
  · intro h
    constructor
    · have := h p.1 p.2 (by rw [cellAt_setCell]; simpa using hv)
      rw [this, cellAt_setCell]
      simp
    · intro r c hne
      have hrc : ¬ (r = p.1 ∧ c = p.2) := by
        rintro ⟨rfl, rfl⟩
        exact hne h0
      have := h r c (by rw [cellAt_setCell]; simpa [hrc] using hne)
      rw [this, cellAt_setCell]
      simp [hrc]
  · rintro ⟨hp, hk⟩ r c hne
    rw [cellAt_setCell] at hne ⊢
    by_cases hrc : r = p.1 ∧ c = p.2
    · obtain ⟨rfl, rfl⟩ := hrc
      simpa using hp
    · simp only [hrc, if_false] at hne ⊢
      exact hk r c hne

theorem mem_completionsFrom (ps : List Pos) :
    ∀ (g sol : PuzzleGrid), (∀ q : Pos, q ∉ ps → cellAt g q.1 q.2 ≠ 0) →
      (sol ∈ completionsFrom ps g ↔ isCompletion g sol) := by
  induction ps with
  | nil =>
    intro g sol hfull
    unfold completionsFrom
    have hg : fullGrid g := fun r c => hfull (r, c) (by simp)
    constructor
    · intro h
      by_cases hv : validGrid g
      · simp only [hv, if_true, List.mem_singleton] at h
        subst h
        exact ⟨hv, fun _ _ _ => rfl⟩
      · simp [hv] at h
    · intro hc
      have : sol = g := grid_ext (fun r c => hc.2 r c (hg r c))
      subst this
      simp [hc.1]
  | cons p ps ih =>
    intro g sol hfull
    unfold completionsFrom
    by_cases h0 : cellAt g p.1 p.2 = 0
    · simp only [h0, ne_eq, not_true_eq_false, if_false, List.mem_flatMap, List.mem_filter]
      constructor
      · rintro ⟨v, ⟨hv, _⟩, hmem⟩
        have hv0 : v ≠ 0 := by
          have := mem_digits.mp hv
          omega
        have hinv : ∀ q : Pos, q ∉ ps → cellAt (setCell g p.1 p.2 v) q.1 q.2 ≠ 0 := by
          intro q hq
          rw [cellAt_setCell]
          by_cases hqp : q.1 = p.1 ∧ q.2 = p.2
          · simpa [hqp] using hv0
          · simp only [hqp, if_false]
            apply hfull
            intro hmem
            rcases List.mem_cons.mp hmem with rfl | h1
            · exact hqp ⟨rfl, rfl⟩
            · exact hq h1
        have hc := (ih _ sol hinv).mp hmem
        exact ⟨hc.1, ((keepsClues_setCell_iff h0 hv0).mp hc.2).2⟩
      · intro hc
        have hr := hc.1.1 p.1 p.2
        have hv0 : cellAt sol p.1 p.2 ≠ 0 := by omega
        refine ⟨cellAt sol p.1 p.2, ⟨mem_digits.mpr hr, canPlace_of_isCompletion hc p⟩, ?_⟩
        have hinv : ∀ q : Pos, q ∉ ps →
            cellAt (setCell g p.1 p.2 (cellAt sol p.1 p.2)) q.1 q.2 ≠ 0 := by
          intro q hq
          rw [cellAt_setCell]
          by_cases hqp : q.1 = p.1 ∧ q.2 = p.2
          · simpa [hqp] using hv0
          · simp only [hqp, if_false]
            apply hfull
            intro hmem
            rcases List.mem_cons.mp hmem with rfl | h1
            · exact hqp ⟨rfl, rfl⟩
            · exact hq h1
        exact (ih _ sol hinv).mpr ⟨hc.1, (keepsClues_setCell_iff h0 hv0).mpr ⟨rfl, hc.2⟩⟩
    · simp only [h0, ne_eq, not_false_eq_true, if_true]
      apply ih
      intro q hq
      by_cases hqp : q = p
      · subst hqp
        exact h0
      · apply hfull
        intro hmem
        rcases List.mem_cons.mp hmem with h1 | h1
        · exact hqp h1
        · exact hq h1

theorem cellAt_of_mem_completionsFrom (ps : List Pos) :
    ∀ (g sol : PuzzleGrid), sol ∈ completionsFrom ps g →
      ∀ r c, cellAt g r c ≠ 0 → cellAt sol r c = cellAt g r c := by
  induction ps with
  | nil =>
    intro g sol h r c _
    unfold completionsFrom at h
    by_cases hv : validGrid g
    · simp only [hv, if_true, List.mem_singleton] at h
      rw [h]
    · simp [hv] at h
  | cons p ps ih =>
    intro g sol h r c hne
    unfold completionsFrom at h
    by_cases h0 : cellAt g p.1 p.2 = 0
    · simp only [h0, ne_eq, not_true_eq_false, if_false, List.mem_flatMap, List.mem_filter] at h
      obtain ⟨v, _, hmem⟩ := h
      have hrc : ¬ (r = p.1 ∧ c = p.2) := by
        rintro ⟨rfl, rfl⟩
        exact hne h0
      have := ih _ sol hmem r c (by rw [cellAt_setCell]; simpa [hrc] using hne)
      rw [this, cellAt_setCell]
      simp [hrc]
    · simp only [h0, ne_eq, not_false_eq_true, if_true] at h
      exact ih g sol h r c hne

theorem nodup_completionsFrom (ps : List Pos) :
    ∀ g : PuzzleGrid, (completionsFrom ps g).Nodup := by
  induction ps with
  | nil =>
    intro g
    unfold completionsFrom
    by_cases hv : validGrid g
    · simp [hv]
    · simp [hv]
  | cons p ps ih =>
    intro g
    unfold completionsFrom
    by_cases h0 : cellAt g p.1 p.2 = 0
    · simp only [h0, ne_eq, not_true_eq_false, if_false]
      rw [List.nodup_flatMap]
      refine ⟨fun v _ => ih _, ?_⟩
      have hd : (digits.filter (canPlace g p)).Nodup := List.Nodup.filter _ (by decide)
      refine List.Pairwise.imp_of_mem ?_ hd
      intro v w hv hw hvw
      show List.Disjoint _ _
      intro sol h1 h2
      have hv0 : v ≠ 0 := by
        have := mem_digits.mp (List.mem_filter.mp hv).1
        omega
      have hw0 : w ≠ 0 := by
        have := mem_digits.mp (List.mem_filter.mp hw).1
        omega
      have e1 := cellAt_of_mem_completionsFrom ps _ sol h1 p.1 p.2
      have e2 := cellAt_of_mem_completionsFrom ps _ sol h2 p.1 p.2
      rw [cellAt_setCell] at e1 e2
      simp only [and_self, if_true] at e1 e2
      exact hvw ((e1 hv0).symm.trans (e2 hw0))
    · simp only [h0, ne_eq, not_false_eq_true, if_true]
      exact ih g

theorem countFold_eq (f : Int → List PuzzleGrid) (count : Int → Nat → Nat) (limit : Nat)
    (hcount : ∀ v n, count v n = min (f v).length n) :
    ∀ (cs : List Int) (found : Nat), found ≤ limit →
      cs.foldl (fun found v => if limit ≤ found then found else found + count v (limit - found))
        found = min (found + (cs.flatMap f).length) limit := by
  intro cs
  induction cs with
  | nil =>
    intro found hf
    simp [hf]
  | cons v cs ih =>
    intro found hf
    rw [List.foldl_cons, List.flatMap_cons, List.length_append]
    by_cases hlim : limit ≤ found
    · rw [if_pos hlim, ih found hf]
      omega
    · rw [if_neg hlim, hcount]
      rw [ih _ (by omega)]
      omega

theorem countFrom_eq (ps : List Pos) :
    ∀ (g : PuzzleGrid) (limit : Nat),
      countFrom ps g limit = min (completionsFrom ps g).length limit := by
  induction ps with
  | nil =>
    intro g limit
    unfold countFrom completionsFrom
    by_cases hv : validGrid g
    · simp [hv]
    · simp [hv]
  | cons p ps ih =>
    intro g limit
    unfold countFrom completionsFrom
    by_cases h0 : cellAt g p.1 p.2 = 0
    · simp only [h0, ne_eq, not_true_eq_false, if_false]
      rw [countFold_eq (fun v => completionsFrom ps (setCell g p.1 p.2 v))
        (fun v n => countFrom ps (setCell g p.1 p.2 v) n) limit (fun v n => ih _ n) _ 0
        (Nat.zero_le _)]
      simp
    · simp only [h0, ne_eq, not_false_eq_true, if_true]
      exact ih g limit

theorem searchFrom_eq (ps : List Pos) :
    ∀ g : PuzzleGrid, searchFrom ps g = (completionsFrom ps g).head? := by
  induction ps with
  | nil =>
    intro g
    unfold searchFrom completionsFrom
    by_cases hv : validGrid g
    · simp [hv]
    · simp [hv]
  | cons p ps ih =>
    intro g
    unfold searchFrom completionsFrom
    by_cases h0 : cellAt g p.1 p.2 = 0
    · simp only [h0, ne_eq, not_true_eq_false, if_false]
      rw [List.head?_flatMap]
      congr 1
      funext v
      exact ih _
    · simp only [h0, ne_eq, not_false_eq_true, if_true]
      exact ih g

theorem mem_completions_allPositions (g sol : PuzzleGrid) :
    sol ∈ completionsFrom allPositions g ↔ isCompletion g sol :=
  mem_completionsFrom allPositions g sol (fun q hq => absurd (mem_allPositions q) hq)

/-- The reference solver returns a completion when it reports success. -/
theorem referenceSolver_solveSound : solveSound referenceSolver := by
  intro g h
  unfold referenceSolver at h ⊢
  simp only at h ⊢
  by_cases hok : cluesOk g = true
  · simp only [hok, if_true] at h ⊢
    cases hs : searchFrom allPositions g with
    | none => simp [hs] at h
    | some sol =>
      simp only [hs]
      rw [searchFrom_eq] at hs
      exact (mem_completions_allPositions g sol).mp (List.mem_of_mem_head? hs)
  · simp [hok] at h

/-- The reference solver succeeds on every grid that has a completion. -/
theorem referenceSolver_complete {g sol : PuzzleGrid} (hc : isCompletion g sol) :
    (referenceSolver.solve_sudoku g).2 = true := by
  unfold referenceSolver
  simp only [cluesOk_of_isCompletion hc, if_true]
  have hmem := (mem_completions_allPositions g sol).mpr hc
  cases hs : searchFrom allPositions g with
  | none =>
    rw [searchFrom_eq] at hs
    rw [List.head?_eq_none_iff] at hs
    rw [hs] at hmem
    simp at hmem
  | some s => rfl

/-- The reference solver tells at most one completion from more than one. -/
theorem referenceSolver_countSound : countSound referenceSolver := by
  intro g
  unfold referenceSolver
  simp only
  constructor
  · intro h
    by_cases hok : cluesOk g = true
    · simp only [hok, if_true, countFrom_eq] at h
      have hlen : 2 ≤ (completionsFrom allPositions g).length := by omega
      have hnd := nodup_completionsFrom allPositions g
      match hl : completionsFrom allPositions g, hlen, hnd with
      | s1 :: s2 :: rest, _, hnd =>
        refine ⟨s1, s2, ?_, ?_, ?_⟩
        · intro heq
          rw [heq] at hnd
          simp at hnd
        · exact (mem_completions_allPositions g s1).mp (by rw [hl]; simp)
        · exact (mem_completions_allPositions g s2).mp (by rw [hl]; simp)
    · simp [hok] at h
  · rintro ⟨s1, s2, hne, h1, h2⟩
    simp only [cluesOk_of_isCompletion h1, if_true, countFrom_eq]
    have m1 := (mem_completions_allPositions g s1).mpr h1
    have m2 := (mem_completions_allPositions g s2).mpr h2
    have hlen : 2 ≤ (completionsFrom allPositions g).length := by
      match hl : completionsFrom allPositions g with
      | [] => rw [hl] at m1; simp at m1
      | [a] =>
        rw [hl] at m1 m2
        simp only [List.mem_singleton] at m1 m2
        exact absurd (m1.trans m2.symm) hne
      | _ :: _ :: _ => simp
    omega

/-! ## Counting clues -/

theorem clueCount_add_emptyCount (g : PuzzleGrid) : clueCount g + emptyCount g = 81 := by
  unfold clueCount emptyCount
  have h := Finset.filter_card_add_filter_neg_card_eq_card (s := (Finset.univ : Finset Pos))
    (fun p : Pos => cellAt g p.1 p.2 ≠ 0)
  simp only [ne_eq, not_not] at h
  rw [h]
  simp

theorem clueCount_setCell_of_empty {g : PuzzleGrid} {x y : Fin 9} {v : Int}
    (h0 : cellAt g x y = 0) (hv : v ≠ 0) : clueCount (setCell g x y v) = clueCount g + 1 := by
  unfold clueCount
  have hset : Finset.univ.filter (fun p : Pos => cellAt (setCell g x y v) p.1 p.2 ≠ 0) =
      insert (x, y) (Finset.univ.filter (fun p : Pos => cellAt g p.1 p.2 ≠ 0)) := by
    ext p
    simp only [Finset.mem_filter, Finset.mem_univ, true_and, Finset.mem_insert, cellAt_setCell]
    by_cases hp : p.1 = x ∧ p.2 = y
    · have : p = (x, y) := Prod.ext hp.1 hp.2
      simp [hp, hv, this]
    · have : p ≠ (x, y) := fun h => hp (by rw [h]; exact ⟨rfl, rfl⟩)
      simp [hp, this]
  rw [hset, Finset.card_insert_of_not_mem]
  simp [h0]

theorem clueCount_setCell_zero_of_clue {g : PuzzleGrid} {x y : Fin 9}
    (h0 : cellAt g x y ≠ 0) : clueCount (setCell g x y 0) + 1 = clueCount g := by
  have h := clueCount_setCell_of_empty (g := setCell g x y 0) (x := x) (y := y)
    (v := cellAt g x y) (by rw [cellAt_setCell]; simp) h0
  rw [setCell_restore] at h
  exact h.symm

theorem emptyCount_pos_of_empty {g : PuzzleGrid} {x y : Fin 9} (h0 : cellAt g x y = 0) :
    0 < emptyCount g := by
  unfold emptyCount
  apply Finset.card_pos.mpr
  exact ⟨(x, y), by simp [h0]⟩

theorem exists_empty_of_emptyCount_pos {g : PuzzleGrid} (h : 0 < emptyCount g) :
    ∃ x y, cellAt g x y = 0 := by
  unfold emptyCount at h
  obtain ⟨p, hp⟩ := Finset.card_pos.mp h
  exact ⟨p.1, p.2, by simpa using hp⟩

/-! ## The resampling loop and the backfill -/

theorem sampleEmpty_empty (draws : Nat → Nat) (g : PuzzleGrid) :
    ∀ (fuel k : Nat) (p : Pos) (k1 : Nat), sampleEmpty draws g fuel k = some (p, k1) →
      cellAt g p.1 p.2 = 0 := by
  intro fuel
  induction fuel with
  | zero => intro k p k1 h; simp [sampleEmpty] at h
  | succ n ih =>
    intro k p k1 h
    unfold sampleEmpty at h
    simp only at h
    split at h
    · exact ih _ _ _ h
    · rename_i hne
      simp only [Option.some.injEq, Prod.mk.injEq] at h
      rw [← h.1]
      simpa using hne

/-- With no empty cell the resampling loop never ends. -/
theorem sampleEmpty_none_of_full (draws : Nat → Nat) {g : PuzzleGrid} (hg : fullGrid g) :
    ∀ fuel k : Nat, sampleEmpty draws g fuel k = none := by
  intro fuel
  induction fuel with
  | zero => intro k; rfl
  | succ n ih =>
    intro k
    unfold sampleEmpty
    simp only
    rw [if_pos (hg _ _)]
    exact ih _

theorem fullGrid_of_emptyCount_zero {g : PuzzleGrid} (h : emptyCount g = 0) : fullGrid g := by
  intro r c h0
  have := emptyCount_pos_of_empty h0
  omega

theorem backfill_clueCount (draws : Nat → Nat) (fuel : Nat) {grid : PuzzleGrid}
    (hfull : fullGrid grid) :
    ∀ (n : Nat) (refined : PuzzleGrid) (k : Nat) (r : PuzzleGrid × Nat),
      backfill draws fuel grid n refined k = some r →
        clueCount r.1 = clueCount refined + n := by
  intro n
  induction n with
  | zero =>
    intro refined k r h
    simp only [backfill, Option.some.injEq] at h
    rw [← h]
    rfl
  | succ n ih =>
    intro refined k r h
    unfold backfill at h
    cases hs : sampleEmpty draws refined fuel k with
    | none => simp [hs] at h
    | some pk =>
      obtain ⟨p, k1⟩ := pk
      simp only [hs] at h
      have h0 := sampleEmpty_empty draws refined fuel k p k1 hs
      rw [ih _ _ _ h, clueCount_setCell_of_empty h0 (hfull _ _)]
      omega

theorem backfill_subGrid (draws : Nat → Nat) (fuel : Nat) {grid : PuzzleGrid} :
    ∀ (n : Nat) (refined : PuzzleGrid) (k : Nat) (r : PuzzleGrid × Nat),
      subGrid refined grid → backfill draws fuel grid n refined k = some r →
        subGrid r.1 grid ∧ subGrid refined r.1 := by
  intro n
  induction n with
  | zero =>
    intro refined k r hsub h
    simp only [backfill, Option.some.injEq] at h
    rw [← h]
    exact ⟨hsub, subGrid_refl _⟩
  | succ n ih =>
    intro refined k r hsub h
    unfold backfill at h
    cases hs : sampleEmpty draws refined fuel k with
    | none => simp [hs] at h
    | some pk =>
      obtain ⟨p, k1⟩ := pk
      simp only [hs] at h
      have h0 := sampleEmpty_empty draws refined fuel k p k1 hs
      have hsub1 : subGrid (setCell refined p.1 p.2 (cellAt grid p.1 p.2)) grid := by
        intro r c
        rw [cellAt_setCell]
        by_cases hrc : r = p.1 ∧ c = p.2
        · obtain ⟨rfl, rfl⟩ := hrc
          exact Or.inr (by simp)
        · simp only [hrc, if_false]
          exact hsub r c
      have hsub2 : subGrid refined (setCell refined p.1 p.2 (cellAt grid p.1 p.2)) := by
        intro r c
        rw [cellAt_setCell]
        by_cases hrc : r = p.1 ∧ c = p.2
        · obtain ⟨rfl, rfl⟩ := hrc
          exact Or.inl h0
        · exact Or.inr (by simp [hrc])
      obtain ⟨ha, hb⟩ := ih _ _ _ hsub1 h
      exact ⟨ha, subGrid_trans hsub2 hb⟩

theorem backfillCount_eq (difficulty : Int) : backfillCount difficulty = (10 - difficulty).toNat := by
  unfold backfillCount
  congr 1
  omega

theorem sampleEmpty_mono (draws : Nat → Nat) (g : PuzzleGrid) :
    ∀ (fuel m k : Nat) (r : Pos × Nat), sampleEmpty draws g fuel k = some r →
      sampleEmpty draws g (fuel + m) k = some r := by
  intro fuel
  induction fuel with
  | zero => intro m k r h; simp [sampleEmpty] at h
  | succ n ih =>
    intro m k r h
    rw [Nat.add_right_comm]
    unfold sampleEmpty at h ⊢
    simp only at h ⊢
    split
    · rename_i hne
      rw [if_pos hne] at h
      exact ih m _ r h
    · rename_i hne
      rw [if_neg hne] at h
      exact h

theorem backfill_mono (draws : Nat → Nat) (grid : PuzzleGrid) (fuel m : Nat) :
    ∀ (n : Nat) (refined : PuzzleGrid) (k : Nat) (r : PuzzleGrid × Nat),
      backfill draws fuel grid n refined k = some r →
        backfill draws (fuel + m) grid n refined k = some r := by
  intro n
  induction n with
  | zero =>
    intro refined k r h
    simpa [backfill] using h
  | succ n ih =>
    intro refined k r h
    unfold backfill at h ⊢
    cases hs : sampleEmpty draws refined fuel k with
    | none => simp [hs] at h
    | some pk =>
      simp only [hs] at h
      rw [sampleEmpty_mono draws refined fuel m k pk hs]
      exact ih _ _ _ h

theorem sampleEmpty_of_hit (draws : Nat → Nat) (g : PuzzleGrid) (x y : Fin 9)
    (h0 : cellAt g x y = 0) :
    ∀ (j k : Nat), draws (k + 2 * j) % 9 = x.val → draws (k + 2 * j + 1) % 9 = y.val →
      ∃ r, sampleEmpty draws g (j + 1) k = some r := by
  intro j
  induction j with
  | zero =>
    intro k hx hy
    unfold sampleEmpty
    simp only
    have ex : (⟨draws k % 9, Nat.mod_lt _ (by decide)⟩ : Fin 9) = x := Fin.ext (by simpa using hx)
    have ey : (⟨draws (k + 1) % 9, Nat.mod_lt _ (by decide)⟩ : Fin 9) = y :=
      Fin.ext (by simpa using hy)
    rw [ex, ey, if_neg (by simpa using h0)]
    exact ⟨_, rfl⟩
  | succ j ih =>
    intro k hx hy
    unfold sampleEmpty
    simp only
    split
    · apply ih (k + 2)
      · rw [← hx]
        congr 2
        omega
      · rw [← hy]
        congr 2
        omega
    · exact ⟨_, rfl⟩

theorem sampleEmpty_of_fair {draws : Nat → Nat} (hfair : fairDraws draws) {g : PuzzleGrid}
    (hpos : 0 < emptyCount g) (k : Nat) : ∃ fuel r, sampleEmpty draws g fuel k = some r := by
  obtain ⟨x, y, h0⟩ := exists_empty_of_emptyCount_pos hpos
  obtain ⟨j, hx, hy⟩ := hfair k x y
  exact ⟨j + 1, sampleEmpty_of_hit draws g x y h0 j k hx hy⟩

theorem emptyCount_setCell_ge (g : PuzzleGrid) (x y : Fin 9) (v : Int)
    (h0 : cellAt g x y = 0) : emptyCount g ≤ emptyCount (setCell g x y v) + 1 := by
  have e1 := clueCount_add_emptyCount g
  have e2 := clueCount_add_emptyCount (setCell g x y v)
  by_cases hv : v = 0
  · subst hv
    have : setCell g x y 0 = g := by
      have := setCell_restore g x y 0
      rw [h0] at this
      apply grid_ext
      intro r c
      rw [cellAt_setCell]
      by_cases hrc : r = x ∧ c = y
      · obtain ⟨rfl, rfl⟩ := hrc
        simp [h0]
      · simp [hrc]
    rw [this]
    omega
  · have := clueCount_setCell_of_empty h0 hv
    omega

/-- With draws that keep reaching every position, the backfill ends as soon as
there are at least as many empty cells as iterations. -/
theorem backfill_returns {draws : Nat → Nat} (hfair : fairDraws draws) (grid : PuzzleGrid) :
    ∀ (n : Nat) (refined : PuzzleGrid) (k : Nat), n ≤ emptyCount refined →
      ∃ fuel r, backfill draws fuel grid n refined k = some r := by
  intro n
  induction n with
  | zero =>
    intro refined k _
    exact ⟨0, _, rfl⟩
  | succ n ih =>
    intro refined k hle
    obtain ⟨fuel1, pk, hs⟩ := sampleEmpty_of_fair hfair (g := refined) (by omega) k
    obtain ⟨p, k1⟩ := pk
    have h0 := sampleEmpty_empty draws refined fuel1 k p k1 hs
    have hle1 : n ≤ emptyCount (setCell refined p.1 p.2 (cellAt grid p.1 p.2)) := by
      have := emptyCount_setCell_ge refined p.1 p.2 (cellAt grid p.1 p.2) h0
      omega
    obtain ⟨fuel2, r, hb⟩ := ih _ k1 hle1
    refine ⟨fuel1 + fuel2, r, ?_⟩
    unfold backfill
    rw [sampleEmpty_mono draws refined fuel1 fuel2 k _ hs]
    simp only
    have := backfill_mono draws grid fuel2 fuel1 n _ k1 r hb
    rw [Nat.add_comm] at this
    exact this

/-- With fewer empty cells than iterations the backfill of a grid without empty
cells never ends, whatever the draws are. -/
theorem backfill_none_of_few {grid refined : PuzzleGrid} (hfull : fullGrid grid) {n : Nat}
    (hlt : emptyCount refined < n) (draws : Nat → Nat) (fuel k : Nat) :
    backfill draws fuel grid n refined k = none := by
  cases h : backfill draws fuel grid n refined k with
  | none => rfl
  | some r =>
    exfalso
    have h1 := backfill_clueCount draws fuel hfull n refined k r h
    have e1 := clueCount_add_emptyCount refined
    have e2 := clueCount_add_emptyCount r.1
    omega

theorem exampleDraws_even (m : Nat) (h : 50 ≤ m) : exampleDraws (2 * m) = m % 9 := by
  unfold exampleDraws
  split_ifs <;> omega

theorem exampleDraws_odd (m : Nat) (h : 50 ≤ m) : exampleDraws (2 * m + 1) = m / 9 % 9 := by
  unfold exampleDraws
  split_ifs <;> omega

theorem exampleDraws_fair : fairDraws exampleDraws := by
  intro k x y
  have hx := x.isLt
  have hy := y.isLt
  rcases Nat.even_or_odd' k with ⟨a, rfl | rfl⟩
  · refine ⟨81 * (a + 1) + 9 * y.val + x.val - a, ?_, ?_⟩
    · have e : 2 * a + 2 * (81 * (a + 1) + 9 * y.val + x.val - a) =
          2 * (81 * (a + 1) + 9 * y.val + x.val) := by omega
      rw [e, exampleDraws_even _ (by omega)]
      omega
    · have e : 2 * a + 2 * (81 * (a + 1) + 9 * y.val + x.val - a) + 1 =
          2 * (81 * (a + 1) + 9 * y.val + x.val) + 1 := by omega
      rw [e, exampleDraws_odd _ (by omega)]
      omega
  · refine ⟨81 * (a + 1) + 9 * x.val + (y.val + 8) % 9 - a, ?_, ?_⟩
    · have e : 2 * a + 1 + 2 * (81 * (a + 1) + 9 * x.val + (y.val + 8) % 9 - a) =
          2 * (81 * (a + 1) + 9 * x.val + (y.val + 8) % 9) + 1 := by omega
      rw [e, exampleDraws_odd _ (by omega)]
      omega
    · have e : 2 * a + 1 + 2 * (81 * (a + 1) + 9 * x.val + (y.val + 8) % 9 - a) + 1 =
          2 * (81 * (a + 1) + 9 * x.val + (y.val + 8) % 9 + 1) := by omega
      rw [e, exampleDraws_even _ (by omega)]
      omega

/-! ## `refinePuzzle` -/

theorem refinePuzzle_eq (S : Solver) (draws : Nat → Nat) (fuel : Nat) (grid : PuzzleGrid)
    (difficulty : Int) (k : Nat) :
    refinePuzzle S draws fuel grid difficulty k =
      backfill draws fuel grid (backfillCount difficulty)
        (removalPass S (shuffledPositions draws k).1 grid) (shuffledPositions draws k).2 := rfl

/-- Clue count of a grid returned by `refinePuzzle` on a grid without empty
cells. -/
theorem refinePuzzle_count {S : Solver} {draws : Nat → Nat} {fuel : Nat} {grid : PuzzleGrid}
    {difficulty : Int} {k : Nat} {r : PuzzleGrid × Nat} (hfull : fullGrid grid)
    (h : refinePuzzle S draws fuel grid difficulty k = some r) :
    clueCount r.1 =
        clueCount (removalPass S (shuffledPositions draws k).1 grid) + backfillCount difficulty ∧
      backfillCount difficulty ≤ emptyCount (removalPass S (shuffledPositions draws k).1 grid) := by
  rw [refinePuzzle_eq] at h
  have h1 := backfill_clueCount draws fuel hfull _ _ _ r h
  have e1 := clueCount_add_emptyCount (removalPass S (shuffledPositions draws k).1 grid)
  have e2 := clueCount_add_emptyCount r.1
  exact ⟨h1, by omega⟩

/-! ## Holes that are alone in their column -/

/-- In a valid grid every digit occurs in every column. -/
theorem validGrid_column_surjective {G : PuzzleGrid} (hG : validGrid G) (y : Fin 9) {v : Int}
    (hv : 1 ≤ v ∧ v ≤ 9) : ∃ r, cellAt G r y = v := by
  let f : Fin 9 → Fin 9 := fun r =>
    ⟨(cellAt G r y - 1).toNat, by have := hG.1 r y; omega⟩
  have hinj : Function.Injective f := by
    intro r1 r2 h
    have h1 := hG.1 r1 y
    have h2 := hG.1 r2 y
    have hval : (cellAt G r1 y - 1).toNat = (cellAt G r2 y - 1).toNat := congrArg Fin.val h
    exact hG.2.2.1 y r1 r2 (by omega)
  have hsurj : Function.Surjective f := Finite.injective_iff_surjective.mp hinj
  obtain ⟨r, hr⟩ := hsurj ⟨(v - 1).toNat, by omega⟩
  refine ⟨r, ?_⟩
  have h1 := hG.1 r y
  have hval : (cellAt G r y - 1).toNat = (v - 1).toNat := congrArg Fin.val hr
  omega

/-- A hole that is alone in its column can only be filled with the digit of the
solution. -/
theorem completion_at_lone_hole {G h s : PuzzleGrid} (hG : validGrid G) (hsub : subGrid h G)
    (hs : isCompletion h s) {x y : Fin 9} (hcol : ∀ r, r ≠ x → cellAt h r y ≠ 0) :
    cellAt s x y = cellAt G x y := by
  obtain ⟨r0, hr0⟩ := validGrid_column_surjective hG y (hs.1.1 x y)
  by_cases hrx : r0 = x
  · rw [← hr0, hrx]
  · exfalso
    have hne := hcol r0 hrx
    have e1 : cellAt h r0 y = cellAt G r0 y := (hsub r0 y).resolve_left hne
    have e2 : cellAt s r0 y = cellAt h r0 y := hs.2 r0 y hne
    exact hrx (hs.1.2.2.1 y r0 x (by rw [e2, e1, hr0]))

/-- A grid cut out of a valid grid whose holes are each alone in their column has
no second completion. -/
theorem not_multiple_of_lone_holes {G h : PuzzleGrid} (hG : validGrid G) (hsub : subGrid h G)
    (hlone : ∀ x y, cellAt h x y = 0 → ∀ r, r ≠ x → cellAt h r y ≠ 0) :
    ¬ hasMultipleCompletions h := by
  have key : ∀ s, isCompletion h s → s = G := by
    intro s hs
    apply grid_ext
    intro x y
    by_cases h0 : cellAt h x y = 0
    · exact completion_at_lone_hole hG hsub hs (hlone x y h0)
    · rw [hs.2 x y h0]
      exact (hsub x y).resolve_left h0
  rintro ⟨s1, s2, hne, h1, h2⟩
  exact hne ((key s1 h1).trans (key s2 h2).symm)

theorem tryRemove_of_lone_holes {S : Solver} (hcount : countSound S) {G h : PuzzleGrid}
    (hG : validGrid G) (hsub : subGrid h G) (p : Pos) (hp : cellAt h p.1 p.2 ≠ 0)
    (hlone : ∀ x y, cellAt (setCell h p.1 p.2 0) x y = 0 →
      ∀ r, r ≠ x → cellAt (setCell h p.1 p.2 0) r y ≠ 0) :
    tryRemove S h p = setCell h p.1 p.2 0 := by
  rcases tryRemove_cases S h p with ⟨_, h0 | hc⟩ | ⟨he, _, _⟩
  · exact absurd h0 hp
  · exfalso
    exact not_multiple_of_lone_holes hG
      (subGrid_trans (subGrid_setCell_zero h p.1 p.2) hsub) hlone ((hcount _).mp hc)
  · exact he

/-- On a valid grid, with a sound counter, the removal pass in row-major order
clears the first two cells. -/
theorem removalPass_allPositions_two {S : Solver} (hcount : countSound S) {G : PuzzleGrid}
    (hG : validGrid G) :
    cellAt (removalPass S allPositions G) 0 0 = 0 ∧
      cellAt (removalPass S allPositions G) 0 1 = 0 := by
  have hfull := fullGrid_of_validGrid hG
  have hor : allPositions = (0, 0) :: (0, 1) :: allPositions.drop 2 := by decide
  have h1 : tryRemove S G (0, 0) = setCell G 0 0 0 := by
    apply tryRemove_of_lone_holes hcount hG (subGrid_refl G) (0, 0) (hfull 0 0)
    intro x y h0 r hr
    rw [cellAt_setCell] at h0 ⊢
    by_cases hxy : x = 0 ∧ y = 0
    · obtain ⟨rfl, rfl⟩ := hxy
      simp only [hr, false_and, if_false]
      exact hfull r 0
    · simp only [hxy, if_false] at h0
      exact absurd h0 (hfull x y)
  have hsub1 : subGrid (setCell G 0 0 0) G := subGrid_setCell_zero G 0 0
  have h2 : tryRemove S (setCell G 0 0 0) (0, 1) = setCell (setCell G 0 0 0) 0 1 0 := by
    apply tryRemove_of_lone_holes hcount hG hsub1 (0, 1)
    · rw [cellAt_setCell]
      simpa using hfull 0 1
    · intro x y h0 r hr
      simp only [cellAt_setCell] at h0 ⊢
      by_cases hxy1 : x = 0 ∧ y = 1
      · obtain ⟨rfl, rfl⟩ := hxy1
        simp only [hr, false_and, if_false]
        exact hfull r 1
      · by_cases hxy0 : x = 0 ∧ y = 0
        · obtain ⟨rfl, rfl⟩ := hxy0
          simp only [hr, false_and, if_false]
          exact hfull r 0
        · simp only [hxy1, hxy0, if_false] at h0
          exact absurd h0 (hfull x y)
  have hpass : removalPass S allPositions G =
      removalPass S (allPositions.drop 2) (setCell (setCell G 0 0 0) 0 1 0) := by
    conv_lhs => rw [hor]
    unfold removalPass
    rw [List.foldl_cons, List.foldl_cons, h1, h2]
  have hsub := removalPass_subGrid S (allPositions.drop 2) (setCell (setCell G 0 0 0) 0 1 0)
  rw [← hpass] at hsub
  constructor
  · rcases hsub 0 0 with h | h
    · exact h
    · rw [h]
      simp [cellAt_setCell]
  · rcases hsub 0 1 with h | h
    · exact h
    · rw [h]
      simp [cellAt_setCell]

theorem two_le_emptyCount {g : PuzzleGrid} (h00 : cellAt g 0 0 = 0) (h01 : cellAt g 0 1 = 0) :
    2 ≤ emptyCount g := by
  unfold emptyCount
  have hsub : ({((0 : Fin 9), (0 : Fin 9)), ((0 : Fin 9), (1 : Fin 9))} : Finset Pos) ⊆
      Finset.univ.filter (fun p : Pos => cellAt g p.1 p.2 = 0) := by
    intro p hp
    simp only [Finset.mem_insert, Finset.mem_singleton] at hp
    rcases hp with rfl | rfl
    · simpa using h00
    · simpa using h01
  have hcard : ({((0 : Fin 9), (0 : Fin 9)), ((0 : Fin 9), (1 : Fin 9))} : Finset Pos).card = 2 := by
    decide
  calc 2 = _ := hcard.symm
    _ ≤ _ := Finset.card_le_card hsub

theorem exampleDraws_order : shuffledPositions exampleDraws 18 = (allPositions, 99) := by
  decide

/-- With the example draws, a sound counter and a valid grid, `refinePuzzle`
returns for the difficulties 8 and 9. -/
theorem refinePuzzle_exampleDraws_returns {S : Solver} (hcount : countSound S) {G : PuzzleGrid}
    (hG : validGrid G) (difficulty : Int) (hd : 8 ≤ difficulty) :
    ∃ fuel r, refinePuzzle S exampleDraws fuel G difficulty 18 = some r := by
  obtain ⟨h00, h01⟩ := removalPass_allPositions_two hcount hG
  have h2 := two_le_emptyCount h00 h01
  have hb : backfillCount difficulty ≤ 2 := by
    unfold backfillCount
    omega
  obtain ⟨fuel, r, hr⟩ := backfill_returns exampleDraws_fair G (backfillCount difficulty)
    (removalPass S allPositions G) 99 (by omega)
  refine ⟨fuel, r, ?_⟩
  rw [refinePuzzle_eq, exampleDraws_order]
  exact hr

/-! ## The claims about `refinePuzzle` -/

theorem exampleSolution_valid : validGrid exampleSolution := by
  decide

theorem emptyCount_of_fullGrid {g : PuzzleGrid} (hg : fullGrid g) : emptyCount g = 0 := by
  by_contra hne
  obtain ⟨x, y, h0⟩ := exists_empty_of_emptyCount_pos (Nat.pos_of_ne_zero hne)
  exact hg x y h0

theorem emptyCount_one_removed {g : PuzzleGrid} (hg : fullGrid g) (x y : Fin 9) :
    emptyCount (setCell g x y 0) = 1 := by
  have e1 := clueCount_add_emptyCount g
  have e2 := clueCount_add_emptyCount (setCell g x y 0)
  have e3 := clueCount_setCell_zero_of_clue (hg x y)
  have e4 := emptyCount_of_fullGrid hg
  omega

/-- Draws that always give the first cell never find another one. -/
theorem sampleEmpty_none_of_constant {draws : Nat → Nat} (hdraws : ∀ i, draws i % 9 = 0)
    {g : PuzzleGrid} (hne : cellAt g 0 0 ≠ 0) :
    ∀ fuel k : Nat, sampleEmpty draws g fuel k = none := by
  intro fuel
  induction fuel with
  | zero => intro k; rfl
  | succ n ih =>
    intro k
    unfold sampleEmpty
    simp only
    have ex : (⟨draws k % 9, Nat.mod_lt _ (by decide)⟩ : Fin 9) = 0 := Fin.ext (hdraws k)
    have ey : (⟨draws (k + 1) % 9, Nat.mod_lt _ (by decide)⟩ : Fin 9) = 0 :=
      Fin.ext (hdraws (k + 1))
    rw [ex, ey, if_pos hne]
    exact ih _

theorem sampleEmpty_first_of_constant {draws : Nat → Nat} (hdraws : ∀ i, draws i % 9 = 0)
    {g : PuzzleGrid} (h0 : cellAt g 0 0 = 0) (fuel k : Nat) :
    sampleEmpty draws g (fuel + 1) k = some ((0, 0), k + 2) := by
  unfold sampleEmpty
  simp only
  have ex : (⟨draws k % 9, Nat.mod_lt _ (by decide)⟩ : Fin 9) = 0 := Fin.ext (hdraws k)
  have ey : (⟨draws (k + 1) % 9, Nat.mod_lt _ (by decide)⟩ : Fin 9) = 0 :=
    Fin.ext (hdraws (k + 1))
  rw [ex, ey, if_neg (by simpa using h0)]

/-- With draws that always give the first cell, two backfill iterations on a grid
without empty cells never end. -/
theorem backfill_none_of_constant {draws : Nat → Nat} (hdraws : ∀ i, draws i % 9 = 0)
    {grid : PuzzleGrid} (hfull : fullGrid grid) (n : Nat) (refined : PuzzleGrid)
    (fuel k : Nat) : backfill draws fuel grid (n + 2) refined k = none := by
  cases fuel with
  | zero => rfl
  | succ fuel =>
    unfold backfill
    by_cases h0 : cellAt refined 0 0 = 0
    · rw [sampleEmpty_first_of_constant hdraws h0]
      simp only
      unfold backfill
      rw [sampleEmpty_none_of_constant hdraws (by rw [cellAt_setCell]; simpa using hfull 0 0)]
    · rw [sampleEmpty_none_of_constant hdraws h0]

/-- C2.  For a valid solved grid `G`, a removal order that goes through all 81
positions and a counter that tells at most one completion from more than one,
the grid left by Phase A of `refinePuzzle` (`removalPass`, before the backfill)
has exactly one completion, and no further cell can be removed: clearing any of
its remaining nonzero cells gives a grid with more than one completion. -/
theorem removalPass_unique_and_maximal (S : Solver) (G : PuzzleGrid) (order : List Pos)
    (hG : validGrid G) (horder : order.Perm allPositions) (hcount : countSound S) :
    hasUniqueCompletion (removalPass S order G) ∧
      ∀ r c, cellAt (removalPass S order G) r c ≠ 0 →
        hasMultipleCompletions (setCell (removalPass S order G) r c 0) := by
  refine ⟨removalPass_unique hcount hG order G (subGrid_refl G)
    (hasUniqueCompletion_of_validGrid hG), fun r c hne => ?_⟩
  exact removalPass_stuck hcount order G (r, c) (horder.mem_iff.mpr (mem_allPositions (r, c))) hne

set_option maxRecDepth 100000 in
theorem exampleOrder_perm : (shuffledPositions (fun i => 7 * i + 3) 0).1.Perm allPositions := by
  decide

theorem removalPass_unique_and_maximal_witness :
    validGrid exampleSolution ∧
    (shuffledPositions (fun i => 7 * i + 3) 0).1.Perm allPositions ∧
    countSound referenceSolver ∧
    hasUniqueCompletion
      (removalPass referenceSolver (shuffledPositions (fun i => 7 * i + 3) 0).1 exampleSolution) ∧
    ∀ r c,
      cellAt (removalPass referenceSolver (shuffledPositions (fun i => 7 * i + 3) 0).1
        exampleSolution) r c ≠ 0 →
      hasMultipleCompletions
        (setCell (removalPass referenceSolver (shuffledPositions (fun i => 7 * i + 3) 0).1
          exampleSolution) r c 0) :=
  ⟨exampleSolution_valid, exampleOrder_perm, referenceSolver_countSound,
    removalPass_unique_and_maximal referenceSolver exampleSolution
      (shuffledPositions (fun i => 7 * i + 3) 0).1 exampleSolution_valid exampleOrder_perm
      referenceSolver_countSound⟩

/-- C4, as amended.  On an input grid without empty cells the backfill of
`refinePuzzle` ends only if Phase A left at least `extra = 10 - difficulty` empty
cells: with fewer it never ends, whatever the draws and however long it runs (no
retry cap, no iteration that ends as a no-op); with at least `extra` empty cells
it ends for every sequence of draws that keeps reaching every position. -/
theorem backfill_termination (grid refined : PuzzleGrid) (difficulty : Int)
    (hfull : fullGrid grid) :
    (emptyCount refined < backfillCount difficulty →
      ∀ (draws : Nat → Nat) (fuel k : Nat),
        backfill draws fuel grid (backfillCount difficulty) refined k = none) ∧
    (backfillCount difficulty ≤ emptyCount refined →
      ∀ (draws : Nat → Nat) (k : Nat), fairDraws draws →
        ∃ fuel r, backfill draws fuel grid (backfillCount difficulty) refined k = some r) :=
  ⟨fun hlt draws fuel k => backfill_none_of_few hfull hlt draws fuel k,
    fun hle _ k hfair => backfill_returns hfair grid _ refined k hle⟩

theorem backfill_termination_witness :
    fullGrid exampleSolution ∧
    emptyCount (setCell exampleSolution 0 0 0) < backfillCount 0 ∧
    (∀ (draws : Nat → Nat) (fuel k : Nat),
      backfill draws fuel exampleSolution (backfillCount 0) (setCell exampleSolution 0 0 0) k
        = none) ∧
    backfillCount 9 ≤ emptyCount (setCell exampleSolution 0 0 0) ∧
    fairDraws exampleDraws ∧
    ∃ fuel r,
      backfill exampleDraws fuel exampleSolution (backfillCount 9)
        (setCell exampleSolution 0 0 0) 99 = some r := by
  have hfull := fullGrid_of_validGrid exampleSolution_valid
  have h1 := emptyCount_one_removed hfull 0 0
  have hlt : emptyCount (setCell exampleSolution 0 0 0) < backfillCount 0 := by
    rw [h1]
    decide
  have hle : backfillCount 9 ≤ emptyCount (setCell exampleSolution 0 0 0) := by
    rw [h1]
    decide
  exact ⟨hfull, hlt,
    (backfill_termination exampleSolution (setCell exampleSolution 0 0 0) 0 hfull).1 hlt,
    hle, exampleDraws_fair,
    (backfill_termination exampleSolution (setCell exampleSolution 0 0 0) 9 hfull).2 hle
      exampleDraws 99 exampleDraws_fair⟩

/-- C4 fails as stated.  With one cell removed from the solved grid and
difficulty 0 (ten backfill iterations) the backfill never ends, whatever the
draws and however long it runs: the second iteration finds no empty cell and
resamples for ever.  And on the solved grid itself, with the reference solver
and draws that always give the first cell, `refinePuzzle` never returns. -/
theorem backfill_one_removed_never_ends :
    (∀ (draws : Nat → Nat) (fuel k : Nat),
      backfill draws fuel exampleSolution (backfillCount 0) (setCell exampleSolution 0 0 0) k
        = none) ∧
    (∀ fuel : Nat, refinePuzzle referenceSolver (fun _ => 0) fuel exampleSolution 0 0 = none) := by
  have hfull := fullGrid_of_validGrid exampleSolution_valid
  constructor
  · intro draws fuel k
    apply backfill_none_of_few hfull
    rw [emptyCount_one_removed hfull 0 0]
    decide
  · intro fuel
    rw [refinePuzzle_eq]
    exact backfill_none_of_constant (fun _ => rfl) hfull 8 _ fuel _

/-! ## Grids and cell maps -/

theorem foldl_setCell_cellAt (f : Pos → Int) (ps : List Pos) :
    ∀ (init : PuzzleGrid) (q : Pos),
      cellAt (ps.foldl (fun acc p => setCell acc p.1 p.2 (f p)) init) q.1 q.2 =
        if q ∈ ps then f q else cellAt init q.1 q.2 := by
  induction ps with
  | nil => intro init q; simp
  | cons p ps ih =>
    intro init q
    rw [List.foldl_cons, ih]
    by_cases hq : q ∈ ps
    · simp [hq]
    · simp only [hq, if_false, List.mem_cons, or_false, cellAt_setCell]
      by_cases hqp : q = p
      · subst hqp
        simp
      · have : ¬ (q.1 = p.1 ∧ q.2 = p.2) := fun h => hqp (Prod.ext h.1 h.2)
        simp [hqp, this]

theorem cellsFold_gridToCells (cell : Pos → Cell) (ps : List Pos) :
    ∀ init : PuzzleGrid,
      (ps.map (fun p => (posKey p, cell p))).foldlM
        (fun grid e => (keyPos e.1).map (fun p => setCell grid p.1 p.2 (toCInt e.2.Value))) init =
      some (ps.foldl (fun acc p => setCell acc p.1 p.2 (toCInt (cell p).Value)) init) := by
  induction ps with
  | nil => intro init; rfl
  | cons p ps ih =>
    intro init
    rw [List.map_cons, List.foldlM_cons, List.foldl_cons]
    simp only [keyPos_posKey, Option.map_some']
    exact ih _

/-- Reading back the cell map of a grid gives the grid, each value converted to a
C `int`. -/
theorem cellsToGrid_gridToCells (g : PuzzleGrid) :
    cellsToGrid (gridToCells g) = some (throughCells g) := by
  have h := cellsFold_gridToCells
    (fun p => ({ Value := cellAt g p.1 p.2, Notes := [], Status := "" } : Cell)) allPositions
    zeroGrid
  refine Eq.trans h (congrArg some (grid_ext (fun r c => ?_)))
  have := foldl_setCell_cellAt (fun p => toCInt (cellAt g p.1 p.2)) allPositions zeroGrid (r, c)
  simp only [mem_allPositions, if_true] at this
  rw [throughCells, cellAt_gridOf]
  exact this

theorem throughCells_of_fits {g : PuzzleGrid} (hg : gridFits g) : throughCells g = g := by
  apply grid_ext
  intro r c
  rw [throughCells, cellAt_gridOf]
  exact toCInt_of_fits (hg r c)

theorem gridFits_of_validGrid {g : PuzzleGrid} (hg : validGrid g) : gridFits g := by
  intro r c
  have := hg.1 r c
  unfold fitsCInt
  omega

theorem gridFits_of_subGrid {h g : PuzzleGrid} (hs : subGrid h g) (hg : gridFits g) :
    gridFits h := by
  intro r c
  rcases hs r c with h0 | h1
  · rw [h0]
    unfold fitsCInt
    omega
  · rw [h1]
    exact hg r c

theorem systemFold_markSystem (g : PuzzleGrid) (ps : List Pos) :
    ∀ init : PuzzleGrid,
      (markSystem (ps.map (fun p =>
          (posKey p, ({ Value := cellAt g p.1 p.2, Notes := [], Status := "" } : Cell))))).foldlM
        (fun grid e =>
          if e.2.Status = "s" then
            (keyPos e.1).map (fun p => setCell grid p.1 p.2 (toCInt e.2.Value))
          else some grid) init =
      some (ps.foldl (fun acc p =>
        setCell acc p.1 p.2
          (if cellAt g p.1 p.2 ≠ 0 then toCInt (cellAt g p.1 p.2) else cellAt acc p.1 p.2)) init) := by
  induction ps with
  | nil => intro init; rfl
  | cons p ps ih =>
    intro init
    unfold markSystem at ih ⊢
    rw [List.map_cons, List.map_cons, List.foldlM_cons, List.foldl_cons]
    by_cases h0 : cellAt g p.1 p.2 = 0
    · have hset : setCell init p.1 p.2 (cellAt init p.1 p.2) = init := by
        apply grid_ext
        intro r c
        rw [cellAt_setCell]
        by_cases hrc : r = p.1 ∧ c = p.2
        · obtain ⟨rfl, rfl⟩ := hrc
          simp
        · simp [hrc]
      simp only [h0, ne_eq, not_true_eq_false, if_false, hset]
      have hs : ¬ ("" : String) = "s" := by decide
      simp only [hs, if_false]
      exact ih _
    · simp only [h0, ne_eq, not_false_eq_true, if_true, keyPos_posKey, Option.map_some']
      exact ih _

theorem foldl_setCell_keep (g : PuzzleGrid) (ps : List Pos) :
    ∀ (init : PuzzleGrid) (q : Pos),
      cellAt (ps.foldl (fun acc p =>
        setCell acc p.1 p.2
          (if cellAt g p.1 p.2 ≠ 0 then toCInt (cellAt g p.1 p.2) else cellAt acc p.1 p.2))
        init) q.1 q.2 =
        if q ∈ ps ∧ cellAt g q.1 q.2 ≠ 0 then toCInt (cellAt g q.1 q.2)
        else cellAt init q.1 q.2 := by
  induction ps with
  | nil => intro init q; simp
  | cons p ps ih =>
    intro init q
    rw [List.foldl_cons, ih]
    by_cases hq : q ∈ ps ∧ cellAt g q.1 q.2 ≠ 0
    · have : q ∈ p :: ps ∧ cellAt g q.1 q.2 ≠ 0 := ⟨List.mem_cons_of_mem _ hq.1, hq.2⟩
      rw [if_pos hq, if_pos this]
    · rw [if_neg hq, cellAt_setCell]
      by_cases hqp : q = p
      · subst hqp
        by_cases h0 : cellAt g q.1 q.2 = 0
        · simp [h0]
        · simp [h0]
      · have h1 : ¬ (q.1 = p.1 ∧ q.2 = p.2) := fun h => hqp (Prod.ext h.1 h.2)
        have h2 : ¬ (q ∈ p :: ps ∧ cellAt g q.1 q.2 ≠ 0) := by
          rintro ⟨hm, hne⟩
          rcases List.mem_cons.mp hm with h | h
          · exact hqp h
          · exact hq ⟨h, hne⟩
        rw [if_neg h1, if_neg h2]

/-- The system cells of the cell map that `CreatePuzzle` builds from a grid are
the nonzero cells of that grid. -/
theorem systemGridOf_markSystem (g : PuzzleGrid) :
    systemGridOf (markSystem (gridToCells g)) = some (throughCells g) := by
  have h := systemFold_markSystem g allPositions zeroGrid
  refine Eq.trans h (congrArg some (grid_ext (fun r c => ?_)))
  have := foldl_setCell_keep g allPositions zeroGrid (r, c)
  rw [throughCells, cellAt_gridOf]
  rw [this]
  by_cases h0 : cellAt g r c = 0
  · simp [h0, cellAt_zeroGrid, toCInt]
  · simp [h0, mem_allPositions]

theorem mem_markSystem_gridToCells {g : PuzzleGrid} {e : String × Cell}
    (he : e ∈ markSystem (gridToCells g)) :
    (e.2.Status = "s" ↔ e.2.Value ≠ 0) ∧ (e.2.Value = 0 → e.2.Status = "") := by
  unfold markSystem gridToCells at he
  rw [List.map_map, List.mem_map] at he
  obtain ⟨p, _, rfl⟩ := he
  simp only [Function.comp]
  by_cases h0 : cellAt g p.1 p.2 = 0
  · simp [h0]
  · simp [h0]

/-! ## `CreatePuzzle` -/

theorem AttemptSolve_of_grid (S : Solver) {cells : List (String × Cell)} {grid : PuzzleGrid}
    (h : cellsToGrid cells = some grid) :
    AttemptSolve S cells =
      if (S.solve_sudoku grid).2 then some (gridToCells (S.solve_sudoku grid).1, true)
      else some (cells, false) := by
  unfold AttemptSolve
  rw [h]

theorem AttemptSolve_gridToCells (S : Solver) (g : PuzzleGrid) :
    AttemptSolve S (gridToCells g) =
      if (S.solve_sudoku (throughCells g)).2 then
        some (gridToCells (S.solve_sudoku (throughCells g)).1, true)
      else some (gridToCells g, false) :=
  AttemptSolve_of_grid S (cellsToGrid_gridToCells g)

theorem placeLoop_fits (draws : Nat → Nat) (fuel : Nat) :
    ∀ (n : Nat) (num : Int) (grid : PuzzleGrid) (k : Nat) (r : PuzzleGrid × Nat),
      gridFits grid → placeLoop draws fuel n num grid k = some r → gridFits r.1 := by
  intro n
  induction n with
  | zero =>
    intro num grid k r hg h
    simp only [placeLoop, Option.some.injEq] at h
    rw [← h]
    exact hg
  | succ n ih =>
    intro num grid k r hg h
    unfold placeLoop at h
    cases hs : sampleEmpty draws grid fuel k with
    | none => simp [hs] at h
    | some pk =>
      obtain ⟨p, k1⟩ := pk
      simp only [hs] at h
      refine ih _ _ _ r ?_ h
      intro x y
      rw [cellAt_setCell]
      by_cases hxy : x = p.1 ∧ y = p.2
      · simp only [hxy, and_self, if_true]
        exact fitsCInt_toCInt _
      · simp only [hxy, if_false]
        exact hg x y

/-- The seed grid is read back unchanged from its cell map. -/
theorem throughCells_seed {draws : Nat → Nat} {fuel : Nat} {seed : PuzzleGrid} {k : Nat}
    (h : placeRandomNumbers draws fuel (initializeGrid zeroGrid) 0 = some (seed, k)) :
    throughCells seed = seed := by
  apply throughCells_of_fits
  refine placeLoop_fits draws fuel 9 1 _ 0 (seed, k) ?_ h
  intro r c
  rw [initializeGrid, cellAt_gridOf]
  unfold fitsCInt
  omega

theorem createFromSolved_of_grid (S : Solver) (draws : Nat → Nat) (fuel : Nat)
    (uuid createdAt : String) (level : Int) (k : Nat) {cells : List (String × Cell)}
    {g : PuzzleGrid} (h : cellsToGrid cells = some g) :
    createFromSolved S draws fuel uuid createdAt level k cells =
      (refinePuzzle S draws fuel g level k).map (fun r =>
        { UUID := uuid, CreatedAt := createdAt,
          Cells := markSystem (gridToCells r.1), Difficulty := level }) := by
  rw [createFromSolved, h]
  dsimp only
  generalize refinePuzzle S draws fuel g level k = res
  cases res with
  | none => rfl
  | some r => rfl

theorem createFromSolved_gridToCells (S : Solver) (draws : Nat → Nat) (fuel : Nat)
    (uuid createdAt : String) (level : Int) (k : Nat) (g : PuzzleGrid) :
    createFromSolved S draws fuel uuid createdAt level k (gridToCells g) =
      (refinePuzzle S draws fuel (throughCells g) level k).map (fun r =>
        { UUID := uuid, CreatedAt := createdAt,
          Cells := markSystem (gridToCells r.1), Difficulty := level }) :=
  createFromSolved_of_grid S draws fuel uuid createdAt level k (cellsToGrid_gridToCells g)

theorem createFromAttempt_some (S : Solver) (draws : Nat → Nat) (fuel : Nat)
    (uuid createdAt : String) (level : Int) (k : Nat) (cells : List (String × Cell))
    (solved : Bool) :
    createFromAttempt S draws fuel uuid createdAt level k (some (cells, solved)) =
      if solved = false then some failedPuzzle
      else createFromSolved S draws fuel uuid createdAt level k cells := rfl

theorem createFromAttempt_gridToCells (S : Solver) (draws : Nat → Nat) (fuel : Nat)
    (uuid createdAt : String) (level : Int) (seed : PuzzleGrid) (k : Nat) :
    createFromAttempt S draws fuel uuid createdAt level k (AttemptSolve S (gridToCells seed)) =
      if (S.solve_sudoku (throughCells seed)).2 = true then
        createFromSolved S draws fuel uuid createdAt level k
          (gridToCells (S.solve_sudoku (throughCells seed)).1)
      else some failedPuzzle := by
  rw [AttemptSolve_gridToCells]
  by_cases hs : (S.solve_sudoku (throughCells seed)).2 = true
  · rw [if_pos hs, if_pos hs, createFromAttempt_some, if_neg (by decide)]
  · rw [if_neg hs, if_neg hs, createFromAttempt_some, if_pos rfl]

/-- The possible outcomes of `CreatePuzzle`. -/
theorem CreatePuzzle_cases {S : Solver} {draws : Nat → Nat} {fuel : Nat} {uuid createdAt : String}
    {level : Int} {p : Puzzle} (h : CreatePuzzle S draws fuel uuid createdAt level = some p) :
    ∃ seed k, placeRandomNumbers draws fuel (initializeGrid zeroGrid) 0 = some (seed, k) ∧
      (((S.solve_sudoku (throughCells seed)).2 = false ∧ p = failedPuzzle) ∨
       ((S.solve_sudoku (throughCells seed)).2 = true ∧
         ∃ r, refinePuzzle S draws fuel (throughCells (S.solve_sudoku (throughCells seed)).1)
             level k = some r ∧
           p = { UUID := uuid, CreatedAt := createdAt,
                 Cells := markSystem (gridToCells r.1), Difficulty := level })) := by
  rw [CreatePuzzle] at h
  cases hseed : placeRandomNumbers draws fuel (initializeGrid zeroGrid) 0 with
  | none =>
    rw [hseed] at h
    cases h
  | some sk =>
    obtain ⟨seed, k⟩ := sk
    refine ⟨seed, k, rfl, ?_⟩
    rw [hseed] at h
    change createFromAttempt S draws fuel uuid createdAt level k
      (AttemptSolve S (gridToCells seed)) = some p at h
    rw [createFromAttempt_gridToCells] at h
    by_cases hs : (S.solve_sudoku (throughCells seed)).2 = true
    · right
      rw [if_pos hs, createFromSolved_gridToCells] at h
      cases hr : refinePuzzle S draws fuel (throughCells (S.solve_sudoku (throughCells seed)).1)
          level k with
      | none =>
        rw [hr] at h
        cases h
      | some r =>
        rw [hr] at h
        exact ⟨hs, r, rfl, (Option.some.inj h).symm⟩
    · left
      rw [if_neg hs] at h
      exact ⟨by simpa using hs, (Option.some.inj h).symm⟩

/-- What `CreatePuzzle` returns once the seed is placed and the solver has
succeeded on it. -/
theorem CreatePuzzle_of_solved {S : Solver} {draws : Nat → Nat} {fuel : Nat}
    (uuid createdAt : String) (level : Int) {seed : PuzzleGrid} {k : Nat}
    {r : PuzzleGrid × Nat}
    (hseed : placeRandomNumbers draws fuel (initializeGrid zeroGrid) 0 = some (seed, k))
    (hs : (S.solve_sudoku (throughCells seed)).2 = true)
    (hr : refinePuzzle S draws fuel (throughCells (S.solve_sudoku (throughCells seed)).1)
      level k = some r) :
    CreatePuzzle S draws fuel uuid createdAt level =
      some { UUID := uuid, CreatedAt := createdAt,
             Cells := markSystem (gridToCells r.1), Difficulty := level } := by
  rw [CreatePuzzle, hseed]
  change createFromAttempt S draws fuel uuid createdAt level k
    (AttemptSolve S (gridToCells seed)) = _
  rw [createFromAttempt_gridToCells, if_pos hs, createFromSolved_gridToCells, hr]
  rfl

theorem placeLoop_mono (draws : Nat → Nat) (fuel m : Nat) :
    ∀ (n : Nat) (num : Int) (grid : PuzzleGrid) (k : Nat) (r : PuzzleGrid × Nat),
      placeLoop draws fuel n num grid k = some r →
        placeLoop draws (fuel + m) n num grid k = some r := by
  intro n
  induction n with
  | zero =>
    intro num grid k r h
    simpa [placeLoop] using h
  | succ n ih =>
    intro num grid k r h
    unfold placeLoop at h ⊢
    cases hs : sampleEmpty draws grid fuel k with
    | none => simp [hs] at h
    | some pk =>
      simp only [hs] at h
      rw [sampleEmpty_mono draws grid fuel m k pk hs]
      exact ih _ _ _ _ h

theorem refinePuzzle_mono {S : Solver} {draws : Nat → Nat} {fuel : Nat} (m : Nat)
    {grid : PuzzleGrid} {difficulty : Int} {k : Nat} {r : PuzzleGrid × Nat}
    (h : refinePuzzle S draws fuel grid difficulty k = some r) :
    refinePuzzle S draws (fuel + m) grid difficulty k = some r := by
  rw [refinePuzzle_eq] at h ⊢
  exact backfill_mono draws grid fuel m _ _ _ r h

/-- The grid returned by `refinePuzzle` on a valid solved grid has exactly one
completion and is cut out of the solved grid. -/
theorem refinePuzzle_unique {S : Solver} (hcount : countSound S) {draws : Nat → Nat}
    {fuel : Nat} {G : PuzzleGrid} (hG : validGrid G) {difficulty : Int} {k : Nat}
    {r : PuzzleGrid × Nat} (h : refinePuzzle S draws fuel G difficulty k = some r) :
    subGrid r.1 G ∧ hasUniqueCompletion r.1 := by
  rw [refinePuzzle_eq] at h
  have hA := removalPass_subGrid S (shuffledPositions draws k).1 G
  have hu := removalPass_unique hcount hG (shuffledPositions draws k).1 G (subGrid_refl G)
    (hasUniqueCompletion_of_validGrid hG)
  obtain ⟨h1, h2⟩ := backfill_subGrid draws fuel _ _ _ r hA h
  exact ⟨h1, hasUniqueCompletion_of_superGrid hu h2 (isCompletion_self_of_subGrid hG h1)⟩

theorem exampleSeed_placed :
    placeRandomNumbers exampleDraws 1 (initializeGrid zeroGrid) 0 = some (exampleSeed, 18) := by
  decide

theorem exampleSeed_completion : isCompletion exampleSeed exampleSolution :=
  ⟨exampleSolution_valid, by decide⟩

/-- With the reference solver and the example draws `CreatePuzzle` returns a
puzzle for the difficulties 8 and 9, and it does so on the branch where the
solver succeeds. -/
theorem CreatePuzzle_example_returns (uuid createdAt : String) (level : Int) (hl : 8 ≤ level) :
    ∃ fuel p, CreatePuzzle referenceSolver exampleDraws fuel uuid createdAt level = some p ∧
      placeRandomNumbers exampleDraws fuel (initializeGrid zeroGrid) 0 = some (exampleSeed, 18) ∧
      (referenceSolver.solve_sudoku exampleSeed).2 = true := by
  have hs : (referenceSolver.solve_sudoku exampleSeed).2 = true :=
    referenceSolver_complete exampleSeed_completion
  have hG : validGrid (referenceSolver.solve_sudoku exampleSeed).1 :=
    (referenceSolver_solveSound exampleSeed hs).1
  obtain ⟨fuel, r, hr⟩ := refinePuzzle_exampleDraws_returns referenceSolver_countSound hG
    level hl
  have hseed : placeRandomNumbers exampleDraws (fuel + 1) (initializeGrid zeroGrid) 0 =
      some (exampleSeed, 18) := by
    have := placeLoop_mono exampleDraws 1 fuel 9 1 (initializeGrid zeroGrid) 0 _ exampleSeed_placed
    rw [Nat.add_comm] at this
    exact this
  have hts : throughCells exampleSeed = exampleSeed := throughCells_seed hseed
  have htg : throughCells (referenceSolver.solve_sudoku exampleSeed).1 =
      (referenceSolver.solve_sudoku exampleSeed).1 :=
    throughCells_of_fits (gridFits_of_validGrid hG)
  have hcp := CreatePuzzle_of_solved (S := referenceSolver) uuid createdAt level
    hseed (r := r) (by rw [hts]; exact hs) (by rw [hts, htg]; exact refinePuzzle_mono 1 hr)
  exact ⟨fuel + 1, _, hcp, hseed, hs⟩

/-! ## The cell map of a grid -/

theorem posKey_injective {p q : Pos} (h : posKey p = posKey q) : p = q := by
  have hp := keyPos_posKey p
  rw [h, keyPos_posKey] at hp
  exact (Option.some.inj hp).symm

theorem map_fst_keyed (cell : Pos → Cell) (ps : List Pos) :
    (ps.map (fun p => (posKey p, cell p))).map Prod.fst = ps.map posKey := by
  induction ps with
  | nil => rfl
  | cons p ps ih => simp only [List.map_cons, ih]

theorem lookup_keyed (cell : Pos → Cell) (ps : List Pos) (p : Pos) (hp : p ∈ ps) :
    (ps.map (fun q => (posKey q, cell q))).lookup (posKey p) = some (cell p) := by
  induction ps with
  | nil => simp at hp
  | cons q ps ih =>
    rw [List.map_cons, List.lookup_cons]
    by_cases hq : posKey p = posKey q
    · have : p = q := posKey_injective hq
      subst this
      simp
    · have hne : (posKey p == posKey q) = false := by simpa using hq
      rw [hne]
      apply ih
      rcases List.mem_cons.mp hp with h | h
      · exact absurd (by rw [h]) hq
      · exact h

theorem allPositions_keys :
    allPositions.map posKey =
      ["01", "02", "03", "04", "05", "06", "07", "08", "09", "10", "11", "12", "13", "14",
      "15", "16", "17", "18", "19", "20", "21", "22", "23", "24", "25", "26", "27", "28",
      "29", "30", "31", "32", "33", "34", "35", "36", "37", "38", "39", "40", "41", "42",
      "43", "44", "45", "46", "47", "48", "49", "50", "51", "52", "53", "54", "55", "56",
      "57", "58", "59", "60", "61", "62", "63", "64", "65", "66", "67", "68", "69", "70",
      "71", "72", "73", "74", "75", "76", "77", "78", "79", "80", "81"] := by
  decide

theorem allPositions_length : allPositions.length = 81 := by
  decide

/-- C11.  For every grid, `gridToCells` returns a map with exactly 81 entries, its
keys are exactly the two-character strings `"01"` to `"81"` (each once, in
row-major order), and for every `row` and `col` the entry at the key of
`row*9 + col + 1` has the value `grid[row][col]`, empty notes and empty status. -/
theorem gridToCells_entries (g : PuzzleGrid) :
    (gridToCells g).length = 81 ∧
    (gridToCells g).map Prod.fst =
      ["01", "02", "03", "04", "05", "06", "07", "08", "09", "10", "11", "12", "13", "14",
      "15", "16", "17", "18", "19", "20", "21", "22", "23", "24", "25", "26", "27", "28",
      "29", "30", "31", "32", "33", "34", "35", "36", "37", "38", "39", "40", "41", "42",
      "43", "44", "45", "46", "47", "48", "49", "50", "51", "52", "53", "54", "55", "56",
      "57", "58", "59", "60", "61", "62", "63", "64", "65", "66", "67", "68", "69", "70",
      "71", "72", "73", "74", "75", "76", "77", "78", "79", "80", "81"] ∧
    ∀ row col : Fin 9,
      (gridToCells g).lookup (sprintf02d (row.val * 9 + col.val + 1)) =
        some { Value := cellAt g row col, Notes := [], Status := "" } := by
  refine ⟨?_, ?_, fun row col => ?_⟩
  · exact (List.length_map _ _).trans allPositions_length
  · exact (map_fst_keyed _ allPositions).trans allPositions_keys
  · exact lookup_keyed
      (fun p => ({ Value := cellAt g p.1 p.2, Notes := [], Status := "" } : Cell))
      allPositions (row, col) (mem_allPositions (row, col))

theorem keyPos_sprintf02d (n : Nat) (h1 : 1 ≤ n) (h81 : n ≤ 81) :
    keyPos (sprintf02d n) =
      some ((⟨(n - 1) / 9, by omega⟩ : Fin 9), (⟨(n - 1) % 9, by omega⟩ : Fin 9)) := by
  have h := keyPos_posKey ((⟨(n - 1) / 9, by omega⟩ : Fin 9), (⟨(n - 1) % 9, by omega⟩ : Fin 9))
  have e : (n - 1) / 9 * 9 + (n - 1) % 9 + 1 = n := by omega
  unfold posKey at h
  simp only at h
  rw [e] at h
  exact h

/-- C18.  `cellsToGrid` undoes `gridToCells`: for every grid (of C `int`s)
`cellsToGrid (gridToCells g)` is `g`, and every key `"01"` .. `"81"`, the key of
`pos` for `1 ≤ pos ≤ 81`, is decoded to the row `(pos-1)/9` and the column
`(pos-1)%9`, both in `0..8`, so that no array access of `cellsToGrid` on a map made
by `gridToCells` is out of range. -/
theorem cellsToGrid_undoes_gridToCells (g : PuzzleGrid) (hg : gridFits g) :
    cellsToGrid (gridToCells g) = some g ∧
    (∀ e ∈ gridToCells g, ∃ p : Pos, keyPos e.1 = some p) ∧
    ∀ (pos : Nat) (h1 : 1 ≤ pos) (h81 : pos ≤ 81),
      keyPos (sprintf02d pos) =
        some ((⟨(pos - 1) / 9, by omega⟩ : Fin 9), (⟨(pos - 1) % 9, by omega⟩ : Fin 9)) := by
  refine ⟨?_, ?_, keyPos_sprintf02d⟩
  · rw [cellsToGrid_gridToCells, throughCells_of_fits hg]
  · intro e he
    have hk : e.1 ∈ (gridToCells g).map Prod.fst := List.mem_map_of_mem Prod.fst he
    rw [show (gridToCells g).map Prod.fst = allPositions.map posKey from
      map_fst_keyed _ allPositions] at hk
    obtain ⟨p, _, hp⟩ := List.mem_map.mp hk
    exact ⟨p, by rw [← hp]; exact keyPos_posKey p⟩

theorem cellsToGrid_undoes_gridToCells_witness :
    gridFits exampleSolution ∧ cellsToGrid (gridToCells exampleSolution) = some exampleSolution :=
  ⟨gridFits_of_validGrid exampleSolution_valid,
    (cellsToGrid_undoes_gridToCells exampleSolution
      (gridFits_of_validGrid exampleSolution_valid)).1⟩

/-! ## `ParseDifficulty` and the difficulty listed for a puzzle -/

/-- C12.  For every string, `ParseDifficulty` returns an integer in `[0, 9]`: the
value parsed by `strconv.Atoi` when parsing succeeds with a value in `[0, 9]`, and
5 otherwise (empty string, text that does not parse, a value below 0 or above 9).
In particular it returns `n` on the decimal numeral of `n` for `n` in `0..9`. -/
theorem ParseDifficulty_spec :
    (∀ s : String,
      (0 ≤ ParseDifficulty s ∧ ParseDifficulty s ≤ 9) ∧
      ParseDifficulty s =
        if (atoi s).2 = true ∧ 0 ≤ (atoi s).1 ∧ (atoi s).1 ≤ 9 then (atoi s).1 else 5) ∧
    (∀ n : Fin 10, ParseDifficulty (Nat.repr n.val) = (n.val : Int)) ∧
    ParseDifficulty "" = 5 ∧ ParseDifficulty "easy" = 5 ∧
    ParseDifficulty "-1" = 5 ∧ ParseDifficulty "10" = 5 := by
  refine ⟨fun s => ?_, by decide, by decide, by decide, by decide, by decide⟩
  have hform : ParseDifficulty s =
      if (atoi s).2 = true ∧ 0 ≤ (atoi s).1 ∧ (atoi s).1 ≤ 9 then (atoi s).1 else 5 := by
    unfold ParseDifficulty
    by_cases he : s = ""
    · subst he
      decide
    · rw [if_neg he]
      simp only
      by_cases hok : (atoi s).2 = true
      · by_cases hr : 0 ≤ (atoi s).1 ∧ (atoi s).1 ≤ 9
        · rw [if_neg (by rw [hok]; simp; omega), if_pos ⟨hok, hr⟩]
        · rw [if_pos (by right; omega), if_neg (fun h => hr h.2)]
      · have hf : (atoi s).2 = false := by simpa using hok
        rw [if_pos (Or.inl hf), if_neg (fun h => hok h.1)]
  refine ⟨?_, hform⟩
  rw [hform]
  split_ifs with h
  · exact h.2
  · decide

/-- C16, as amended.  For a puzzle that loads, the difficulty `ListPuzzles` reports
is the stored difficulty when that is in `1..9`; for every other stored value, 0
included, it is the estimate `10 - filled / 9` clamped to `[1, 9]`, where `filled`
is the number of cells with status `"s"`.  The reported value is always in
`[1, 9]`. -/
theorem listedDifficulty_spec (puzzle : Puzzle) :
    listedDifficulty (some puzzle) =
      (if 1 ≤ puzzle.Difficulty ∧ puzzle.Difficulty ≤ 9 then puzzle.Difficulty
       else max 1 (min 9
        (10 - ((puzzle.Cells.countP (fun e => decide (e.2.Status = "s")) / 9 : Nat) : Int)))) ∧
    1 ≤ listedDifficulty (some puzzle) ∧ listedDifficulty (some puzzle) ≤ 9 := by
  have hform : listedDifficulty (some puzzle) =
      (if 1 ≤ puzzle.Difficulty ∧ puzzle.Difficulty ≤ 9 then puzzle.Difficulty
       else max 1 (min 9
        (10 - ((puzzle.Cells.countP (fun e => decide (e.2.Status = "s")) / 9 : Nat) : Int)))) := by
    unfold listedDifficulty
    simp only
    by_cases hd : 1 ≤ puzzle.Difficulty ∧ puzzle.Difficulty ≤ 9
    · rw [if_neg (by omega), if_pos hd]
    · rw [if_pos (by omega), if_neg hd]
      split_ifs <;> omega
  refine ⟨hform, ?_⟩
  rw [hform]
  split_ifs with h
  · exact h
  · omega

/-- C16 fails as stated: a puzzle stored with difficulty 0, a value of the valid
range `0..9`, is listed with the estimated difficulty 2. -/
theorem listedDifficulty_zero_is_estimated :
    easiestPuzzle.Difficulty = 0 ∧ listedDifficulty (some easiestPuzzle) = 2 := by
  decide

/-! ## `placeRandomNumbers` -/

theorem placeLoop_clueCount (draws : Nat → Nat) (fuel : Nat) :
    ∀ (n : Nat) (num : Int) (grid : PuzzleGrid) (k : Nat) (r : PuzzleGrid × Nat),
      1 ≤ num → num + n ≤ 10 → placeLoop draws fuel n num grid k = some r →
        clueCount r.1 = clueCount grid + n := by
  intro n
  induction n with
  | zero =>
    intro num grid k r _ _ h
    simp only [placeLoop, Option.some.injEq] at h
    rw [← h]
    rfl
  | succ n ih =>
    intro num grid k r h1 h10 h
    unfold placeLoop at h
    cases hs : sampleEmpty draws grid fuel k with
    | none => simp [hs] at h
    | some pk =>
      obtain ⟨p, k1⟩ := pk
      simp only [hs] at h
      have h0 := sampleEmpty_empty draws grid fuel k p k1 hs
      have hnum : toCInt num = num := toCInt_of_fits (by unfold fitsCInt; omega)
      have hne : toCInt num ≠ 0 := by rw [hnum]; omega
      rw [ih (num + 1) _ k1 r (by omega) (by push_cast at h10 ⊢; omega) h,
        clueCount_setCell_of_empty h0 hne]
      omega

/-- The nonzero cells of `g` hold the digits `1..m`, each in exactly one cell. -/
theorem placeLoop_digits (draws : Nat → Nat) (fuel : Nat) :
    ∀ (n : Nat) (num : Int) (grid : PuzzleGrid) (k : Nat) (r : PuzzleGrid × Nat),
      1 ≤ num → num + n ≤ 10 →
      (∀ x y, cellAt grid x y = 0 ∨ (1 ≤ cellAt grid x y ∧ cellAt grid x y < num)) →
      (∀ d : Int, 1 ≤ d → d < num → ∃! p : Pos, cellAt grid p.1 p.2 = d) →
      placeLoop draws fuel n num grid k = some r →
        (∀ x y, cellAt r.1 x y = 0 ∨ (1 ≤ cellAt r.1 x y ∧ cellAt r.1 x y < num + n)) ∧
        (∀ d : Int, 1 ≤ d → d < num + n → ∃! p : Pos, cellAt r.1 p.1 p.2 = d) := by
  intro n
  induction n with
  | zero =>
    intro num grid k r _ _ hrange huniq h
    simp only [placeLoop, Option.some.injEq] at h
    rw [← h]
    simpa using ⟨hrange, huniq⟩
  | succ n ih =>
    intro num grid k r h1 h10 hrange huniq h
    unfold placeLoop at h
    cases hs : sampleEmpty draws grid fuel k with
    | none => simp [hs] at h
    | some pk =>
      obtain ⟨p, k1⟩ := pk
      simp only [hs] at h
      have h0 := sampleEmpty_empty draws grid fuel k p k1 hs
      have hnum : toCInt num = num := toCInt_of_fits (by unfold fitsCInt; omega)
      rw [hnum] at h
      have hstep := ih (num + 1) (setCell grid p.1 p.2 num) k1 r (by omega)
        (by push_cast at h10 ⊢; omega) ?_ ?_ h
      · obtain ⟨ha, hb⟩ := hstep
        constructor
        · intro x y
          have := ha x y
          push_cast
          omega
        · intro d hd1 hd2
          exact hb d hd1 (by push_cast at hd2; omega)
      · intro x y
        rw [cellAt_setCell]
        by_cases hxy : x = p.1 ∧ y = p.2
        · simp only [hxy, and_self, if_true]
          omega
        · simp only [hxy, if_false]
          have := hrange x y
          omega
      · intro d hd1 hd2
        by_cases hdn : d = num
        · subst hdn
          refine ⟨p, by beta_reduce; rw [cellAt_setCell]; simp, fun q hq => ?_⟩
          beta_reduce at hq
          rw [cellAt_setCell] at hq
          by_cases hqp : q.1 = p.1 ∧ q.2 = p.2
          · exact Prod.ext hqp.1 hqp.2
          · simp only [hqp, if_false] at hq
            have := hrange q.1 q.2
            omega
        · obtain ⟨p0, hp0, hu⟩ := huniq d hd1 (by omega)
          have hp0p : ¬ (p0.1 = p.1 ∧ p0.2 = p.2) := by
            rintro ⟨e1, e2⟩
            rw [e1, e2, h0] at hp0
            omega
          refine ⟨p0, by beta_reduce; rw [cellAt_setCell]; simpa [hp0p] using hp0, fun q hq => ?_⟩
          beta_reduce at hq
          rw [cellAt_setCell] at hq
          by_cases hqp : q.1 = p.1 ∧ q.2 = p.2
          · simp only [hqp, and_self, if_true] at hq
            exact absurd hq.symm hdn
          · simp only [hqp, if_false] at hq
            exact hu q hq

theorem clueCount_of_all_zero {g : PuzzleGrid} (hz : ∀ x y, cellAt g x y = 0) :
    clueCount g = 0 := by
  unfold clueCount
  rw [Finset.card_eq_zero, Finset.filter_eq_empty_iff]
  intro p _
  simp [hz p.1 p.2]

theorem cornerSeed_placed :
    placeRandomNumbers cornerDraws 1 zeroGrid 0 = some (cornerSeed, 18) := by
  decide

/-- C13.  Whenever `placeRandomNumbers` returns on the all-zero grid, the grid it
leaves has exactly nine nonzero cells and every digit `1..9` is in exactly one
cell (no placement overwrites an earlier one).  No row, column or region is
looked at: the draws `cornerDraws` put 1 and 2 into the same row and region and 3
into the column of 1. -/
theorem placeRandomNumbers_digits (draws : Nat → Nat) (fuel : Nat) (grid : PuzzleGrid) (k : Nat)
    (r : PuzzleGrid × Nat) (hzero : ∀ x y, cellAt grid x y = 0)
    (h : placeRandomNumbers draws fuel grid k = some r) :
    clueCount r.1 = 9 ∧
    (∀ d : Int, 1 ≤ d → d ≤ 9 → ∃! p : Pos, cellAt r.1 p.1 p.2 = d) ∧
    (∀ x y, cellAt r.1 x y = 0 ∨ (1 ≤ cellAt r.1 x y ∧ cellAt r.1 x y ≤ 9)) ∧
    (placeRandomNumbers cornerDraws 1 zeroGrid 0 = some (cornerSeed, 18) ∧
      cellAt cornerSeed 0 0 = 1 ∧ cellAt cornerSeed 0 1 = 2 ∧ cellAt cornerSeed 1 0 = 3) := by
  unfold placeRandomNumbers at h
  have hc := placeLoop_clueCount draws fuel 9 1 grid k r (by decide) (by decide) h
  rw [clueCount_of_all_zero hzero] at hc
  obtain ⟨ha, hb⟩ := placeLoop_digits draws fuel 9 1 grid k r (by decide) (by decide)
    (fun x y => Or.inl (hzero x y)) (fun d hd1 hd2 => by omega) h
  refine ⟨by omega, fun d hd1 hd9 => hb d hd1 (by push_cast; omega), fun x y => ?_,
    cornerSeed_placed, by decide, by decide, by decide⟩
  have := ha x y
  push_cast at this
  omega

theorem placeRandomNumbers_digits_witness :
    (∀ x y, cellAt (initializeGrid zeroGrid) x y = 0) ∧
    placeRandomNumbers exampleDraws 1 (initializeGrid zeroGrid) 0 = some (exampleSeed, 18) ∧
    clueCount exampleSeed = 9 ∧
    (∀ d : Int, 1 ≤ d → d ≤ 9 → ∃! p : Pos, cellAt exampleSeed p.1 p.2 = d) :=
  have hz : ∀ x y, cellAt (initializeGrid zeroGrid) x y = 0 := fun x y => by
    rw [initializeGrid, cellAt_gridOf]
  have hr := placeRandomNumbers_digits exampleDraws 1 (initializeGrid zeroGrid) 0
    (exampleSeed, 18) hz exampleSeed_placed
  ⟨hz, exampleSeed_placed, hr.1, hr.2.1⟩

/-! ## The shuffle of `refinePuzzle` -/

theorem set_set_perm {α : Type} [DecidableEq α] (l : List α) (i j : Nat) (hi : i < l.length)
    (hj : j < l.length) : ((l.set i l[j]).set j l[i]).Perm l := by
  rw [List.perm_iff_count]
  intro a
  have hj2 : j < (l.set i l[j]).length := by simpa using hj
  have hmid : (l.set i l[j])[j] = l[j] := by
    rw [List.getElem_set]
    split
    · rfl
    · rfl
  have hpos : (if (l[i] == a) = true then 1 else 0) ≤ List.count a l := by
    split_ifs with h
    · have hia : l[i] = a := by simpa using h
      rw [← hia]
      exact List.count_pos_iff.mpr (List.getElem_mem hi)
    · exact Nat.zero_le _
  rw [List.count_set _ _ _ _ hj2, List.count_set _ _ _ _ hi, hmid]
  split_ifs at hpos ⊢ <;> omega

theorem swapAt_length (ps : List Pos) (i j : Nat) : (swapAt ps i j).length = ps.length := by
  simp [swapAt]

theorem swapAt_perm (ps : List Pos) (i j : Nat) (hi : i < ps.length) (hj : j < ps.length) :
    (swapAt ps i j).Perm ps := by
  have hgi : ps.getD i default = ps[i] := by simp [List.getD_eq_getElem?_getD, hi]
  have hgj : ps.getD j default = ps[j] := by simp [List.getD_eq_getElem?_getD, hj]
  unfold swapAt
  rw [hgi, hgj]
  exact set_set_perm ps i j hi hj

theorem shuffleLoop_perm (draws : Nat → Nat) :
    ∀ (n i : Nat) (ps : List Pos) (k : Nat), i + n ≤ ps.length →
      (shuffleLoop draws n i ps k).1.Perm ps ∧ (shuffleLoop draws n i ps k).2 = k + n := by
  intro n
  induction n with
  | zero =>
    intro i ps k _
    exact ⟨List.Perm.refl _, rfl⟩
  | succ n ih =>
    intro i ps k h
    have hi : i < ps.length := by omega
    have hj : i + draws k % (ps.length - i) < ps.length := by
      have := Nat.mod_lt (draws k) (show 0 < ps.length - i by omega)
      omega
    rw [shuffleLoop]
    obtain ⟨hp, hk⟩ := ih (i + 1) (swapAt ps i (i + draws k % (ps.length - i))) (k + 1)
      (by rw [swapAt_length]; omega)
    exact ⟨hp.trans (swapAt_perm ps i _ hi hj), by rw [hk]; omega⟩

theorem shuffledPositions_shuffle (draws : Nat → Nat) (k : Nat) :
    (shuffledPositions draws k).1.Perm initialPositions ∧
    (shuffledPositions draws k).2 = k + initialPositions.length := by
  rw [shuffledPositions]
  exact shuffleLoop_perm draws _ 0 _ k (Nat.le_of_eq (Nat.zero_add _))

theorem initialPositions_length : initialPositions.length = 81 := by
  decide

theorem initialPositions_get (i : Fin 81) : initialPositions.get? i.val =
      some ((⟨i.val / 9, by omega⟩ : Fin 9), (⟨i.val % 9, by omega⟩ : Fin 9)) := by
  revert i
  decide

theorem initialPositions_eq : initialPositions = allPositions := by
  decide

theorem allPositions_nodup : allPositions.Nodup := by
  decide

/-- C15.  For every sequence of random draws the shuffled position list of
`refinePuzzle` is a permutation of the 81 grid positions `(i / 9, i % 9)`,
`i` in `0..80`: it has 81 entries, every position occurs in it and none occurs
twice, so the removal pass visits each cell exactly once.  Each exchange index
`i + draw % (81 - i)` lies in `[i, 80]`, and the shuffle reads 81 draws. -/
theorem shuffledPositions_perm (draws : Nat → Nat) (k : Nat) :
    (shuffledPositions draws k).1.Perm initialPositions ∧
    (∀ i : Fin 81, initialPositions.get? i.val =
      some ((⟨i.val / 9, by omega⟩ : Fin 9), (⟨i.val % 9, by omega⟩ : Fin 9))) ∧
    (shuffledPositions draws k).1.length = 81 ∧
    (shuffledPositions draws k).1.Nodup ∧
    (∀ p : Pos, p ∈ (shuffledPositions draws k).1) ∧
    (∀ i : Nat, i < 81 → i ≤ i + draws (k + i) % (81 - i) ∧ i + draws (k + i) % (81 - i) ≤ 80) ∧
    (shuffledPositions draws k).2 = k + 81 := by
  obtain ⟨hp, hk⟩ := shuffledPositions_shuffle draws k
  refine ⟨hp, initialPositions_get, ?_, ?_, ?_, ?_, ?_⟩
  · rw [hp.length_eq, initialPositions_length]
  · rw [hp.nodup_iff, initialPositions_eq]
    exact allPositions_nodup
  · intro p
    rw [hp.mem_iff, initialPositions_eq]
    exact mem_allPositions p
  · intro i hi
    have := Nat.mod_lt (draws (k + i)) (show 0 < 81 - i by omega)
    omega
  · rw [hk, initialPositions_length]

/-! ## `refinePuzzle` only removes -/

/-- C17.  Whenever `refinePuzzle` returns, the grid it returns is a sub-grid of
its input: every cell is 0 or the input value at the same position.  The same
holds after every prefix of the removal pass and after any number of backfill
iterations. -/
theorem refinePuzzle_subGrid (S : Solver) (draws : Nat → Nat) (fuel : Nat) (grid : PuzzleGrid)
    (difficulty : Int) (k : Nat) (r : PuzzleGrid × Nat)
    (h : refinePuzzle S draws fuel grid difficulty k = some r) :
    (∀ x y, cellAt r.1 x y = 0 ∨ cellAt r.1 x y = cellAt grid x y) ∧
    (∀ n : Nat, subGrid (removalPass S ((shuffledPositions draws k).1.take n) grid) grid) ∧
    (∀ (n : Nat) (mid : PuzzleGrid × Nat),
      backfill draws fuel grid n (removalPass S (shuffledPositions draws k).1 grid)
        (shuffledPositions draws k).2 = some mid → subGrid mid.1 grid) := by
  rw [refinePuzzle_eq] at h
  have hpass := removalPass_subGrid S (shuffledPositions draws k).1 grid
  have hfin := (backfill_subGrid draws fuel _ _ _ r hpass h).1
  refine ⟨fun x y => ?_, fun n => removalPass_subGrid S _ grid,
    fun n mid hm => (backfill_subGrid draws fuel n _ _ mid hpass hm).1⟩
  exact hfin x y

theorem refinePuzzle_subGrid_witness :
    ∃ fuel r, refinePuzzle referenceSolver exampleDraws fuel exampleSolution 8 18 = some r ∧
      ∀ x y, cellAt r.1 x y = 0 ∨ cellAt r.1 x y = cellAt exampleSolution x y := by
  obtain ⟨fuel, r, hr⟩ := refinePuzzle_exampleDraws_returns referenceSolver_countSound
    exampleSolution_valid 8 (by decide)
  exact ⟨fuel, r, hr,
    (refinePuzzle_subGrid referenceSolver exampleDraws fuel exampleSolution 8 18 r hr).1⟩

/-! ## The validation handler -/

theorem badValuePuzzle_validated :
    ValidateSolution referenceSolver badValuePuzzle = some (badValuePuzzleValidated, true) := by
  decide

/-! ## A grid that cannot lose a clue has at least ten holes -/

/-- In a valid grid every digit occurs in every row. -/
theorem validGrid_row_surjective {G : PuzzleGrid} (hG : validGrid G) (x : Fin 9) {v : Int}
    (hv : 1 ≤ v ∧ v ≤ 9) : ∃ c, cellAt G x c = v := by
  let f : Fin 9 → Fin 9 := fun c =>
    ⟨(cellAt G x c - 1).toNat, by have := hG.1 x c; omega⟩
  have hinj : Function.Injective f := by
    intro c1 c2 h
    have h1 := hG.1 x c1
    have h2 := hG.1 x c2
    have hval : (cellAt G x c1 - 1).toNat = (cellAt G x c2 - 1).toNat := congrArg Fin.val h
    exact hG.2.1 x c1 c2 (by omega)
  have hsurj : Function.Surjective f := Finite.injective_iff_surjective.mp hinj
  obtain ⟨c, hc⟩ := hsurj ⟨(v - 1).toNat, by omega⟩
  refine ⟨c, ?_⟩
  have h1 := hG.1 x c
  have hval : (cellAt G x c - 1).toNat = (v - 1).toNat := congrArg Fin.val hc
  omega

/-- Two valid grids that differ at a cell differ at another cell of its row. -/
theorem differs_in_row {G s : PuzzleGrid} (hG : validGrid G) (hs : validGrid s) {x y : Fin 9}
    (hne : cellAt s x y ≠ cellAt G x y) : ∃ c, c ≠ y ∧ cellAt s x c ≠ cellAt G x c := by
  obtain ⟨c, hc⟩ := validGrid_row_surjective hs x (hG.1 x y)
  have hcy : c ≠ y := by
    rintro rfl
    exact hne hc
  refine ⟨c, hcy, ?_⟩
  rw [hc]
  intro heq
  exact hcy (hG.2.1 x c y heq.symm)

/-- Two valid grids that differ at a cell differ at another cell of its column. -/
theorem differs_in_column {G s : PuzzleGrid} (hG : validGrid G) (hs : validGrid s) {x y : Fin 9}
    (hne : cellAt s x y ≠ cellAt G x y) : ∃ r, r ≠ x ∧ cellAt s r y ≠ cellAt G r y := by
  obtain ⟨r, hr⟩ := validGrid_column_surjective hs y (hG.1 x y)
  have hrx : r ≠ x := by
    rintro rfl
    exact hne hr
  refine ⟨r, hrx, ?_⟩
  rw [hr]
  intro heq
  exact hrx (hG.2.2.1 y r x heq.symm)

/-- When a clue of a grid with the single completion `G` cannot be removed, there
is a valid grid that differs from `G` at the clue and agrees with `G` on every
other clue. -/
theorem second_completion_at_clue {G h : PuzzleGrid} (hG : validGrid G) (hsub : subGrid h G)
    (hu : hasUniqueCompletion h) {p : Pos} (hm : hasMultipleCompletions (setCell h p.1 p.2 0)) :
    ∃ s, validGrid s ∧ cellAt s p.1 p.2 ≠ cellAt G p.1 p.2 ∧
      ∀ x y, cellAt s x y ≠ cellAt G x y → (x = p.1 ∧ y = p.2) ∨ cellAt h x y = 0 := by
  obtain ⟨s1, s2, hne, h1, h2⟩ := hm
  have hGc : isCompletion h G := isCompletion_self_of_subGrid hG hsub
  have key : ∀ s, isCompletion (setCell h p.1 p.2 0) s → s ≠ G →
      validGrid s ∧ cellAt s p.1 p.2 ≠ cellAt G p.1 p.2 ∧
      ∀ x y, cellAt s x y ≠ cellAt G x y → (x = p.1 ∧ y = p.2) ∨ cellAt h x y = 0 := by
    intro s hs hsG
    have hagree : ∀ x y, ¬ (x = p.1 ∧ y = p.2) → cellAt h x y ≠ 0 →
        cellAt s x y = cellAt G x y := by
      intro x y hxy h0
      have hk := hs.2 x y
      rw [cellAt_setCell, if_neg hxy] at hk
      rw [hk h0]
      exact (hsub x y).resolve_left h0
    refine ⟨hs.1, ?_, ?_⟩
    · intro heq
      apply hsG
      have hsc : isCompletion h s := by
        refine ⟨hs.1, fun x y h0 => ?_⟩
        by_cases hxy : x = p.1 ∧ y = p.2
        · obtain ⟨rfl, rfl⟩ := hxy
          rw [heq]
          exact ((hsub _ _).resolve_left h0).symm
        · rw [hagree x y hxy h0]
          exact ((hsub x y).resolve_left h0).symm
      exact hu.unique hsc hGc
    · intro x y hd
      by_cases hxy : x = p.1 ∧ y = p.2
      · exact Or.inl hxy
      · right
        by_contra h0
        exact hd (hagree x y hxy h0)
  by_cases hs1 : s1 = G
  · have hs2 : s2 ≠ G := fun e => hne (hs1.trans e.symm)
    exact ⟨s2, key s2 h2 hs2⟩
  · exact ⟨s1, key s1 h1 hs1⟩

/-- A grid cut out of a valid grid, with that grid as its only completion and in
which no clue can be removed without a second completion, has at least ten
holes. -/
theorem ten_le_emptyCount_of_stuck {G h : PuzzleGrid} (hG : validGrid G) (hsub : subGrid h G)
    (hu : hasUniqueCompletion h)
    (hmin : ∀ p : Pos, cellAt h p.1 p.2 ≠ 0 → hasMultipleCompletions (setCell h p.1 p.2 0)) :
    10 ≤ emptyCount h := by
  by_contra hlt
  have hle : emptyCount h ≤ 9 := by omega
  have hcol : ∀ y : Fin 9, ∃ x, cellAt h x y = 0 := by
    intro y
    by_contra hno
    have hall : ∀ x, cellAt h x y ≠ 0 := fun x h0 => hno ⟨x, h0⟩
    obtain ⟨s, hs, hd, hother⟩ :=
      second_completion_at_clue hG hsub hu (hmin ((0 : Fin 9), y) (hall 0))
    obtain ⟨r, hr, hrd⟩ := differs_in_column hG hs hd
    rcases hother r y hrd with ⟨e, _⟩ | h0
    · exact hr e
    · exact hall r h0
  have hinj : Set.InjOn (fun p : Pos => p.2)
      (Finset.univ.filter (fun p : Pos => cellAt h p.1 p.2 = 0) : Finset Pos) := by
    rw [← Finset.card_image_iff]
    have himg : (Finset.univ.filter (fun p : Pos => cellAt h p.1 p.2 = 0)).image
        (fun p : Pos => p.2) = Finset.univ := by
      apply Finset.eq_univ_of_forall
      intro y
      obtain ⟨x, hx⟩ := hcol y
      exact Finset.mem_image.mpr ⟨(x, y), by simpa using hx, rfl⟩
    have h1 := Finset.card_image_le
      (s := Finset.univ.filter (fun p : Pos => cellAt h p.1 p.2 = 0)) (f := fun p : Pos => p.2)
    rw [himg] at h1 ⊢
    have h9 : (Finset.univ : Finset (Fin 9)).card = 9 := by simp
    unfold emptyCount at hle
    omega
  have hclue : ∃ p : Pos, cellAt h p.1 p.2 ≠ 0 := by
    have e := clueCount_add_emptyCount h
    have hpos : 0 < clueCount h := by omega
    unfold clueCount at hpos
    obtain ⟨p, hp⟩ := Finset.card_pos.mp hpos
    exact ⟨p, by simpa using hp⟩
  obtain ⟨p, hp⟩ := hclue
  obtain ⟨s, hs, hd, hother⟩ := second_completion_at_clue hG hsub hu (hmin p hp)
  obtain ⟨c, hc, hcd⟩ := differs_in_row hG hs hd
  have h1 : cellAt h p.1 c = 0 := by
    rcases hother p.1 c hcd with ⟨_, e⟩ | h0
    · exact absurd e hc
    · exact h0
  obtain ⟨r, hr, hrd⟩ := differs_in_column hG hs hcd
  have h2 : cellAt h r c = 0 := by
    rcases hother r c hrd with ⟨_, e⟩ | h0
    · exact absurd e hc
    · exact h0
  have heq : ((r, c) : Pos) = (p.1, c) :=
    hinj (by simpa using h2) (by simpa using h1) rfl
  exact hr (congrArg Prod.fst heq)

/-! ## `refinePuzzle` and `CreatePuzzle` return -/

theorem mem_shuffledPositions (draws : Nat → Nat) (k : Nat) (p : Pos) :
    p ∈ (shuffledPositions draws k).1 := by
  rw [(shuffledPositions_shuffle draws k).1.mem_iff, initialPositions_eq]
  exact mem_allPositions p

/-- On a valid grid, with a counter that meets its contract, a removal pass
over an order that holds every position leaves at least ten empty cells. -/
theorem removalPass_leaves_ten {S : Solver} (hcount : countSound S) {G : PuzzleGrid}
    (hG : validGrid G) {ps : List Pos} (hall : ∀ p : Pos, p ∈ ps) :
    10 ≤ emptyCount (removalPass S ps G) :=
  ten_le_emptyCount_of_stuck hG (removalPass_subGrid S ps G)
    (removalPass_unique hcount hG ps G (subGrid_refl G) (hasUniqueCompletion_of_validGrid hG))
    (fun p hp => removalPass_stuck hcount ps G p (hall p) hp)

theorem backfillCount_le_ten {difficulty : Int} (hd : 0 ≤ difficulty) :
    backfillCount difficulty ≤ 10 := by
  unfold backfillCount
  omega

/-- On a valid grid, with a counter that meets its contract and draws that keep
reaching every position, `refinePuzzle` returns for every difficulty from 0
on. -/
theorem refinePuzzle_returns {S : Solver} (hcount : countSound S) {draws : Nat → Nat}
    (hfair : fairDraws draws) {G : PuzzleGrid} (hG : validGrid G) {difficulty : Int}
    (hd : 0 ≤ difficulty) (k : Nat) :
    ∃ fuel r, refinePuzzle S draws fuel G difficulty k = some r := by
  have h10 := removalPass_leaves_ten hcount hG (mem_shuffledPositions draws k)
  have hb := backfillCount_le_ten hd
  obtain ⟨fuel, r, hr⟩ := backfill_returns hfair G (backfillCount difficulty)
    (removalPass S (shuffledPositions draws k).1 G) (shuffledPositions draws k).2 (by omega)
  exact ⟨fuel, r, by rw [refinePuzzle_eq]; exact hr⟩

theorem placeLoop_returns {draws : Nat → Nat} (hfair : fairDraws draws) :
    ∀ (n : Nat) (num : Int) (grid : PuzzleGrid) (k : Nat), n ≤ emptyCount grid →
      ∃ fuel r, placeLoop draws fuel n num grid k = some r := by
  intro n
  induction n with
  | zero =>
    intro num grid k _
    exact ⟨0, _, rfl⟩
  | succ n ih =>
    intro num grid k hle
    obtain ⟨fuel1, pk, hs⟩ := sampleEmpty_of_fair hfair (g := grid) (by omega) k
    obtain ⟨p, k1⟩ := pk
    have h0 := sampleEmpty_empty draws grid fuel1 k p k1 hs
    have hle1 : n ≤ emptyCount (setCell grid p.1 p.2 (toCInt num)) := by
      have := emptyCount_setCell_ge grid p.1 p.2 (toCInt num) h0
      omega
    obtain ⟨fuel2, r, hb⟩ := ih (num + 1) _ k1 hle1
    refine ⟨fuel1 + fuel2, r, ?_⟩
    unfold placeLoop
    rw [sampleEmpty_mono draws grid fuel1 fuel2 k _ hs]
    simp only
    have := placeLoop_mono draws fuel2 fuel1 n (num + 1) _ k1 r hb
    rw [Nat.add_comm] at this
    exact this

theorem emptyCount_initializeGrid (g : PuzzleGrid) : emptyCount (initializeGrid g) = 81 := by
  have hz : clueCount (initializeGrid g) = 0 :=
    clueCount_of_all_zero (fun x y => by rw [initializeGrid, cellAt_gridOf])
  have := clueCount_add_emptyCount (initializeGrid g)
  omega

theorem placeRandomNumbers_returns {draws : Nat → Nat} (hfair : fairDraws draws) (k : Nat) :
    ∃ fuel r, placeRandomNumbers draws fuel (initializeGrid zeroGrid) k = some r := by
  obtain ⟨fuel, r, hr⟩ := placeLoop_returns hfair 9 1 (initializeGrid zeroGrid) k
    (by rw [emptyCount_initializeGrid]; omega)
  exact ⟨fuel, r, hr⟩

/-- More fuel does not change what `CreatePuzzle` returns. -/
theorem CreatePuzzle_mono {S : Solver} {draws : Nat → Nat} {fuel : Nat} (m : Nat)
    {uuid createdAt : String} {level : Int} {p : Puzzle}
    (h : CreatePuzzle S draws fuel uuid createdAt level = some p) :
    CreatePuzzle S draws (fuel + m) uuid createdAt level = some p := by
  obtain ⟨seed, k, hseed, hcase⟩ := CreatePuzzle_cases h
  have hseed1 : placeRandomNumbers draws (fuel + m) (initializeGrid zeroGrid) 0 = some (seed, k) :=
    placeLoop_mono draws fuel m 9 1 _ 0 _ hseed
  rcases hcase with ⟨hs, rfl⟩ | ⟨hs, r, hr, rfl⟩
  · rw [CreatePuzzle, hseed1]
    change createFromAttempt S draws (fuel + m) uuid createdAt level k
      (AttemptSolve S (gridToCells seed)) = _
    rw [createFromAttempt_gridToCells, if_neg (by rw [hs]; decide)]
  · exact CreatePuzzle_of_solved uuid createdAt level hseed1 hs (refinePuzzle_mono m hr)

/-- With a solver that meets its contract and draws that keep reaching every
position, `CreatePuzzle` returns a puzzle for every level from 0 on. -/
theorem CreatePuzzle_returns {S : Solver} (hsolve : solveSound S) (hcount : countSound S)
    {draws : Nat → Nat} (hfair : fairDraws draws) (uuid createdAt : String) {level : Int}
    (hl : 0 ≤ level) : ∃ fuel p, CreatePuzzle S draws fuel uuid createdAt level = some p := by
  obtain ⟨fuel1, sk, hseed⟩ := placeRandomNumbers_returns hfair 0
  obtain ⟨seed, k⟩ := sk
  by_cases hs : (S.solve_sudoku (throughCells seed)).2 = true
  · have hG : validGrid (S.solve_sudoku (throughCells seed)).1 := (hsolve _ hs).1
    obtain ⟨fuel2, r, hr⟩ := refinePuzzle_returns hcount hfair hG hl k
    rw [← throughCells_of_fits (gridFits_of_validGrid hG)] at hr
    have hseed1 : placeRandomNumbers draws (fuel1 + fuel2) (initializeGrid zeroGrid) 0 =
        some (seed, k) := placeLoop_mono draws fuel1 fuel2 9 1 _ 0 _ hseed
    have hr1 := refinePuzzle_mono fuel1 hr
    rw [Nat.add_comm] at hr1
    exact ⟨fuel1 + fuel2, _, CreatePuzzle_of_solved uuid createdAt level hseed1 hs hr1⟩
  · refine ⟨fuel1, failedPuzzle, ?_⟩
    rw [CreatePuzzle, hseed]
    change createFromAttempt S draws fuel1 uuid createdAt level k
      (AttemptSolve S (gridToCells seed)) = _
    rw [createFromAttempt_gridToCells, if_neg hs]

/-! ## `ValidateSolution` on maps whose keys decode -/

theorem decodableKeys_of_wellFormedKeys {l : List (String × Cell)} (h : wellFormedKeys l) :
    decodableKeys l := by
  intro e he
  obtain ⟨q, hq⟩ := h e he
  exact ⟨q, by rw [hq, keyPos_posKey]⟩

theorem systemFold_total_of_system_decodable {l : List (String × Cell)}
    (h : ∀ e ∈ l, e.2.Status = "s" → ∃ q : Pos, keyPos e.1 = some q) :
    ∀ init : PuzzleGrid, ∃ g,
      l.foldlM (fun grid e =>
        if e.2.Status = "s" then
          (keyPos e.1).map (fun p => setCell grid p.1 p.2 (toCInt e.2.Value))
        else some grid) init = some g := by
  induction l with
  | nil => intro init; exact ⟨init, rfl⟩
  | cons a as ih =>
    intro init
    have has : ∀ e ∈ as, e.2.Status = "s" → ∃ q : Pos, keyPos e.1 = some q :=
      fun e he => h e (List.mem_cons_of_mem a he)
    rw [List.foldlM_cons]
    by_cases hs : a.2.Status = "s"
    · obtain ⟨q, hq⟩ := h a (List.mem_cons_self a as) hs
      simp only [hs, if_true, hq, Option.map_some']
      exact ih has _
    · simp only [hs, if_false]
      exact ih has _

theorem cellsFold_total_of_decodable {l : List (String × Cell)} (h : decodableKeys l) :
    ∀ init : PuzzleGrid, ∃ g,
      l.foldlM (fun grid e =>
        (keyPos e.1).map (fun p => setCell grid p.1 p.2 (toCInt e.2.Value))) init = some g := by
  induction l with
  | nil => intro init; exact ⟨init, rfl⟩
  | cons a as ih =>
    intro init
    obtain ⟨q, hq⟩ := h a (List.mem_cons_self a as)
    have has : decodableKeys as := fun e he => h e (List.mem_cons_of_mem a he)
    rw [List.foldlM_cons]
    simp only [hq, Option.map_some']
    exact ih has _

theorem validateCells_total_of_decodable (solved : PuzzleGrid) {l : List (String × Cell)}
    (h : decodableKeys l) : ∃ l1, validateCells solved l = some l1 := by
  induction l with
  | nil => exact ⟨[], rfl⟩
  | cons a as ih =>
    obtain ⟨q, hq⟩ := h a (List.mem_cons_self a as)
    have has : decodableKeys as := fun e he => h e (List.mem_cons_of_mem a he)
    obtain ⟨l1, hl1⟩ := ih has
    have ha : ∃ a1, validateCell solved a = some a1 := by
      unfold validateCell
      by_cases hc : a.2.Status = "s" ∨ a.2.Value = 0
      · exact ⟨a, by rw [if_pos hc]⟩
      · rw [if_neg hc, hq]
        exact ⟨_, rfl⟩
    obtain ⟨a1, ha1⟩ := ha
    refine ⟨a1 :: l1, ?_⟩
    unfold validateCells
    simp [ha1, hl1]

theorem systemFold_none_of_bad {l : List (String × Cell)}
    (h : ∃ e ∈ l, e.2.Status = "s" ∧ keyPos e.1 = none) :
    ∀ init : PuzzleGrid,
      l.foldlM (fun grid e =>
        if e.2.Status = "s" then
          (keyPos e.1).map (fun p => setCell grid p.1 p.2 (toCInt e.2.Value))
        else some grid) init = none := by
  induction l with
  | nil =>
    obtain ⟨e, he, _⟩ := h
    simp at he
  | cons a as ih =>
    intro init
    rw [List.foldlM_cons]
    obtain ⟨e, he, hs, hk⟩ := h
    rcases List.mem_cons.mp he with rfl | hmem
    · simp only [hs, if_true, hk, Option.map_none']
      rfl
    · cases hstep : (if a.2.Status = "s" then
          (keyPos a.1).map (fun p => setCell init p.1 p.2 (toCInt a.2.Value))
        else some init) with
      | none => rfl
      | some g => exact ih ⟨e, hmem, hs, hk⟩ g

theorem cellsFold_none_of_bad {l : List (String × Cell)} (h : ∃ e ∈ l, keyPos e.1 = none) :
    ∀ init : PuzzleGrid,
      l.foldlM (fun grid e =>
        (keyPos e.1).map (fun p => setCell grid p.1 p.2 (toCInt e.2.Value))) init = none := by
  induction l with
  | nil =>
    obtain ⟨e, he, _⟩ := h
    simp at he
  | cons a as ih =>
    intro init
    rw [List.foldlM_cons]
    obtain ⟨e, he, hk⟩ := h
    rcases List.mem_cons.mp he with rfl | hmem
    · simp only [hk, Option.map_none']
      rfl
    · cases hstep : (keyPos a.1).map (fun p => setCell init p.1 p.2 (toCInt a.2.Value)) with
      | none => rfl
      | some g => exact ih ⟨e, hmem, hk⟩ g

/-- When the system grid can be built, the solver succeeds on it and every key
decodes, the validation runs to its end with `ok = true`. -/
theorem ValidateSolution_total_of_decodable (S : Solver) {p : Puzzle} {sg : PuzzleGrid}
    (hsg : systemGridOf p.Cells = some sg) (hs : (S.solve_sudoku sg).2 = true)
    (h : decodableKeys p.Cells) : ∃ p1, ValidateSolution S p = some (p1, true) := by
  obtain ⟨ug, hug⟩ := cellsFold_total_of_decodable h zeroGrid
  obtain ⟨cells, hc⟩ := validateCells_total_of_decodable (S.solve_sudoku sg).1 h
  exact ⟨_, ValidateSolution_solved hsg hs hug hc⟩

/-- The inputs on which `ValidateSolution` indexes the grid out of range. -/
theorem ValidateSolution_none_iff (S : Solver) (p : Puzzle) :
    ValidateSolution S p = none ↔
      (∃ e ∈ p.Cells, e.2.Status = "s" ∧ keyPos e.1 = none) ∨
      (∃ sg, systemGridOf p.Cells = some sg ∧ (S.solve_sudoku sg).2 = true ∧
        ∃ e ∈ p.Cells, keyPos e.1 = none) := by
  constructor
  · intro hnone
    by_cases hbad : ∃ e ∈ p.Cells, e.2.Status = "s" ∧ keyPos e.1 = none
    · exact Or.inl hbad
    · right
      have hdec : ∀ e ∈ p.Cells, e.2.Status = "s" → ∃ q : Pos, keyPos e.1 = some q := by
        intro e he hs
        cases hk : keyPos e.1 with
        | none => exact absurd ⟨e, he, hs, hk⟩ hbad
        | some q => exact ⟨q, rfl⟩
      obtain ⟨sg, hsg⟩ := systemFold_total_of_system_decodable hdec zeroGrid
      have hsg1 : systemGridOf p.Cells = some sg := hsg
      have hs : (S.solve_sudoku sg).2 = true := by
        by_contra hs
        have hf : (S.solve_sudoku sg).2 = false := by simpa using hs
        rw [ValidateSolution_failed hsg1 hf] at hnone
        cases hnone
      refine ⟨sg, hsg1, hs, ?_⟩
      · by_contra hno
        have hall : decodableKeys p.Cells := by
          intro e he
          cases hk : keyPos e.1 with
          | none => exact absurd ⟨e, he, hk⟩ hno
          | some q => exact ⟨q, rfl⟩
        obtain ⟨p1, hp1⟩ := ValidateSolution_total_of_decodable S hsg1 hs hall
        rw [hp1] at hnone
        cases hnone
  · rintro (hbad | ⟨sg, hsg, hs, hbad⟩)
    · have hsg : systemGridOf p.Cells = none := systemFold_none_of_bad hbad zeroGrid
      rw [ValidateSolution, hsg]
    · have hug : cellsToGrid p.Cells = none := cellsFold_none_of_bad hbad zeroGrid
      rw [ValidateSolution, hsg]
      simp only [hs, Bool.true_eq_false, if_false, hug]

/-! ## The marking of user cells -/

theorem wrappedValuePuzzle_validated :
    ValidateSolution referenceSolver wrappedValuePuzzle =
      some (wrappedValuePuzzleValidated, true) := by
  decide

/-- C6, as amended.  When the solver succeeds on the system-only grid and every
key decodes, `ValidateSolution` returns with `ok = true`, and in every puzzle it
returns each cell that is not a system cell and has a nonzero value has the
status `"c"` if its value, converted to a C `int` (wrapped to 32 bits), equals
the solved grid at the position its key denotes, and `"w"` otherwise; for a
value that fits a C `int`, such as a digit, that is equality of the value
itself.  A non-system cell with value 0 keeps its status and a system cell stays
as it is. -/
theorem ValidateSolution_marks_user_cells (S : Solver) (p : Puzzle) (sg : PuzzleGrid)
    (hsg : systemGridOf p.Cells = some sg) (hs : (S.solve_sudoku sg).2 = true) :
    (decodableKeys p.Cells → ∃ p1, ValidateSolution S p = some (p1, true)) ∧
    (∀ p1 ok, ValidateSolution S p = some (p1, ok) →
      ok = true ∧ List.Forall₂ (markedAgainst (S.solve_sudoku sg).1) p.Cells p1.Cells) := by
  refine ⟨fun hk => ValidateSolution_total_of_decodable S hsg hs hk, fun p1 ok h => ?_⟩
  obtain ⟨sg1, hsg1, hcase⟩ := ValidateSolution_cases h
  rw [hsg] at hsg1
  cases hsg1
  rcases hcase with ⟨hf, _, _⟩ | ⟨_, hok, cells, hvc, rfl⟩
  · rw [hs] at hf
    cases hf
  · exact ⟨hok, List.Forall₂.imp (fun _ _ hab => validateCell_markedAgainst hab)
      (validateCells_forall₂ _ _ _ hvc)⟩

theorem examplePuzzle_systemGrid :
    systemGridOf examplePuzzle.Cells =
      some (setCell (setCell (setCell exampleSolution 0 0 0) 0 1 0) 0 2 0) := by
  decide

theorem ValidateSolution_marks_user_cells_witness :
    systemGridOf examplePuzzle.Cells =
      some (setCell (setCell (setCell exampleSolution 0 0 0) 0 1 0) 0 2 0) ∧
    (referenceSolver.solve_sudoku
      (setCell (setCell (setCell exampleSolution 0 0 0) 0 1 0) 0 2 0)).2 = true ∧
    ValidateSolution referenceSolver examplePuzzle = some (examplePuzzleValidated, true) ∧
    List.Forall₂
      (markedAgainst (referenceSolver.solve_sudoku
        (setCell (setCell (setCell exampleSolution 0 0 0) 0 1 0) 0 2 0)).1)
      examplePuzzle.Cells examplePuzzleValidated.Cells :=
  have hs : (referenceSolver.solve_sudoku
      (setCell (setCell (setCell exampleSolution 0 0 0) 0 1 0) 0 2 0)).2 = true := by decide
  ⟨examplePuzzle_systemGrid, hs, examplePuzzle_validated,
    ((ValidateSolution_marks_user_cells referenceSolver examplePuzzle _
      examplePuzzle_systemGrid hs).2 _ _ examplePuzzle_validated).2⟩

/-- C6 fails as stated.  The user cell with key `"01"` of `wrappedValuePuzzle`
holds the value 4294967297; the solver succeeds on the system-only grid and the
solved grid has 1 at the position of the key, yet `ValidateSolution` marks the
cell correct: `C.int(4294967297)` is 1. -/
theorem ValidateSolution_marks_wrapped_value_correct :
    wrappedValuePuzzle.Cells.head? =
      some ("01", { Value := 4294967297, Notes := [], Status := "" }) ∧
    keyPos "01" = some (0, 0) ∧
    systemGridOf wrappedValuePuzzle.Cells = some (setCell exampleSolution 0 0 0) ∧
    referenceSolver.solve_sudoku (setCell exampleSolution 0 0 0) = (exampleSolution, true) ∧
    cellAt exampleSolution 0 0 = 1 ∧ (4294967297 : Int) ≠ 1 ∧ toCInt 4294967297 = 1 ∧
    ValidateSolution referenceSolver wrappedValuePuzzle =
      some (wrappedValuePuzzleValidated, true) ∧
    wrappedValuePuzzleValidated.Cells.head? =
      some ("01", { Value := 4294967297, Notes := [], Status := "c" }) :=
  ⟨by decide, by decide, by decide, by decide, by decide, by decide, by decide,
    wrappedValuePuzzle_validated, by decide⟩

/-! ## The validation handler -/

theorem HandleValidatePuzzle_decoded (S : Solver) (puzzle : Puzzle) :
    HandleValidatePuzzle S false (some puzzle) =
      (ValidateSolution S puzzle).map (fun r => Response.puzzle 200 r.1) := by
  rw [HandleValidatePuzzle]
  cases ValidateSolution S puzzle <;> rfl

/-- C14, as amended.  `HandleValidatePuzzle` rejects a request only when the form
or the JSON body cannot be decoded (status 400).  Every decoded puzzle is handed
to `ValidateSolution` unchecked.  When every key decodes to a row and a column
in `0..8` the response is 200, whatever the cell values are; that is so for the
keys `"01"` .. `"81"` and also for keys outside them such as `"1"`, `"+5"` and
`"081"`.  There is no response, the grid being indexed out of range, exactly
when a system cell has a key that decodes out of range (such as `"00"`, `"82"`
or `"abc"`), or the solver succeeds on the system grid and some cell has such a
key. -/
theorem HandleValidatePuzzle_spec (S : Solver) (puzzle : Puzzle) :
    (∀ decoded, HandleValidatePuzzle S true decoded =
      some (Response.failure 400 "Failed to parse form data")) ∧
    HandleValidatePuzzle S false none =
      some (Response.failure 400 "Failed to decode puzzle from request body") ∧
    HandleValidatePuzzle S false (some puzzle) =
      (ValidateSolution S puzzle).map (fun r => Response.puzzle 200 r.1) ∧
    (decodableKeys puzzle.Cells →
      ∃ body, HandleValidatePuzzle S false (some puzzle) = some (Response.puzzle 200 body)) ∧
    (wellFormedKeys puzzle.Cells → decodableKeys puzzle.Cells) ∧
    (HandleValidatePuzzle S false (some puzzle) = none ↔
      (∃ e ∈ puzzle.Cells, e.2.Status = "s" ∧ keyPos e.1 = none) ∨
      (∃ sg, systemGridOf puzzle.Cells = some sg ∧ (S.solve_sudoku sg).2 = true ∧
        ∃ e ∈ puzzle.Cells, keyPos e.1 = none)) ∧
    (keyPos "1" = some (0, 0) ∧ keyPos "+5" = some (0, 4) ∧ keyPos "081" = some (8, 8) ∧
      keyPos "00" = none ∧ keyPos "82" = none ∧ keyPos "abc" = none) := by
  have hpass := HandleValidatePuzzle_decoded S puzzle
  refine ⟨fun decoded => rfl, rfl, hpass, fun hk => ?_, decodableKeys_of_wellFormedKeys, ?_,
    by decide, by decide, by decide, by decide, by decide, by decide⟩
  · cases hv : ValidateSolution S puzzle with
    | none =>
      exfalso
      rcases (ValidateSolution_none_iff S puzzle).mp hv with ⟨e, he, _, hbad⟩ | ⟨_, _, _, e, he, hbad⟩
      · obtain ⟨q, hq⟩ := hk e he
        rw [hq] at hbad
        cases hbad
      · obtain ⟨q, hq⟩ := hk e he
        rw [hq] at hbad
        cases hbad
    | some r => exact ⟨r.1, by rw [hpass, hv]; rfl⟩
  · rw [hpass, ← ValidateSolution_none_iff]
    cases ValidateSolution S puzzle <;> simp

theorem oddKeyPuzzle_decodable : decodableKeys oddKeyPuzzle.Cells := by
  have h : ∀ e ∈ oddKeyPuzzle.Cells, (keyPos e.1).isSome = true := by decide
  intro e he
  exact Option.isSome_iff_exists.mp (h e he)

theorem HandleValidatePuzzle_spec_witness :
    (oddKeyPuzzle.Cells.map (fun e => e.1) = ["1", "+5", "081"]) ∧
    (¬ wellFormedKeys oddKeyPuzzle.Cells) ∧ decodableKeys oddKeyPuzzle.Cells ∧
    ∃ body, HandleValidatePuzzle referenceSolver false (some oddKeyPuzzle) =
      some (Response.puzzle 200 body) :=
  ⟨by decide, by decide, oddKeyPuzzle_decodable,
    (HandleValidatePuzzle_spec referenceSolver oddKeyPuzzle).2.2.2.1 oddKeyPuzzle_decodable⟩

/-- C14 fails as stated.  The decoded puzzle `badKeyPuzzle` has the key `"00"` on
a system cell: the handler passes it to `ValidateSolution`, which computes the
column -1 and indexes the grid out of range.  The decoded puzzle
`badValuePuzzle` has the cell value 12: the handler passes it on as well and
answers 200 with the cell marked wrong. -/
theorem HandleValidatePuzzle_passes_malformed :
    (badKeyPuzzle.Cells.map (fun e => e.1) = ["00"] ∧
      Int.tmod (wrapInt64 ((atoi "00").1 - 1)) 9 = -1 ∧ keyPos "00" = none ∧
      ValidateSolution referenceSolver badKeyPuzzle = none ∧
      HandleValidatePuzzle referenceSolver false (some badKeyPuzzle) = none) ∧
    (badValuePuzzle.Cells.head? = some ("01", { Value := 12, Notes := [], Status := "" }) ∧
      ValidateSolution referenceSolver badValuePuzzle = some (badValuePuzzleValidated, true) ∧
      HandleValidatePuzzle referenceSolver false (some badValuePuzzle) =
        some (Response.puzzle 200 badValuePuzzleValidated)) := by
  have hpass : HandleValidatePuzzle referenceSolver false (some badValuePuzzle) =
      some (Response.puzzle 200 badValuePuzzleValidated) := by
    rw [HandleValidatePuzzle_decoded, badValuePuzzle_validated]
    rfl
  exact ⟨⟨by decide, by decide, by decide, by decide, by decide⟩,
    by decide, badValuePuzzle_validated, hpass⟩

/-! ## The clue count of the refined grid -/

/-- C3, as amended.  For an input grid without empty cells, with `A` the grid
left by Phase A and `extra = 10 - difficulty` backfill iterations: every grid
`refinePuzzle` returns has as many nonzero cells as `A` plus `extra`, and it can
only be returned when `A` has at least `extra` empty cells, where `extra` is
`min extra empty`.  When `A` has fewer empty cells than `extra`, no grid is
returned, whatever the draws and however long the backfill runs.  With at least
`extra` empty cells and draws that keep reaching every position a grid is
returned.  On a valid solved grid, with a counter that meets its contract,
Phase A leaves at least ten empty cells, at least `extra` for every difficulty
from 0 on. -/
theorem refinePuzzle_clueCount (S : Solver) (draws : Nat → Nat) (grid : PuzzleGrid)
    (difficulty : Int) (k : Nat) (hfull : fullGrid grid) :
    backfillCount difficulty = (10 - difficulty).toNat ∧
    (∀ fuel r, refinePuzzle S draws fuel grid difficulty k = some r →
      clueCount r.1 =
        clueCount (removalPass S (shuffledPositions draws k).1 grid) +
          (10 - difficulty).toNat ∧
      (10 - difficulty).toNat ≤ emptyCount (removalPass S (shuffledPositions draws k).1 grid) ∧
      clueCount r.1 =
        clueCount (removalPass S (shuffledPositions draws k).1 grid) +
          min (10 - difficulty).toNat
            (emptyCount (removalPass S (shuffledPositions draws k).1 grid))) ∧
    (emptyCount (removalPass S (shuffledPositions draws k).1 grid) < (10 - difficulty).toNat →
      ∀ fuel, refinePuzzle S draws fuel grid difficulty k = none) ∧
    ((10 - difficulty).toNat ≤ emptyCount (removalPass S (shuffledPositions draws k).1 grid) →
      fairDraws draws → ∃ fuel r, refinePuzzle S draws fuel grid difficulty k = some r) ∧
    (validGrid grid → countSound S →
      10 ≤ emptyCount (removalPass S (shuffledPositions draws k).1 grid)) := by
  refine ⟨backfillCount_eq difficulty, fun fuel r h => ?_, fun hlt fuel => ?_,
    fun hle hfair => ?_, fun hG hcount => ?_⟩
  · obtain ⟨h1, h2⟩ := refinePuzzle_count hfull h
    rw [backfillCount_eq] at h1 h2
    exact ⟨h1, h2, by rw [h1, Nat.min_eq_left h2]⟩
  · rw [refinePuzzle_eq]
    exact backfill_none_of_few hfull (by rw [backfillCount_eq]; exact hlt) draws fuel _
  · obtain ⟨fuel, r, hr⟩ := backfill_returns hfair grid (backfillCount difficulty)
      (removalPass S (shuffledPositions draws k).1 grid) (shuffledPositions draws k).2
      (by rw [backfillCount_eq]; exact hle)
    exact ⟨fuel, r, by rw [refinePuzzle_eq]; exact hr⟩
  · exact removalPass_leaves_ten hcount hG (mem_shuffledPositions draws k)

theorem refinePuzzle_clueCount_witness :
    fullGrid exampleSolution ∧
    10 ≤ emptyCount (removalPass referenceSolver (shuffledPositions exampleDraws 18).1
      exampleSolution) ∧
    ∃ fuel r, refinePuzzle referenceSolver exampleDraws fuel exampleSolution 3 18 = some r ∧
      clueCount r.1 =
        clueCount (removalPass referenceSolver (shuffledPositions exampleDraws 18).1
          exampleSolution) + 7 := by
  have hfull := fullGrid_of_validGrid exampleSolution_valid
  have hthm := refinePuzzle_clueCount referenceSolver exampleDraws exampleSolution 3 18 hfull
  have h10 := hthm.2.2.2.2 exampleSolution_valid referenceSolver_countSound
  have h7 : (10 - (3 : Int)).toNat = 7 := by decide
  obtain ⟨fuel, r, hr⟩ := hthm.2.2.2.1 (by rw [h7]; omega) exampleDraws_fair
  have hc := (hthm.2.1 fuel r hr).1
  rw [h7] at hc
  exact ⟨hfull, h10, fuel, r, hr, hc⟩

/-- C3 fails as stated.  With one cell removed from the solved grid (80 nonzero
cells, one empty cell) and difficulty 8 (two backfill iterations) the claim
gives 80 + min 2 1 = 81 nonzero cells, but the backfill returns no grid,
whatever the draws and however long it runs.  And on the solved grid itself,
with the reference solver, difficulty 5 and backfill draws that always give the
first cell, `refinePuzzle` returns no grid. -/
theorem refinePuzzle_few_empty_no_grid :
    (clueCount (setCell exampleSolution 0 0 0) = 80 ∧
      emptyCount (setCell exampleSolution 0 0 0) = 1 ∧ backfillCount 8 = 2 ∧
      ∀ (draws : Nat → Nat) (fuel k : Nat),
        backfill draws fuel exampleSolution (backfillCount 8) (setCell exampleSolution 0 0 0) k
          = none) ∧
    (∀ fuel : Nat, refinePuzzle referenceSolver (fun _ => 0) fuel exampleSolution 5 0 = none) := by
  have hfull := fullGrid_of_validGrid exampleSolution_valid
  have h1 := emptyCount_one_removed hfull 0 0
  have h80 : clueCount (setCell exampleSolution 0 0 0) = 80 := by
    have := clueCount_add_emptyCount (setCell exampleSolution 0 0 0)
    omega
  refine ⟨⟨h80, h1, by decide, fun draws fuel k => ?_⟩, fun fuel => ?_⟩
  · apply backfill_none_of_few hfull
    rw [h1]
    decide
  · rw [refinePuzzle_eq]
    exact backfill_none_of_constant (fun _ => rfl) hfull 3 _ fuel _

/-! ## Monotonicity in the difficulty -/

/-- C5.  Monotonicity in the difficulty: for a valid solved grid, a counter that
meets its contract, the same removal order and difficulties `0 ≤ d1 < d2`,
`refinePuzzle` returns a grid for `d1` and a grid for `d2` when the draws keep
reaching every position, and a grid it returns for `d1` has at least as many
nonzero cells as one it returns for `d2`, whatever the backfill draws are. -/
theorem refinePuzzle_monotone (S : Solver) (grid : PuzzleGrid) (d1 d2 : Int)
    (draws1 draws2 : Nat → Nat) (k1 k2 : Nat)
    (hcount : countSound S) (hG : validGrid grid) (h0 : 0 ≤ d1) (hd : d1 < d2)
    (horder : (shuffledPositions draws1 k1).1 = (shuffledPositions draws2 k2).1) :
    (fairDraws draws1 → ∃ fuel1 r1, refinePuzzle S draws1 fuel1 grid d1 k1 = some r1) ∧
    (fairDraws draws2 → ∃ fuel2 r2, refinePuzzle S draws2 fuel2 grid d2 k2 = some r2) ∧
    (∀ fuel1 fuel2 r1 r2, refinePuzzle S draws1 fuel1 grid d1 k1 = some r1 →
      refinePuzzle S draws2 fuel2 grid d2 k2 = some r2 → clueCount r2.1 ≤ clueCount r1.1) := by
  have hfull := fullGrid_of_validGrid hG
  refine ⟨fun hf => refinePuzzle_returns hcount hf hG h0 k1,
    fun hf => refinePuzzle_returns hcount hf hG (by omega) k2, fun fuel1 fuel2 r1 r2 h1 h2 => ?_⟩
  obtain ⟨e1, _⟩ := refinePuzzle_count hfull h1
  obtain ⟨e2, _⟩ := refinePuzzle_count hfull h2
  rw [e1, e2, horder, backfillCount_eq, backfillCount_eq]
  have : (10 - d2).toNat ≤ (10 - d1).toNat := by omega
  omega

theorem refinePuzzle_monotone_witness :
    countSound referenceSolver ∧ validGrid exampleSolution ∧ (0 : Int) ≤ 0 ∧ (0 : Int) < 9 ∧
    fairDraws exampleDraws ∧
    ∃ fuel1 fuel2 r1 r2,
      refinePuzzle referenceSolver exampleDraws fuel1 exampleSolution 0 18 = some r1 ∧
      refinePuzzle referenceSolver exampleDraws fuel2 exampleSolution 9 18 = some r2 ∧
      clueCount r2.1 ≤ clueCount r1.1 := by
  have hthm := refinePuzzle_monotone referenceSolver exampleSolution 0 9 exampleDraws exampleDraws
    18 18 referenceSolver_countSound exampleSolution_valid (by decide) (by decide) rfl
  obtain ⟨fuel1, r1, h1⟩ := hthm.1 exampleDraws_fair
  obtain ⟨fuel2, r2, h2⟩ := hthm.2.1 exampleDraws_fair
  exact ⟨referenceSolver_countSound, exampleSolution_valid, by decide, by decide,
    exampleDraws_fair, fuel1, fuel2, r1, r2, h1, h2, hthm.2.2 fuel1 fuel2 r1 r2 h1 h2⟩

/-! ## The puzzle `CreatePuzzle` returns -/

/-- C1.  With a solver whose `solve` returns a completion or fails and whose
counter tells at most one completion from more than one, and draws that keep
reaching every position, `CreatePuzzle` returns a puzzle for every difficulty
from 0 on (in particular `0..9`), the same however long it is let run; and a
puzzle it returns is of one of two kinds: the solver failed on the seed grid and
the cell map is empty, or the solver succeeded and the cells tagged `"s"` form a
grid with exactly one completion. -/
theorem CreatePuzzle_unique_or_empty (S : Solver) (draws : Nat → Nat)
    (uuid createdAt : String) (level : Int)
    (hsolve : solveSound S) (hcount : countSound S) (hfair : fairDraws draws)
    (hlevel : 0 ≤ level) :
    (∃ fuel p, ∀ m, CreatePuzzle S draws (fuel + m) uuid createdAt level = some p) ∧
    (∀ fuel p, CreatePuzzle S draws fuel uuid createdAt level = some p →
      ∃ seed k, placeRandomNumbers draws fuel (initializeGrid zeroGrid) 0 = some (seed, k) ∧
        (((S.solve_sudoku seed).2 = false ∧ p.Cells = []) ∨
         ((S.solve_sudoku seed).2 = true ∧
           ∃ sg, systemGridOf p.Cells = some sg ∧ hasUniqueCompletion sg))) := by
  constructor
  · obtain ⟨fuel, p, hp⟩ := CreatePuzzle_returns hsolve hcount hfair uuid createdAt hlevel
    exact ⟨fuel, p, fun m => CreatePuzzle_mono m hp⟩
  · intro fuel p h
    obtain ⟨seed, k, hseed, hcase⟩ := CreatePuzzle_cases h
    rw [throughCells_seed hseed] at hcase
    refine ⟨seed, k, hseed, ?_⟩
    rcases hcase with ⟨hs, rfl⟩ | ⟨hs, r, hr, rfl⟩
    · exact Or.inl ⟨hs, rfl⟩
    · right
      have hG : validGrid (S.solve_sudoku seed).1 := (hsolve seed hs).1
      rw [throughCells_of_fits (gridFits_of_validGrid hG)] at hr
      obtain ⟨hsub, hu⟩ := refinePuzzle_unique hcount hG hr
      refine ⟨hs, r.1, ?_, hu⟩
      show systemGridOf (markSystem (gridToCells r.1)) = some r.1
      rw [systemGridOf_markSystem,
        throughCells_of_fits (gridFits_of_subGrid hsub (gridFits_of_validGrid hG))]

theorem CreatePuzzle_unique_or_empty_witness :
    solveSound referenceSolver ∧ countSound referenceSolver ∧ fairDraws exampleDraws ∧
    ∃ fuel p,
      CreatePuzzle referenceSolver exampleDraws fuel "0b0e7a3c" "2024-01-01T00:00:00Z" 0
        = some p ∧
      ∃ seed k,
        placeRandomNumbers exampleDraws fuel (initializeGrid zeroGrid) 0 = some (seed, k) ∧
        (((referenceSolver.solve_sudoku seed).2 = false ∧ p.Cells = []) ∨
         ((referenceSolver.solve_sudoku seed).2 = true ∧
           ∃ sg, systemGridOf p.Cells = some sg ∧ hasUniqueCompletion sg)) := by
  have hthm := CreatePuzzle_unique_or_empty referenceSolver exampleDraws "0b0e7a3c"
    "2024-01-01T00:00:00Z" 0 referenceSolver_solveSound referenceSolver_countSound
    exampleDraws_fair (by decide)
  obtain ⟨fuel, p, hp⟩ := hthm.1
  exact ⟨referenceSolver_solveSound, referenceSolver_countSound, exampleDraws_fair, fuel, p,
    hp 0, hthm.2 fuel p (hp 0)⟩

/-- C10.  With a solver that meets its contract and draws that keep reaching
every position, `CreatePuzzle` returns a puzzle for every level from 0 on, the
same however long it is let run.  When the solver succeeds on the seed grid,
every cell of a puzzle `CreatePuzzle` returns has status `"s"` if and only if
its value is nonzero, every cell with value 0 has the empty (unset) status, and
the difficulty of the puzzle is the level passed in. -/
theorem CreatePuzzle_status (S : Solver) (draws : Nat → Nat)
    (uuid createdAt : String) (level : Int)
    (hsolve : solveSound S) (hcount : countSound S) (hfair : fairDraws draws)
    (hlevel : 0 ≤ level) :
    (∃ fuel p, ∀ m, CreatePuzzle S draws (fuel + m) uuid createdAt level = some p) ∧
    (∀ fuel p, CreatePuzzle S draws fuel uuid createdAt level = some p →
      ∃ seed k, placeRandomNumbers draws fuel (initializeGrid zeroGrid) 0 = some (seed, k) ∧
        ((S.solve_sudoku seed).2 = true →
          (∀ e ∈ p.Cells, (e.2.Status = "s" ↔ e.2.Value ≠ 0) ∧
            (e.2.Value = 0 → e.2.Status = "")) ∧
          p.Cells.length = 81 ∧ p.Difficulty = level)) := by
  constructor
  · obtain ⟨fuel, p, hp⟩ := CreatePuzzle_returns hsolve hcount hfair uuid createdAt hlevel
    exact ⟨fuel, p, fun m => CreatePuzzle_mono m hp⟩
  · intro fuel p h
    obtain ⟨seed, k, hseed, hcase⟩ := CreatePuzzle_cases h
    rw [throughCells_seed hseed] at hcase
    refine ⟨seed, k, hseed, fun hs => ?_⟩
    rcases hcase with ⟨hs1, _⟩ | ⟨_, r, _, rfl⟩
    · rw [hs] at hs1
      cases hs1
    · refine ⟨fun e he => mem_markSystem_gridToCells he, ?_, rfl⟩
      show (markSystem (gridToCells r.1)).length = 81
      rw [markSystem, List.length_map, gridToCells, List.length_map]
      exact allPositions_length

theorem CreatePuzzle_status_witness :
    solveSound referenceSolver ∧ countSound referenceSolver ∧ fairDraws exampleDraws ∧
    (referenceSolver.solve_sudoku exampleSeed).2 = true ∧
    ∃ fuel p,
      CreatePuzzle referenceSolver exampleDraws fuel "7d1f3c55" "2024-01-02T00:00:00Z" 4
        = some p ∧
      ∃ seed k,
        placeRandomNumbers exampleDraws fuel (initializeGrid zeroGrid) 0 = some (seed, k) ∧
        ((referenceSolver.solve_sudoku seed).2 = true →
          (∀ e ∈ p.Cells, (e.2.Status = "s" ↔ e.2.Value ≠ 0) ∧
            (e.2.Value = 0 → e.2.Status = "")) ∧
          p.Cells.length = 81 ∧ p.Difficulty = 4) := by
  have hthm := CreatePuzzle_status referenceSolver exampleDraws "7d1f3c55"
    "2024-01-02T00:00:00Z" 4 referenceSolver_solveSound referenceSolver_countSound
    exampleDraws_fair (by decide)
  obtain ⟨fuel, p, hp⟩ := hthm.1
  exact ⟨referenceSolver_solveSound, referenceSolver_countSound, exampleDraws_fair,
    referenceSolver_complete exampleSeed_completion, fuel, p, hp 0, hthm.2 fuel p (hp 0)⟩

end Sudoku
